import Mathlib

/-!
# Storage market actor of go-filecoin: a shallow embedding

The development follows `actor/builtin/storagemarket/storagemarket.go`; the
last section of definitions follows `NewBlockForTest` of `chain/testing.go`.
Go values are embedded as follows.

* `uint64` counters are natural numbers, incremented modulo `2 ^ 64`.
* `*big.Int`, `*types.AttoFIL` and `*types.BytesAmount` are integers.
* A reference (CID) to a persistent index is identified with the content of
  that index, since the store is content addressed.
* A Go result pair `(interface{}, error)` is a pair of a dynamic `Value` and
  an optional error; `none` stands for the `nil` error.
* Serialised bytes are identified with the value they encode, with one
  exception: a `*big.Int` of the committed state comes back from the store as
  its magnitude (`cbor.storedBigInt`), which decides what the total committed
  storage is after `UpdatePower`.
-/

deriving instance DecidableEq for Except

/-! ## Go standard library functions used by the key codec -/

namespace strconv

/-- Errors of `strconv.ParseUint`: `ErrSyntax`, `ErrRange`, and the errors
reported for an invalid base and for an invalid bit size. -/
inductive NumError
  | ErrSyntax
  | ErrRange
  | ErrBase
  | ErrBitSize
  deriving DecidableEq, Repr

/-- The digit table `digits` of the Go standard library package `strconv`,
which `keyFromID` and `idFromKey` call. -/
def digits : List Char := "0123456789abcdefghijklmnopqrstuvwxyz".toList

/-- The Go expression `digits[d]`. -/
def digitAt (d : Nat) : Char := digits.getD d '0'

/-- The general-base loop of the Go standard library function `formatBits`,
which emits the least significant digit last. The first argument bounds the
number of loop iterations; Go writes into a buffer of `64 + 1` bytes, so at
most 64 iterations happen for a 64-bit value. -/
def formatBits (base : Nat) : Nat → Nat → List Char
  | 0, u => [digitAt u]
  | fuel + 1, u =>
    if u ≥ base then formatBits base fuel (u / base) ++ [digitAt (u - (u / base) * base)]
    else [digitAt u]

/-- The Go standard library function `strconv.FormatUint(i, base)` for
`2 ≤ base ≤ 36`. -/
def FormatUint (i : Nat) (base : Nat) : String := String.mk (formatBits base 64 i)

/-- The Go helper `lower(c) = c | ('x' - 'X')`. -/
def lower (c : Nat) : Nat := c ||| 32

/-- The largest `uint64`. -/
def maxUint64 : Nat := 2 ^ 64 - 1

/-- The digit value `ParseUint` assigns to a character: `'0'..'9'` are 0..9,
letters of either case are 10..35, anything else is not a digit. A Go string is
scanned bytewise; every byte of a non-ASCII character is at least 128 and is
rejected, as is the character itself here. -/
def digitOf (c : Char) : Option Nat :=
  if 48 ≤ c.toNat ∧ c.toNat ≤ 57 then some (c.toNat - 48)
  else if 97 ≤ lower c.toNat ∧ lower c.toNat ≤ 122 then some (lower c.toNat - 97 + 10)
  else none

/-- The scanning loop of the Go standard library function
`strconv.ParseUint`, with its two overflow checks on 64-bit arithmetic. -/
def parseLoop (base cutoff maxVal : Nat) : List Char → Nat → Except NumError Nat
  | [], n => .ok n
  | c :: cs, n =>
    match digitOf c with
    | none => .error .ErrSyntax
    | some d =>
      if d ≥ base then .error .ErrSyntax
      else if n ≥ cutoff then .error .ErrRange
      else
        let m := (n * base) % 2 ^ 64
        let n1 := (m + d) % 2 ^ 64
        if n1 < m ∨ n1 > maxVal then .error .ErrRange
        else parseLoop base cutoff maxVal cs n1

/-- The Go standard library function `strconv.ParseUint(s, base, bitSize)`
for an explicit base between 2 and 36. Base 0 (with its literal markers and
underscores) is not used by the actor and is reported as `ErrBase` here. A bit
size of 0 stands for the size of `int`, which is 64. -/
def ParseUint (s : String) (base bitSize : Nat) : Except NumError Nat :=
  if s = "" then .error .ErrSyntax
  else if ¬ (2 ≤ base ∧ base ≤ 36) then .error .ErrBase
  else if bitSize > 64 then .error .ErrBitSize
  else
    parseLoop base (maxUint64 / base + 1) (2 ^ (if bitSize = 0 then 64 else bitSize) - 1)
      s.toList 0

/-- A character that `ParseUint` accepts as a base-36 digit. -/
def isBase36Digit (c : Char) : Prop :=
  (48 ≤ c.toNat ∧ c.toNat ≤ 57) ∨ (97 ≤ c.toNat ∧ c.toNat ≤ 122) ∨ (65 ≤ c.toNat ∧ c.toNat ≤ 90)

instance (c : Char) : Decidable (isBase36Digit c) := by
  unfold isBase36Digit; infer_instance

/-- The value of a base-36 digit character (0 for any other character). -/
def digitValue (c : Char) : Nat :=
  if 48 ≤ c.toNat ∧ c.toNat ≤ 57 then c.toNat - 48
  else if 97 ≤ c.toNat ∧ c.toNat ≤ 122 then c.toNat - 87
  else if 65 ≤ c.toNat ∧ c.toNat ≤ 90 then c.toNat - 55
  else 0

/-- The number denoted by a base-36 numeral, most significant digit first,
continuing from an accumulated value. -/
def numeralFrom (acc : Nat) : List Char → Nat
  | [] => acc
  | c :: cs => numeralFrom (acc * 36 + digitValue c) cs

/-- The number denoted by a base-36 numeral. -/
def numeralValue (s : String) : Nat := numeralFrom 0 s.toList

/-- A valid base-36 unsigned 64-bit integer: a non-empty string of base-36
digits whose value is at most `2 ^ 64 - 1`. -/
def validBase36Uint64 (s : String) : Prop :=
  s ≠ "" ∧ (∀ c ∈ s.toList, isBase36Digit c) ∧ numeralValue s ≤ 2 ^ 64 - 1

end strconv

/-! ## Collaborators of the actor -/

namespace address

/-- Modelled from the spec: `address.Address` and its `String` method are
declared outside the available sources. An address is identified with its
canonical string rendering, the key under which the miner registry stores it. -/
structure Address where
  str : String
  deriving DecidableEq, Repr

/-- The Go method `Address.String`. -/
def Address.String (a : Address) : String := a.str

/-- The zero value `address.Address{}`. -/
def Address.zero : Address := ⟨""⟩

end address

open address (Address)

namespace types

/-- An amount of attoFIL (`*types.AttoFIL`), arbitrary precision. -/
abbrev AttoFIL := Int

/-- A number of bytes (`*types.BytesAmount`), arbitrary precision. -/
abbrev BytesAmount := Int

/-- Modelled from the spec: `AttoFIL.CalculatePrice`, declared outside the
available sources; section 4.4 gives `required = price × size`. -/
def CalculatePrice (z : AttoFIL) (numBytes : BytesAmount) : AttoFIL := z * numBytes

/-- Modelled from the spec: `AttoFIL.LessThan`, the strict order on amounts. -/
def LessThan (z y : AttoFIL) : Bool := decide (z < y)

/-- Actor code identifiers handed to `CreateNewActor`. -/
inductive ActorCode
  | StorageMarketActorCodeCid
  | MinerActorCodeCid
  deriving DecidableEq, Repr

end types

open types (AttoFIL BytesAmount)

namespace hamt

/-- Errors of a persistent index: `hamt.ErrNotFound`, or any other failure of
the underlying store. -/
inductive Error
  | ErrNotFound
  | other (msg : String)
  deriving DecidableEq, Repr

end hamt

namespace errors

/-- An error value produced by a collaborator of the actor (the VM), with the
exit code `CodeError` reports for it. -/
structure ExtError where
  code : Nat
  msg : String
  deriving DecidableEq, Repr

/-- Modelled from the spec: the error values of package `vm/errors`, declared
outside the available sources (section 7). A revert error carries a numeric
code and a message; a fault error signals a broken internal invariant; an
external error is a value returned by a VM collaborator and passed on
unchanged; a plain error is an ordinary Go error built with `fmt.Errorf`. Go
compares errors by identity, so an external error is never one of the actor's
own error values. -/
inductive VMError
  | revert (code : Nat) (msg : String)
  | fault (msg : String)
  | external (e : ExtError)
  | plain (msg : String)
  deriving DecidableEq, Repr

/-- Modelled from the spec: `errors.NewCodedRevertErrorf(code, msg)`. -/
def NewCodedRevertErrorf (code : Nat) (msg : String) : VMError := .revert code msg

/-- Modelled from the spec: `errors.NewRevertErrorf(msg)`, a revert error
without a specific code; its exit code is 1. -/
def NewRevertErrorf (msg : String) : VMError := .revert 1 msg

/-- Modelled from the spec: `errors.NewFaultError(msg)`. -/
def NewFaultError (msg : String) : VMError := .fault msg

/-- Modelled from the spec: `errors.FaultErrorWrap(err, msg)`; the wrapped
cause is dropped, only the fact that the result is a fault matters. -/
def FaultErrorWrap {ε : Type} (_err : ε) (msg : String) : VMError := .fault msg

/-- Modelled from the spec: `errors.CodeError(err)`, the exit status reported
for an error: the code of a coded revert error, 1 for a fault. -/
def CodeError : Option VMError → Nat
  | none => 0
  | some (.revert code _) => code
  | some (.fault _) => 1
  | some (.external e) => e.code
  | some (.plain _) => 1

end errors

open errors (VMError ExtError)

namespace actor

/-- An entry `KeyValue{Key, Value}` as returned by `Lookup.Values`. -/
structure KeyValue (V : Type) where
  Key : String
  Value : V
  deriving DecidableEq, Repr

/-- Modelled from the spec: the persistent index (`actor.Lookup`, a HAMT in
the block store), declared outside the available sources. Section 2 treats it
as an abstract map from string keys to values with copy-on-write updates; it
is a list of entries, and an upsert never adds a key that is already there. -/
structure Lookup (V : Type) where
  entries : List (String × V)
  deriving DecidableEq, Repr

/-- Point lookup in a list of entries. -/
def findEntry {V : Type} (k : String) : List (String × V) → Option V
  | [] => none
  | (k1, v1) :: rest => if k1 = k then some v1 else findEntry k rest

/-- Point upsert in a list of entries: an existing key keeps its position and
gets the new value, a new key is added. -/
def upsertEntry {V : Type} (k : String) (v : V) : List (String × V) → List (String × V)
  | [] => [(k, v)]
  | (k1, v1) :: rest => if k1 = k then (k, v) :: rest else (k1, v1) :: upsertEntry k v rest

/-- Modelled from the spec: `Lookup.Find(key)`, the value or `ErrNotFound`. -/
def Lookup.Find {V : Type} (l : Lookup V) (k : String) : Except hamt.Error V :=
  match findEntry k l.entries with
  | some v => .ok v
  | none => .error .ErrNotFound

/-- Modelled from the spec: `Lookup.Values()`, the list of all entries. -/
def Lookup.Values {V : Type} (l : Lookup V) : Except hamt.Error (List (KeyValue V)) :=
  .ok (l.entries.map fun kv => ⟨kv.1, kv.2⟩)

/-- Modelled from the spec: `actor.LoadLookup(storage, cid)`; a nil reference
loads as the empty index. -/
def LoadLookup {V : Type} (ref : Lookup V) : Except hamt.Error (Lookup V) := .ok ref

/-- Modelled from the spec: `actor.LoadTypedLookup(storage, cid, type)`. -/
def LoadTypedLookup {V : Type} (ref : Lookup V) : Except hamt.Error (Lookup V) := .ok ref

/-- Modelled from the spec: `actor.SetKeyValue(storage, cid, key, value)`,
which loads the index, upserts the entry and returns the new reference. -/
def SetKeyValue {V : Type} (ref : Lookup V) (k : String) (v : V) : Except hamt.Error (Lookup V) :=
  match LoadLookup ref with
  | .error e => .error e
  | .ok l => .ok ⟨upsertEntry k v l.entries⟩

end actor

open actor (Lookup KeyValue)

/-! ## The storage market actor -/

namespace miner

/-- Modelled from the spec: the initialisation data of a storage-provider
actor built by `miner.NewState(owner, publicKey, pledge, pid, collateral)`
(section 4.2). -/
structure State where
  Owner : Address
  PublicKey : List Nat
  PledgeSectors : Int
  PeerID : String
  Collateral : AttoFIL
  deriving DecidableEq, Repr

/-- The Go constructor `miner.NewState`. -/
def NewState (owner : Address) (publicKey : List Nat) (pledge : Int) (pid : String)
    (collateral : AttoFIL) : State :=
  ⟨owner, publicKey, pledge, pid, collateral⟩

end miner

namespace exec

/-- The message being applied: `vmctx.Message()` with its sender and value. -/
structure Message where
  From : Address
  Value : AttoFIL
  deriving DecidableEq, Repr

/-- Modelled from the spec: the VM context of one call (section 6). The
results of the collaborator calls `AddressForNewActor`, `CreateNewActor` and
`Send` are parameters of the call; `none` is the nil error. -/
structure VMContext where
  Message : Message
  AddressForNewActor : Except ExtError Address
  CreateNewActor : Address → types.ActorCode → miner.State → Option ExtError
  Send : Address → String → AttoFIL → Option ExtError

/-- A call made to a collaborator, in the order it was made. -/
inductive Effect
  | addressForNewActor
  | createNewActor (addr : Address) (code : types.ActorCode) (params : miner.State)
  | send (dest : Address) (method : String) (value : AttoFIL)
  | setKeyValue (key : String)
  deriving DecidableEq, Repr

end exec

/-! ## The codec of the committed state -/

namespace cbor

/-- The integer read back from the store for a `*big.Int` that was written to
it. The state is a registered CBOR type and is written with go-ipld-cbor, a
library outside the sources, whose transform for `big.Int` marshals
`i.Bytes()`, the bytes of the absolute value, and unmarshals them with
`SetBytes`: the sign is not stored, and what comes back is the magnitude. -/
def storedBigInt (i : Int) : Int := (i.natAbs : Int)

end cbor

open exec (VMContext Effect)

namespace storagemarket

/-- MinimumPledge is the minimum amount of sectors a user can pledge. -/
def MinimumPledge : Int := 10

def ErrPledgeTooLow : Nat := 33
def ErrUnknownMiner : Nat := 34
def ErrUnknownAsk : Nat := 35
def ErrUnknownBid : Nat := 36
def ErrAskOwnerNotFound : Nat := 37
def ErrNotBidOwner : Nat := 38
def ErrInsufficientSpace : Nat := 39
def ErrInvalidSignature : Nat := 40
def ErrUnknownDeal : Nat := 41
def ErrNotDealOwner : Nat := 42
def ErrDealCommitted : Nat := 43
def ErrInsufficientBidFunds : Nat := 44

/-- The map literal `Errors`, entry by entry as written in the source: the key
and the revert error built for it. -/
def ErrorsTable : List (Nat × VMError) :=
  [ (ErrPledgeTooLow, errors.NewCodedRevertErrorf ErrPledgeTooLow "pledge must be at least 10 sectors"),
    (ErrUnknownMiner, errors.NewCodedRevertErrorf ErrUnknownMiner "unknown miner"),
    (ErrUnknownAsk, errors.NewCodedRevertErrorf ErrUnknownAsk "ask id not found"),
    (ErrUnknownBid, errors.NewCodedRevertErrorf ErrUnknownBid "bid id not found"),
    (ErrAskOwnerNotFound, errors.NewCodedRevertErrorf ErrAskOwnerNotFound "cannot create a deal for someone elses ask"),
    (ErrNotBidOwner, errors.NewCodedRevertErrorf ErrNotBidOwner "ask id not found"),
    (ErrInsufficientSpace, errors.NewCodedRevertErrorf ErrNotBidOwner "not enough space in ask for bid"),
    (ErrInvalidSignature, errors.NewCodedRevertErrorf ErrInvalidSignature "signature failed to validate"),
    (ErrUnknownDeal, errors.NewCodedRevertErrorf ErrUnknownDeal "unknown deal id"),
    (ErrNotDealOwner, errors.NewCodedRevertErrorf ErrNotDealOwner "miner tried to commit with someone elses deal"),
    (ErrDealCommitted, errors.NewCodedRevertErrorf ErrDealCommitted "deal already committed"),
    (ErrInsufficientBidFunds, errors.NewCodedRevertErrorf ErrInsufficientBidFunds "must send price * size funds to create bid") ]

/-- Errors map error codes to revert errors this actor may return. The Go
index expression `Errors[k]` yields the nil error for a missing key. -/
def Errors (k : Nat) : Option VMError := ErrorsTable.lookup k

/-- Modelled from the spec: an ask record (section 3); the type is declared
outside the available sources. -/
structure Ask where
  ID : Nat
  Price : AttoFIL
  Size : BytesAmount
  Owner : Address
  deriving DecidableEq, Repr

/-- Modelled from the spec: a bid record (section 3); the type is declared
outside the available sources. -/
structure Bid where
  ID : Nat
  Price : AttoFIL
  Size : BytesAmount
  Owner : Address
  deriving DecidableEq, Repr

/-- Modelled from the spec: the orderbook (section 3), two indexes and two
unsigned 64-bit counters; the type is declared outside the available sources. -/
structure Orderbook where
  StorageAsks : Lookup Ask
  Bids : Lookup Bid
  NextSAskID : Nat
  NextBidID : Nat
  deriving DecidableEq, Repr

/-- State is the storage market's storage. -/
structure State where
  Miners : Lookup Bool
  Orderbook : Orderbook
  TotalCommittedStorage : Int
  deriving DecidableEq, Repr

/-- The counters of a state hold `uint64` values. -/
def State.wellFormed (st : State) : Prop :=
  st.Orderbook.NextSAskID < 2 ^ 64 ∧ st.Orderbook.NextBidID < 2 ^ 64

instance (st : State) : Decidable st.wellFormed := by
  unfold State.wellFormed; infer_instance

/-- The Go map type `AskSet`, from ask id to ask. -/
abbrev AskSet := List (Nat × Ask)

/-- The Go map type `BidSet`, from bid id to bid. -/
abbrev BidSet := List (Nat × Bid)

/-- The Go map assignment `m[id] = v`. -/
def mapSet {V : Type} (id : Nat) (v : V) : List (Nat × V) → List (Nat × V)
  | [] => [(id, v)]
  | (i, w) :: rest => if i = id then (id, v) :: rest else (i, w) :: mapSet id v rest

/-- The Go map read `m[id]`, if present. -/
def mapGet {V : Type} (id : Nat) : List (Nat × V) → Option V
  | [] => none
  | (i, w) :: rest => if i = id then some w else mapGet id rest

/-- Serialised bytes, identified with the value they encode. -/
inductive Encoded
  | ask (a : Ask)
  | bid (b : Bid)
  | askSet (s : AskSet)
  | bidSet (s : BidSet)
  deriving DecidableEq, Repr

/-- A dynamically typed Go value (`interface{}`) returned by an operation. -/
inductive Value
  | nil
  | bigInt (n : Int)
  | addr (a : Address)
  | bytes (b : Encoded)
  deriving DecidableEq, Repr

/-- The result triple of an exported method: value, exit code, error. -/
structure Reply where
  ret : Value
  code : Nat
  err : Option VMError
  deriving DecidableEq, Repr

/-- Modelled from the spec: `actor.MarshalStorage` applied to an ask. -/
def MarshalAsk (a : Ask) : Value × Option VMError := (.bytes (.ask a), none)

/-- Modelled from the spec: `actor.MarshalStorage` applied to a bid. -/
def MarshalBid (b : Bid) : Value × Option VMError := (.bytes (.bid b), none)

/-- Modelled from the spec: `actor.MarshalStorage` applied to an ask set. -/
def MarshalAskSet (s : AskSet) : Value × Option VMError := (.bytes (.askSet s), none)

/-- Modelled from the spec: `actor.MarshalStorage` applied to a bid set. -/
def MarshalBidSet (s : BidSet) : Value × Option VMError := (.bytes (.bidSet s), none)

/-- Modelled from the spec: `actor.WithState` (section 4.1). The closure runs
on an in-memory copy of the committed state; when it returns the nil error the
copy is committed and the result returned, otherwise the copy is discarded, the
committed state is left untouched and the error is propagated. -/
def WithState (committed : State) (f : State → (Value × Option VMError) × State) :
    (Value × Option VMError) × State :=
  match f committed with
  | ((ret, none), st) => ((ret, none), st)
  | ((_, some err), _) => ((.nil, some err), committed)

/-- The state as the store gives it back once it has been committed: the
references to the miner set and to the orderbook come back as written, the
total committed storage, a `*big.Int`, comes back as its magnitude. A state
read from the store is its own image, so this step shows only where a closure
has assigned the total, which `UpdatePower` alone does. -/
def State.stored (st : State) : State :=
  { st with TotalCommittedStorage := cbor.storedBigInt st.TotalCommittedStorage }

/-- InitializeState stores the actor's initial data structure: no miner
registry yet, an empty orderbook and zero committed storage. -/
def InitializeState : State :=
  { Miners := ⟨[]⟩
    Orderbook := { StorageAsks := ⟨[]⟩, Bids := ⟨[]⟩, NextSAskID := 0, NextBidID := 0 }
    TotalCommittedStorage := 0 }

/-- The Go conversion `x.Uint64()` of a `*big.Int`: the low 64 bits of the
absolute value. -/
def Uint64 (x : Int) : Nat := x.natAbs % 2 ^ 64

def keyFromID (askID : Nat) : String := strconv.FormatUint askID 36

def idFromKey (key : String) : Except strconv.NumError Nat := strconv.ParseUint key 36 64

/-- The closure `CreateMiner` hands to `WithState`, together with the list of
collaborator calls it made, in order. -/
def CreateMinerClosure (vmctx : VMContext) (pledge : Int) (publicKey : List Nat) (pid : String)
    (state : State) : List Effect × ((Value × Option VMError) × State) :=
  if pledge < MinimumPledge then
    ([], ((.nil, Errors ErrPledgeTooLow), state))
  else
    match vmctx.AddressForNewActor with
    | .error err =>
      ([.addressForNewActor],
        ((.nil, some (errors.FaultErrorWrap err "could not get address for new actor")), state))
    | .ok addr =>
      let minerInitializationParams :=
        miner.NewState vmctx.Message.From publicKey pledge pid vmctx.Message.Value
      match vmctx.CreateNewActor addr .MinerActorCodeCid minerInitializationParams with
      | some err =>
        ([.addressForNewActor, .createNewActor addr .MinerActorCodeCid minerInitializationParams],
          ((.nil, some (.external err)), state))
      | none =>
        match vmctx.Send addr "" vmctx.Message.Value with
        | some err =>
          ([.addressForNewActor, .createNewActor addr .MinerActorCodeCid minerInitializationParams,
            .send addr "" vmctx.Message.Value],
            ((.nil, some (.external err)), state))
        | none =>
          match actor.SetKeyValue state.Miners addr.String true with
          | .error err =>
            ([.addressForNewActor, .createNewActor addr .MinerActorCodeCid minerInitializationParams,
              .send addr "" vmctx.Message.Value, .setKeyValue addr.String],
              ((.nil, some (errors.FaultErrorWrap err
                "could not set miner key value for lookup with CID")), state))
          | .ok miners =>
            ([.addressForNewActor, .createNewActor addr .MinerActorCodeCid minerInitializationParams,
              .send addr "" vmctx.Message.Value, .setKeyValue addr.String],
              ((.addr addr, none), { state with Miners := miners }))

/-- CreateMiner creates a new miner with the a pledge of the given amount of
sectors. The miners collateral is set by the value in the message. The
unchecked assertion `ret.(address.Address)` would panic on a value that is not
an address; the closure returns none, and that case is given a plain error. -/
def CreateMiner (vmctx : VMContext) (pledge : Int) (publicKey : List Nat) (pid : String)
    (st : State) : Reply × State :=
  match WithState st (fun state => (CreateMinerClosure vmctx pledge publicKey pid state).2) with
  | ((_, some err), st1) => (⟨.addr Address.zero, errors.CodeError (some err), some err⟩, st1)
  | ((.addr a, none), st1) => (⟨.addr a, 0, none⟩, st1)
  | ((_, none), st1) => (⟨.addr Address.zero, 1, some (.plain "interface conversion")⟩, st1)

/-- The collaborator calls made by `CreateMiner`, in order. -/
def CreateMinerEffects (vmctx : VMContext) (pledge : Int) (publicKey : List Nat) (pid : String)
    (st : State) : List Effect :=
  (CreateMinerClosure vmctx pledge publicKey pid st).1

/-- The closure `AddAsk` hands to `WithState`. -/
def AddAskClosure (vmctx : VMContext) (price : AttoFIL) (size : BytesAmount)
    (state : State) : (Value × Option VMError) × State :=
  let miner := vmctx.Message.From
  match actor.LoadLookup state.Miners with
  | .error err =>
    ((.nil, some (errors.FaultErrorWrap err "could not load lookup for miner with CID")), state)
  | .ok miners =>
    match miners.Find miner.String with
    | .error err =>
      if err = hamt.Error.ErrNotFound then ((.nil, Errors ErrUnknownMiner), state)
      else ((.nil, some (errors.FaultErrorWrap err "could lookup miner with address")), state)
    | .ok _ =>
      let askID := state.Orderbook.NextSAskID
      let state := { state with
        Orderbook := { state.Orderbook with NextSAskID := (state.Orderbook.NextSAskID + 1) % 2 ^ 64 } }
      let ask : Ask := { ID := askID, Price := price, Size := size, Owner := miner }
      match actor.SetKeyValue state.Orderbook.StorageAsks (keyFromID askID) ask with
      | .error err =>
        ((.nil, some (errors.FaultErrorWrap err "could not set ask with askID into lookup")), state)
      | .ok asks =>
        ((.bigInt (askID : Int), none),
          { state with Orderbook := { state.Orderbook with StorageAsks := asks } })

/-- AddAsk adds an ask order to the orderbook. Must be called by a miner created
by this storage market actor. -/
def AddAsk (vmctx : VMContext) (price : AttoFIL) (size : BytesAmount) (st : State) : Reply × State :=
  match WithState st (AddAskClosure vmctx price size) with
  | ((_, some err), st1) => (⟨.nil, errors.CodeError (some err), some err⟩, st1)
  | ((.bigInt askID, none), st1) => (⟨.bigInt askID, 0, none⟩, st1)
  | ((_, none), st1) =>
    (⟨.nil, 1, some (errors.NewRevertErrorf "expected *big.Int to be returned")⟩, st1)

/-- The closure `AddBid` hands to `WithState`. -/
def AddBidClosure (vmctx : VMContext) (price : AttoFIL) (size : BytesAmount)
    (state : State) : (Value × Option VMError) × State :=
  let lockedFunds := types.CalculatePrice price size
  if types.LessThan vmctx.Message.Value lockedFunds then
    ((.nil, Errors ErrInsufficientBidFunds), state)
  else
    let bidID := state.Orderbook.NextBidID
    let state := { state with
      Orderbook := { state.Orderbook with NextBidID := (state.Orderbook.NextBidID + 1) % 2 ^ 64 } }
    let bid : Bid := { ID := bidID, Price := price, Size := size, Owner := vmctx.Message.From }
    match actor.SetKeyValue state.Orderbook.Bids (keyFromID bidID) bid with
    | .error err =>
      ((.nil, some (errors.FaultErrorWrap err "could not set bid with bidID into lookup")), state)
    | .ok bids =>
      ((.bigInt (bidID : Int), none),
        { state with Orderbook := { state.Orderbook with Bids := bids } })

/-- AddBid adds a bid order to the orderbook. Can be called by anyone. The
message must contain the appropriate amount of funds to be locked up for the
bid. -/
def AddBid (vmctx : VMContext) (price : AttoFIL) (size : BytesAmount) (st : State) : Reply × State :=
  match WithState st (AddBidClosure vmctx price size) with
  | ((_, some err), st1) => (⟨.nil, errors.CodeError (some err), some err⟩, st1)
  | ((.bigInt bidID, none), st1) => (⟨.bigInt bidID, 0, none⟩, st1)
  | ((_, none), st1) =>
    (⟨.nil, 1, some (errors.NewRevertErrorf "expected *big.Int to be returned")⟩, st1)

/-- The closure `UpdatePower` hands to `WithState`. -/
def UpdatePowerClosure (vmctx : VMContext) (delta : Int)
    (state : State) : (Value × Option VMError) × State :=
  let miner := vmctx.Message.From
  match actor.LoadLookup state.Miners with
  | .error err =>
    ((.nil, some (errors.FaultErrorWrap err "could not load lookup for miner with CID")), state)
  | .ok miners =>
    match miners.Find miner.String with
    | .error err =>
      if err = hamt.Error.ErrNotFound then ((.nil, Errors ErrUnknownMiner), state)
      else ((.nil, some (errors.FaultErrorWrap err
        "could not load lookup for miner with address")), state)
    | .ok _ =>
      ((.nil, none),
        { state with TotalCommittedStorage := state.TotalCommittedStorage + delta })

/-- UpdatePower is called to reflect a change in the overall power of the
network. This occurs either when a miner adds a new commitment, or when one is
removed (via slashing or willful removal). The delta is in number of sectors.
The closure adds `delta` to the total in memory; the state that `WithState`
commits is read back by the next message through the codec, so the total of
the resulting state is the magnitude of that sum. -/
def UpdatePower (vmctx : VMContext) (delta : Int) (st : State) : Reply × State :=
  match WithState st (UpdatePowerClosure vmctx delta) with
  | ((_, some err), st1) => (⟨.nil, errors.CodeError (some err), some err⟩, st1)
  | ((_, none), st1) => (⟨.nil, 0, none⟩, st1.stored)

/-- GetTotalStorage returns the total amount of proven storage in the system. -/
def GetTotalStorage (_vmctx : VMContext) (st : State) : Reply × State :=
  match WithState st (fun state => ((.bigInt state.TotalCommittedStorage, none), state)) with
  | ((_, some err), st1) => (⟨.nil, errors.CodeError (some err), some err⟩, st1)
  | ((.bigInt count, none), st1) => (⟨.bigInt count, 0, none⟩, st1)
  | ((_, none), st1) => (⟨.nil, 1, some (.plain "expected *BytesAmount to be returned")⟩, st1)

/-- The closure `GetAsk` hands to `WithState`. -/
def GetAskClosure (askID : Int) (state : State) : (Value × Option VMError) × State :=
  match actor.LoadLookup state.Orderbook.StorageAsks with
  | .error err =>
    ((.nil, some (errors.FaultErrorWrap err "could not load lookup for asks with CID")), state)
  | .ok asks =>
    match asks.Find (strconv.FormatUint (Uint64 askID) 36) with
    | .error err =>
      ((.nil, some (errors.FaultErrorWrap err "could not find ask with askID")), state)
    | .ok ask => (MarshalAsk ask, state)

/-- GetAsk returns the ask on the orderbook for the given askID. -/
def GetAsk (_vmctx : VMContext) (askID : Int) (st : State) : Reply × State :=
  match WithState st (GetAskClosure askID) with
  | ((_, some err), st1) => (⟨.nil, errors.CodeError (some err), some err⟩, st1)
  | ((.bytes ask, none), st1) => (⟨.bytes ask, 0, none⟩, st1)
  | ((_, none), st1) => (⟨.nil, 1, some (.plain "expected []bytes to be returned")⟩, st1)

/-- The closure `GetBid` hands to `WithState`. -/
def GetBidClosure (bidID : Int) (state : State) : (Value × Option VMError) × State :=
  match actor.LoadLookup state.Orderbook.Bids with
  | .error err =>
    ((.nil, some (errors.FaultErrorWrap err "could not load lookup for bids with CID")), state)
  | .ok bids =>
    match bids.Find (strconv.FormatUint (Uint64 bidID) 36) with
    | .error err =>
      ((.nil, some (errors.FaultErrorWrap err "could not find bid with askID")), state)
    | .ok bid => (MarshalBid bid, state)

/-- GetBid returns the bid on the orderbook for the given bidID. -/
def GetBid (_vmctx : VMContext) (bidID : Int) (st : State) : Reply × State :=
  match WithState st (GetBidClosure bidID) with
  | ((_, some err), st1) => (⟨.nil, errors.CodeError (some err), some err⟩, st1)
  | ((.bytes bid, none), st1) => (⟨.bytes bid, 0, none⟩, st1)
  | ((_, none), st1) => (⟨.nil, 1, some (.plain "expected []bytes to be returned")⟩, st1)

/-- The loop of `GetAllAsks` translating the entries of the index to an
`AskSet`. The index is typed, so the assertion `kv.Value.(*Ask)` holds for
every entry. -/
def collectAsks : List (KeyValue Ask) → AskSet → Except VMError AskSet
  | [], asks => .ok asks
  | kv :: rest, asks =>
    match idFromKey kv.Key with
    | .error err => .error (errors.FaultErrorWrap err "Invalid key in orderbook.asks")
    | .ok id => collectAsks rest (mapSet id kv.Value asks)

/-- The closure `GetAllAsks` hands to `WithState`. -/
def GetAllAsksClosure (state : State) : (Value × Option VMError) × State :=
  match actor.LoadTypedLookup state.Orderbook.StorageAsks with
  | .error err =>
    ((.nil, some (errors.FaultErrorWrap err "could not load lookup for asks with CID")), state)
  | .ok askLookup =>
    match askLookup.Values with
    | .error err =>
      ((.nil, some (errors.FaultErrorWrap err
        "could not retrieve ask values from storage market")), state)
    | .ok askValues =>
      match collectAsks askValues [] with
      | .error err => ((.nil, some err), state)
      | .ok asks => (MarshalAskSet asks, state)

/-- GetAllAsks returns all asks on the orderbook. -/
def GetAllAsks (_vmctx : VMContext) (st : State) : Reply × State :=
  match WithState st GetAllAsksClosure with
  | ((_, some err), st1) => (⟨.nil, errors.CodeError (some err), some err⟩, st1)
  | ((.bytes asks, none), st1) => (⟨.bytes asks, 0, none⟩, st1)
  | ((_, none), st1) => (⟨.nil, 1, some (.plain "expected []bytes to be returned")⟩, st1)

/-- The loop of `GetAllBids` translating the entries of the index to a
`BidSet`. The index is typed, so the assertion `kv.Value.(*Bid)` holds for
every entry. -/
def collectBids : List (KeyValue Bid) → BidSet → Except VMError BidSet
  | [], bids => .ok bids
  | kv :: rest, bids =>
    match idFromKey kv.Key with
    | .error err => .error (errors.FaultErrorWrap err "Invalid key in orderbook.bids")
    | .ok id => collectBids rest (mapSet id kv.Value bids)

/-- The closure `GetAllBids` hands to `WithState`. -/
def GetAllBidsClosure (state : State) : (Value × Option VMError) × State :=
  match actor.LoadTypedLookup state.Orderbook.Bids with
  | .error err =>
    ((.nil, some (errors.FaultErrorWrap err "could not load lookup for bids with CID")), state)
  | .ok bidLookup =>
    match bidLookup.Values with
    | .error err =>
      ((.nil, some (errors.FaultErrorWrap err
        "could not retrieve bid values from storage market")), state)
    | .ok bidValues =>
      match collectBids bidValues [] with
      | .error err => ((.nil, some err), state)
      | .ok bids => (MarshalBidSet bids, state)

/-- GetAllBids returns all bids on the orderbook. -/
def GetAllBids (_vmctx : VMContext) (st : State) : Reply × State :=
  match WithState st GetAllBidsClosure with
  | ((_, some err), st1) => (⟨.nil, errors.CodeError (some err), some err⟩, st1)
  | ((.bytes bids, none), st1) => (⟨.bytes bids, 0, none⟩, st1)
  | ((_, none), st1) => (⟨.nil, 1, some (.plain "expected []bytes to be returned")⟩, st1)

/-! ## Messages and runs -/

/-- A method of the export table together with its arguments. -/
inductive Call
  | createMiner (pledge : Int) (publicKey : List Nat) (pid : String)
  | addAsk (price : AttoFIL) (size : BytesAmount)
  | addBid (price : AttoFIL) (size : BytesAmount)
  | updatePower (delta : Int)
  | getTotalStorage
  | getAsk (askID : Int)
  | getBid (bidID : Int)
  | getAllAsks
  | getAllBids
  deriving DecidableEq, Repr

/-- One message applied to the actor: the VM context it runs in and the
method called. -/
structure Op where
  vmctx : VMContext
  call : Call

/-- Dispatch of one message against the committed state. -/
def dispatch (op : Op) (st : State) : Reply × State :=
  match op.call with
  | .createMiner pledge publicKey pid => CreateMiner op.vmctx pledge publicKey pid st
  | .addAsk price size => AddAsk op.vmctx price size st
  | .addBid price size => AddBid op.vmctx price size st
  | .updatePower delta => UpdatePower op.vmctx delta st
  | .getTotalStorage => GetTotalStorage op.vmctx st
  | .getAsk askID => GetAsk op.vmctx askID st
  | .getBid bidID => GetBid op.vmctx bidID st
  | .getAllAsks => GetAllAsks op.vmctx st
  | .getAllBids => GetAllBids op.vmctx st

/-- The committed state after applying a sequence of messages, one at a time. -/
def run (st : State) : List Op → State
  | [] => st
  | op :: ops => run (dispatch op st).2 ops

/-- The replies to a sequence of messages, each paired with its message. -/
def replies (st : State) : List Op → List (Op × Reply)
  | [] => []
  | op :: ops => (op, (dispatch op st).1) :: replies (dispatch op st).2 ops

/-- The id returned by a message, when it is a successful `AddAsk`. -/
def askIDOf : Op × Reply → Option Int
  | (⟨_, .addAsk _ _⟩, ⟨.bigInt n, _, none⟩) => some n
  | _ => none

/-- The ids returned by the successful `AddAsk` calls of a run, in order. -/
def askIDs (tr : List (Op × Reply)) : List Int := tr.filterMap askIDOf

/-- The id returned by a message, when it is a successful `AddBid`. -/
def bidIDOf : Op × Reply → Option Int
  | (⟨_, .addBid _ _⟩, ⟨.bigInt n, _, none⟩) => some n
  | _ => none

/-- The ids returned by the successful `AddBid` calls of a run, in order. -/
def bidIDs (tr : List (Op × Reply)) : List Int := tr.filterMap bidIDOf

/-- The address returned by a message, when it is a successful `CreateMiner`. -/
def createdOf : Op × Reply → Option Address
  | (⟨_, .createMiner _ _ _⟩, ⟨.addr a, _, none⟩) => some a
  | _ => none

/-- The addresses returned by the successful `CreateMiner` calls of a run. -/
def createdMiners (tr : List (Op × Reply)) : List Address := tr.filterMap createdOf

/-- The ask a message asked to record, when it is a successful `AddAsk`: the
returned id with the price and size of the call and the sender as owner. -/
def askOf : Op × Reply → Option Ask
  | (⟨vmctx, .addAsk price size⟩, ⟨.bigInt n, _, none⟩) =>
    some ⟨n.toNat, price, size, vmctx.Message.From⟩
  | _ => none

/-- The asks recorded by the successful `AddAsk` calls of a run, in order. -/
def insertedAsks (tr : List (Op × Reply)) : List Ask := tr.filterMap askOf

/-- The bid a message asked to record, when it is a successful `AddBid`: the
returned id with the price and size of the call and the sender as owner. -/
def bidOf : Op × Reply → Option Bid
  | (⟨vmctx, .addBid price size⟩, ⟨.bigInt n, _, none⟩) =>
    some ⟨n.toNat, price, size, vmctx.Message.From⟩
  | _ => none

/-- The bids recorded by the successful `AddBid` calls of a run, in order. -/
def insertedBids (tr : List (Op × Reply)) : List Bid := tr.filterMap bidOf

/-- A VM context for a message from `sender` carrying `value`, in which the VM
hands out `fresh` as the next actor address and every collaborator call
succeeds. -/
def okContext (sender : Address) (value : AttoFIL) (fresh : Address) : VMContext :=
  { Message := ⟨sender, value⟩
    AddressForNewActor := .ok fresh
    CreateNewActor := fun _ _ _ => none
    Send := fun _ _ _ => none }

/-- A sample miner address. -/
def sampleMiner : Address := ⟨"minerA"⟩

/-- A sample client address. -/
def sampleClient : Address := ⟨"clientB"⟩

/-- The message by which `sampleClient` creates the miner `sampleMiner` with a
pledge of 10 sectors. -/
def sampleCreate : Op := ⟨okContext sampleClient 0 sampleMiner, .createMiner 10 [] "peer"⟩

/-- The message by which `sampleMiner` asks a price of 5 for 100 bytes. -/
def sampleAsk : Op := ⟨okContext sampleMiner 0 sampleMiner, .addAsk 5 100⟩

/-- The message by which `sampleClient` bids a price of 5 for 100 bytes and
attaches the value 500. -/
def sampleBid : Op := ⟨okContext sampleClient 500 sampleMiner, .addBid 5 100⟩

/-- The state reached from the initial state once `sampleMiner` is created. -/
def sampleState : State := run InitializeState [sampleCreate]

/-- A long run: `sampleMiner` is created and then posts `2 ^ 64 + 1` asks. -/
def wrapRun : List Op := sampleCreate :: List.replicate (2 ^ 64 + 1) sampleAsk

/-- A long run: `sampleClient` posts `2 ^ 64 + 1` funded bids. -/
def wrapBidRun : List Op := List.replicate (2 ^ 64 + 1) sampleBid

/-- The ask set carried by a reply of `GetAllAsks` (empty for any other reply). -/
def returnedAsks (r : Reply) : AskSet :=
  match r.ret with
  | .bytes (.askSet s) => s
  | _ => []

/-- The bid set carried by a reply of `GetAllBids` (empty for any other reply). -/
def returnedBids (r : Reply) : BidSet :=
  match r.ret with
  | .bytes (.bidSet s) => s
  | _ => []

end storagemarket

/-! ## Deal signing helpers -/

namespace storagemarket

/-- Modelled from the spec: a deal (section 3) references an ask and a bid by
id and carries further data; the type is declared outside the available
sources. -/
structure Deal where
  Ask : Nat
  Bid : Nat
  DataRef : String
  deriving DecidableEq, Repr

/-- A signature (`types.Signature`, a byte slice). -/
abbrev Signature := List Nat

/-- Collaborators of the signing helpers: `deal.Marshal()`, which returns the
serialised bytes or an error, `types.VerifySignature`, and the `SignBytes`
method of a `types.Signer`, which returns a signature and an error. -/
structure SigningContext where
  Marshal : Deal → Except String (List Nat)
  VerifySignature : List Nat → Address → Signature → Bool
  SignBytes : List Nat → Address → Option Signature × Option String

/-- VerifyDealSignature checks if the given deal and signature match to the
provided address. -/
def VerifyDealSignature (env : SigningContext) (deal : Deal) (sig : Signature)
    (addr : Address) : Bool :=
  match env.Marshal deal with
  | .error _ => false
  | .ok dealBytes => env.VerifySignature dealBytes addr sig

/-- SignDeal signs the given deal using the provided address. The result is
the Go pair of a signature (`none` for nil) and an error (`none` for nil). -/
def SignDeal (env : SigningContext) (deal : Deal) (addr : Address) :
    Option Signature × Option String :=
  match env.Marshal deal with
  | .error err => (none, some err)
  | .ok dealBytes => env.SignBytes dealBytes addr

/-- A signing context in which serialisation always fails. -/
def failingMarshal : SigningContext :=
  { Marshal := fun _ => .error "cbor: cannot encode"
    VerifySignature := fun _ _ _ => true
    SignBytes := fun bytes _ => (some bytes, none) }

/-- A signing context in which serialisation yields the two ids and signing
returns the bytes themselves; a signature is valid when it equals the bytes. -/
def plainSigning : SigningContext :=
  { Marshal := fun d => .ok [d.Ask, d.Bid]
    VerifySignature := fun bytes _ sig => decide (sig = bytes)
    SignBytes := fun bytes _ => (some bytes, none) }

/-! ## Further sample messages and runs -/

/-- The delta reported by a message, when it is a successful `UpdatePower`. -/
def powerDeltaOf : Op × Reply → Option Int
  | (⟨_, .updatePower delta⟩, ⟨_, _, none⟩) => some delta
  | _ => none

/-- The deltas of the successful `UpdatePower` calls of a run, in order. -/
def powerDeltas (tr : List (Op × Reply)) : List Int := tr.filterMap powerDeltaOf

/-- A VM context like `okContext` in which `CreateNewActor` fails. -/
def createFailsContext (sender : Address) (value : AttoFIL) (fresh : Address) : VMContext :=
  { Message := ⟨sender, value⟩
    AddressForNewActor := .ok fresh
    CreateNewActor := fun _ _ _ => some ⟨1, "actor already installed"⟩
    Send := fun _ _ _ => none }

/-- The message by which `sampleMiner` reports the loss of one sector. -/
def samplePowerDown : Op := ⟨okContext sampleMiner 0 sampleMiner, .updatePower (-1)⟩

/-- The message by which `sampleMiner` reports three committed sectors. -/
def samplePowerUp : Op := ⟨okContext sampleMiner 0 sampleMiner, .updatePower 3⟩

/-- The message by which `sampleMiner` reports the loss of five sectors. -/
def samplePowerLoss : Op := ⟨okContext sampleMiner 0 sampleMiner, .updatePower (-5)⟩

/-- The state in which `sampleMiner` is registered and has reported three
committed sectors. -/
def poweredState : State := run InitializeState [sampleCreate, samplePowerUp]

/-- The message by which `sampleMiner` asks a price of 7 for 100 bytes. -/
def otherAsk : Op := ⟨okContext sampleMiner 0 sampleMiner, .addAsk 7 100⟩

/-- A run on both sides of the book: `sampleMiner` is created and posts an
ask, the client posts a funded bid, the miner posts a second ask and the
client a second bid. -/
def bookRun : List Op := [sampleCreate, sampleAsk, sampleBid, otherAsk, sampleBid]

/-- The state right after `sampleMiner` posted its first ask. -/
def firstAskState : State := (dispatch sampleAsk sampleState).2

/-- A long sequence of further messages: `2 ^ 64 - 1` more asks at price 5 and
then one ask at price 7. -/
def laterAsks : List Op := List.replicate (2 ^ 64 - 1) sampleAsk ++ [otherAsk]

/-- A long run: `sampleMiner` is created and then posts `2 ^ 64 - 1` asks. -/
def fullRun : List Op := sampleCreate :: List.replicate (2 ^ 64 - 1) sampleAsk

end storagemarket

/-! ## Blocks built for tests -/

namespace chain

/-- A content identifier (`*cid.Cid`), identified with its string form. -/
abbrev Cid := String

/-- The type `types.SortedCidSet`, declared outside the available sources; it
is taken to be what its name says, a set of content identifiers kept as a
sorted list without repetition. The zero value is the empty set. -/
structure SortedCidSet where
  s : List Cid
  deriving DecidableEq, Repr

/-- Insertion of one identifier in a sorted list without repetition. -/
def insertSorted (c : Cid) : List Cid → List Cid
  | [] => [c]
  | x :: xs => if c = x then x :: xs else if c < x then c :: x :: xs else x :: insertSorted c xs

/-- The method `SortedCidSet.Add`, which adds one identifier to the set. -/
def SortedCidSet.Add (set : SortedCidSet) (c : Cid) : SortedCidSet := ⟨insertSorted c set.s⟩

/-- A signed message of a block; the type is declared outside the available
sources and only its empty list is used. -/
structure SignedMessage where
  payload : String
  deriving DecidableEq, Repr

/-- A message receipt of a block; the type is declared outside the available
sources and only its empty list is used. -/
structure MessageReceipt where
  payload : String
  deriving DecidableEq, Repr

/-- The fields of `chain.Block` that `NewBlockForTest` touches; the type is
declared outside the available sources. `Height` and `Nonce` are `types.Uint64`
values and `StateRoot` is a reference that may be nil. -/
structure Block where
  Parents : SortedCidSet
  Height : Nat
  Nonce : Nat
  Messages : List SignedMessage
  MessageReceipts : List MessageReceipt
  StateRoot : Option Cid
  deriving DecidableEq, Repr

/-- NewBlockForTest returns a new block. If a parent block is provided, the
returned block will be configured as if it were a child of that parent. The
method `Block.Cid`, declared outside the available sources, is the parameter
`cidOf`; `none` stands for a nil parent; the sum on `types.Uint64` wraps. -/
def NewBlockForTest (cidOf : Block → Cid) (parent : Option Block) (nonce : Nat) : Block :=
  let block : Block :=
    { Parents := ⟨[]⟩, Height := 0, Nonce := nonce, Messages := [], MessageReceipts := [],
      StateRoot := none }
  match parent with
  | none => block
  | some parent =>
    { block with
      Height := (parent.Height + 1) % 2 ^ 64
      StateRoot := parent.StateRoot
      Parents := block.Parents.Add (cidOf parent) }

/-- A sample block of height 7. -/
def sampleParent : Block :=
  { Parents := ⟨[]⟩, Height := 7, Nonce := 1, Messages := [], MessageReceipts := [],
    StateRoot := some "root7" }

/-- A sample block of the largest height a `types.Uint64` holds. -/
def highestParent : Block :=
  { Parents := ⟨[]⟩, Height := 2 ^ 64 - 1, Nonce := 1, Messages := [], MessageReceipts := [],
    StateRoot := some "rootMax" }

/-- A sample stand-in for `Block.Cid`: the state root and the nonce of a block,
written out. -/
def sampleCid (b : Block) : Cid := b.StateRoot.getD "nil" ++ "/" ++ toString b.Nonce

end chain

/-! ## The key codec -/

namespace strconv

theorem lower_ge_of_ge (x : Nat) (h : 128 ≤ x) : 128 ≤ lower x := by
  obtain ⟨i, hi, hbit⟩ := Nat.ge_two_pow_implies_high_bit_true (show x ≥ 2 ^ 7 from h)
  have hb : (x ||| 32).testBit i = true := by simp [Nat.testBit_or, hbit]
  have h1 : x ||| 32 ≥ 2 ^ i := Nat.testBit_implies_ge hb
  have h2 : 2 ^ 7 ≤ 2 ^ i := Nat.pow_le_pow_right (by decide) hi
  unfold lower
  omega

theorem lower_small : ∀ x < 128,
    ((97 ≤ lower x ∧ lower x ≤ 122) ↔ ((97 ≤ x ∧ x ≤ 122) ∨ (65 ≤ x ∧ x ≤ 90))) ∧
    ((97 ≤ x ∧ x ≤ 122) → lower x = x) ∧ ((65 ≤ x ∧ x ≤ 90) → lower x = x + 32) := by
  decide

theorem digitOf_eq (c : Char) :
    digitOf c = if isBase36Digit c then some (digitValue c) else none := by
  unfold digitOf isBase36Digit digitValue
  by_cases hbig : 128 ≤ c.toNat
  · have := lower_ge_of_ge c.toNat hbig
    have h1 : ¬ (48 ≤ c.toNat ∧ c.toNat ≤ 57) := by omega
    have h2 : ¬ (97 ≤ lower c.toNat ∧ lower c.toNat ≤ 122) := by omega
    have h3 : ¬ ((48 ≤ c.toNat ∧ c.toNat ≤ 57) ∨ (97 ≤ c.toNat ∧ c.toNat ≤ 122) ∨
        (65 ≤ c.toNat ∧ c.toNat ≤ 90)) := by omega
    rw [if_neg h1, if_neg h2, if_neg h3]
  · obtain ⟨hiff, hlo, hup⟩ := lower_small c.toNat (by omega)
    split_ifs <;> first
      | rfl
      | (simp only [Option.some.injEq]; omega)
      | (exfalso; omega)

theorem digitValue_lt (c : Char) : digitValue c < 36 := by
  unfold digitValue
  split_ifs <;> omega

theorem digitAt_spec : ∀ d < 36,
    isBase36Digit (digitAt d) ∧ digitValue (digitAt d) = d := by
  decide

theorem maxUint64_eq : maxUint64 = 18446744073709551615 := by
  unfold maxUint64; norm_num

theorem cutoff36_eq : maxUint64 / 36 + 1 = 512409557603043101 := by
  rw [maxUint64_eq]

theorem two_pow_64_eq : (2 : Nat) ^ 64 = 18446744073709551616 := by norm_num

theorem two_pow_64_pred_eq : (2 : Nat) ^ 64 - 1 = 18446744073709551615 := by norm_num

theorem numeralFrom_ge (cs : List Char) : ∀ n, n ≤ numeralFrom n cs := by
  induction cs with
  | nil => intro n; exact Nat.le_refl n
  | cons c cs ih =>
    intro n
    have := ih (n * 36 + digitValue c)
    simp only [numeralFrom]
    omega

theorem numeralFrom_append (xs : List Char) (c : Char) :
    ∀ acc, numeralFrom acc (xs ++ [c]) = numeralFrom acc xs * 36 + digitValue c := by
  induction xs with
  | nil => intro acc; rfl
  | cons x xs ih =>
    intro acc
    show numeralFrom (acc * 36 + digitValue x) (xs ++ [c]) = _
    exact ih _

theorem parseLoop_digits (cs : List Char) :
    ∀ n, (∀ c ∈ cs, isBase36Digit c) → n ≤ maxUint64 →
      parseLoop 36 (maxUint64 / 36 + 1) (2 ^ 64 - 1) cs n =
        if numeralFrom n cs ≤ maxUint64 then .ok (numeralFrom n cs) else .error .ErrRange := by
  induction cs with
  | nil =>
    intro n _ hn
    simp only [parseLoop, numeralFrom, if_pos hn]
  | cons c cs ih =>
    intro n hd hn
    have hc : isBase36Digit c := hd c (List.mem_cons_self c cs)
    have hcs : ∀ x ∈ cs, isBase36Digit x := fun x hx => hd x (List.mem_cons_of_mem c hx)
    have hlt := digitValue_lt c
    have hmono := numeralFrom_ge cs (n * 36 + digitValue c)
    simp only [parseLoop, numeralFrom, digitOf_eq, if_pos hc, cutoff36_eq, two_pow_64_pred_eq,
      two_pow_64_eq]
    simp only [maxUint64_eq] at hn ⊢
    have hnot : ¬ digitValue c ≥ 36 := by omega
    rw [if_neg hnot]
    by_cases hcut : n ≥ 512409557603043101
    · rw [if_pos hcut, if_neg (by omega)]
    · rw [if_neg hcut]
      have hm : n * 36 % 18446744073709551616 = n * 36 := Nat.mod_eq_of_lt (by omega)
      rw [hm]
      by_cases hov : n * 36 + digitValue c < 18446744073709551616
      · have hm2 : (n * 36 + digitValue c) % 18446744073709551616 = n * 36 + digitValue c :=
          Nat.mod_eq_of_lt hov
        rw [hm2, if_neg (by omega)]
        have := ih (n * 36 + digitValue c) hcs (by rw [maxUint64_eq]; omega)
        simp only [cutoff36_eq, two_pow_64_pred_eq, maxUint64_eq] at this
        exact this
      · have hm2 : (n * 36 + digitValue c) % 18446744073709551616 < n * 36 := by omega
        rw [if_pos (Or.inl hm2), if_neg (by omega)]

theorem parseLoop_nondigit (cs : List Char) :
    ∀ n, (∃ c ∈ cs, ¬ isBase36Digit c) →
      ∃ e, parseLoop 36 (maxUint64 / 36 + 1) (2 ^ 64 - 1) cs n = .error e := by
  induction cs with
  | nil => intro n h; obtain ⟨c, hc, _⟩ := h; cases hc
  | cons c cs ih =>
    intro n h
    simp only [parseLoop, digitOf_eq]
    by_cases hc : isBase36Digit c
    · have hrest : ∃ x ∈ cs, ¬ isBase36Digit x := by
        obtain ⟨x, hx, hnx⟩ := h
        rcases List.mem_cons.mp hx with rfl | hx
        · exact absurd hc hnx
        · exact ⟨x, hx, hnx⟩
      rw [if_pos hc]
      simp only []
      split_ifs
      · exact ⟨_, rfl⟩
      · exact ⟨_, rfl⟩
      · exact ⟨_, rfl⟩
      · exact ih _ hrest
    · rw [if_neg hc]
      exact ⟨_, rfl⟩

theorem formatBits_spec : ∀ fuel u, u < 36 ^ (fuel + 1) →
    (∀ c ∈ formatBits 36 fuel u, isBase36Digit c) ∧ numeralFrom 0 (formatBits 36 fuel u) = u := by
  intro fuel
  induction fuel with
  | zero =>
    intro u hu
    have hu36 : u < 36 := by simpa using hu
    obtain ⟨h1, h2⟩ := digitAt_spec u hu36
    refine ⟨?_, ?_⟩
    · intro c hc
      simp only [formatBits, List.mem_singleton] at hc
      rw [hc]; exact h1
    · simp only [formatBits, numeralFrom, h2]; omega
  | succ fuel ih =>
    intro u hu
    by_cases hge : u ≥ 36
    · have hq : u / 36 < 36 ^ (fuel + 1) := by
        rw [Nat.div_lt_iff_lt_mul (by decide)]
        calc u < 36 ^ (fuel + 1 + 1) := hu
          _ = 36 ^ (fuel + 1) * 36 := by rw [Nat.pow_succ]
      obtain ⟨ih1, ih2⟩ := ih (u / 36) hq
      have hr : u - u / 36 * 36 < 36 := by omega
      obtain ⟨h1, h2⟩ := digitAt_spec _ hr
      have hf : formatBits 36 (fuel + 1) u =
          formatBits 36 fuel (u / 36) ++ [digitAt (u - u / 36 * 36)] := by
        simp only [formatBits, if_pos hge]
      rw [hf]
      refine ⟨?_, ?_⟩
      · intro c hc
        rcases List.mem_append.mp hc with hc | hc
        · exact ih1 c hc
        · rw [List.mem_singleton.mp hc]; exact h1
      · rw [numeralFrom_append, ih2, h2]; omega
    · have hu36 : u < 36 := by omega
      obtain ⟨h1, h2⟩ := digitAt_spec u hu36
      have hf : formatBits 36 (fuel + 1) u = [digitAt u] := by
        simp only [formatBits, if_neg hge]
      rw [hf]
      refine ⟨?_, ?_⟩
      · intro c hc
        rw [List.mem_singleton.mp hc]; exact h1
      · simp only [numeralFrom, h2]; omega

theorem formatBits_ne_nil (base fuel u : Nat) : formatBits base fuel u ≠ [] := by
  cases fuel with
  | zero => simp [formatBits]
  | succ fuel =>
    simp only [formatBits]
    split_ifs <;> simp

theorem formatBits_digits : ∀ fuel u, 0 < u → u < 36 ^ (fuel + 1) →
    formatBits 36 fuel u = (Nat.digits 36 u).reverse.map digitAt := by
  intro fuel
  induction fuel with
  | zero =>
    intro u hpos hu
    have hu36 : u < 36 := by simpa using hu
    rw [Nat.digits_of_lt 36 u (by omega) hu36]
    rfl
  | succ fuel ih =>
    intro u hpos hu
    by_cases hge : u ≥ 36
    · have hq : u / 36 < 36 ^ (fuel + 1) := by
        rw [Nat.div_lt_iff_lt_mul (by decide)]
        calc u < 36 ^ (fuel + 1 + 1) := hu
          _ = 36 ^ (fuel + 1) * 36 := by rw [Nat.pow_succ]
      have hqpos : 0 < u / 36 := Nat.div_pos hge (by decide)
      have hmod : u - u / 36 * 36 = u % 36 := by omega
      rw [Nat.digits_def' (by decide) hpos, List.reverse_cons, List.map_append,
        ← ih (u / 36) hqpos hq]
      simp only [formatBits, if_pos hge, hmod, List.map_cons, List.map_nil]
    · have hu36 : u < 36 := by omega
      rw [Nat.digits_of_lt 36 u (by omega) hu36]
      simp only [formatBits, if_neg hge, List.reverse_cons, List.reverse_nil, List.nil_append,
        List.map_cons, List.map_nil]

theorem uint64_lt_fuel (u : Nat) (h : u < 2 ^ 64) : u < 36 ^ (64 + 1) :=
  Nat.lt_trans h (by norm_num)

theorem ParseUint_36_64 (s : String) (h : s ≠ "") :
    ParseUint s 36 64 = parseLoop 36 (maxUint64 / 36 + 1) (2 ^ 64 - 1) s.toList 0 := by
  unfold ParseUint
  rw [if_neg h, if_neg (by decide), if_neg (by decide), if_neg (by decide)]

theorem toList_eq_nil_iff (s : String) : s.toList = [] ↔ s = "" := by
  constructor
  · intro h
    cases s with
    | mk data => simp only [String.toList] at h; subst h; rfl
  · intro h; subst h; rfl

theorem ParseUint_FormatUint (u : Nat) (h : u < 2 ^ 64) :
    ParseUint (FormatUint u 36) 36 64 = .ok u := by
  obtain ⟨hd, hv⟩ := formatBits_spec 64 u (uint64_lt_fuel u h)
  have hne : FormatUint u 36 ≠ "" := by
    intro hcon
    have : (FormatUint u 36).toList = [] := (toList_eq_nil_iff _).mpr hcon
    exact formatBits_ne_nil 36 64 u this
  rw [ParseUint_36_64 _ hne]
  have hl : (FormatUint u 36).toList = formatBits 36 64 u := rfl
  rw [hl, parseLoop_digits _ 0 hd (Nat.zero_le _), hv, if_pos (by rw [maxUint64_eq]; omega)]

theorem ParseUint_valid (s : String) (hne : s ≠ "") (hd : ∀ c ∈ s.toList, isBase36Digit c) :
    ParseUint s 36 64 =
      if numeralValue s ≤ 2 ^ 64 - 1 then .ok (numeralValue s) else .error .ErrRange := by
  rw [ParseUint_36_64 _ hne, parseLoop_digits _ 0 hd (Nat.zero_le _)]
  rfl

theorem ParseUint_lt (s : String) (n : Nat) (h : ParseUint s 36 64 = .ok n) : n < 2 ^ 64 := by
  by_cases hne : s = ""
  · subst hne; simp [ParseUint] at h
  · by_cases hd : ∀ c ∈ s.toList, isBase36Digit c
    · rw [ParseUint_valid s hne hd] at h
      split_ifs at h with hv
      · injection h with h; omega
    · push_neg at hd
      obtain ⟨e, he⟩ := parseLoop_nondigit s.toList 0 hd
      rw [ParseUint_36_64 _ hne, he] at h
      cases h

end strconv

/-! ## Claims about the key codec -/

namespace storagemarket

/-- Claim C8: for every unsigned 64-bit id, `keyFromID id` is the base-36
rendering of `id` (the digits of `id` in base 36, most significant first, drawn
from `0-9a-z`, and the single digit `0` for zero), `idFromKey (keyFromID id)`
succeeds and returns `id`, and so no other unsigned 64-bit id has the same
key. -/
theorem keyFromID_round_trip (id : Nat) (h : id < 2 ^ 64) :
    (keyFromID id).toList =
        (if id = 0 then ['0'] else (Nat.digits 36 id).reverse.map strconv.digitAt) ∧
      idFromKey (keyFromID id) = .ok id ∧
      ∀ id2, id2 < 2 ^ 64 → keyFromID id2 = keyFromID id → id2 = id := by
  refine ⟨?_, strconv.ParseUint_FormatUint id h, ?_⟩
  · by_cases h0 : id = 0
    · subst h0; rfl
    · rw [if_neg h0]
      exact strconv.formatBits_digits 64 id (Nat.pos_of_ne_zero h0) (strconv.uint64_lt_fuel id h)
  · intro id2 h2 heq
    have e1 := strconv.ParseUint_FormatUint id h
    have e2 := strconv.ParseUint_FormatUint id2 h2
    unfold keyFromID at heq
    rw [heq, e1] at e2
    injection e2 with e2
    exact e2.symm

/-- Witness for `keyFromID_round_trip` at the largest unsigned 64-bit id. -/
theorem keyFromID_round_trip_witness :
    2 ^ 64 - 1 < 2 ^ 64 ∧
    ((keyFromID (2 ^ 64 - 1)).toList =
        (if 2 ^ 64 - 1 = 0 then ['0']
          else (Nat.digits 36 (2 ^ 64 - 1)).reverse.map strconv.digitAt) ∧
      idFromKey (keyFromID (2 ^ 64 - 1)) = .ok (2 ^ 64 - 1) ∧
      ∀ id2, id2 < 2 ^ 64 → keyFromID id2 = keyFromID (2 ^ 64 - 1) → id2 = 2 ^ 64 - 1) :=
  ⟨by norm_num, keyFromID_round_trip (2 ^ 64 - 1) (by norm_num)⟩

/-- Claim C9: `idFromKey` returns an error on the empty string, on every
string holding a character that is not a base-36 digit (`0-9`, `a-z`, `A-Z`),
and on every base-36 numeral whose value exceeds `2 ^ 64 - 1`; on every other
key it succeeds and returns the value of the numeral. -/
theorem idFromKey_rejects (key : String) :
    ((key = "" ∨ (∃ c ∈ key.toList, ¬ strconv.isBase36Digit c) ∨
        2 ^ 64 - 1 < strconv.numeralValue key) ∧ ∃ e, idFromKey key = .error e) ∨
    ((key ≠ "" ∧ (∀ c ∈ key.toList, strconv.isBase36Digit c) ∧
        strconv.numeralValue key ≤ 2 ^ 64 - 1) ∧
      idFromKey key = .ok (strconv.numeralValue key)) := by
  unfold idFromKey
  by_cases hne : key = ""
  · left
    refine ⟨Or.inl hne, ?_⟩
    subst hne
    exact ⟨_, rfl⟩
  · by_cases hd : ∀ c ∈ key.toList, strconv.isBase36Digit c
    · rw [strconv.ParseUint_valid key hne hd]
      by_cases hv : strconv.numeralValue key ≤ 2 ^ 64 - 1
      · right
        rw [if_pos hv]
        exact ⟨⟨hne, hd, hv⟩, rfl⟩
      · left
        rw [if_neg hv]
        exact ⟨Or.inr (Or.inr (Nat.lt_of_not_le hv)), _, rfl⟩
    · left
      have hd2 : ∃ c ∈ key.toList, ¬ strconv.isBase36Digit c := by
        push_neg at hd; exact hd
      obtain ⟨e, he⟩ := strconv.parseLoop_nondigit key.toList 0 hd2
      rw [strconv.ParseUint_36_64 _ hne, he]
      exact ⟨Or.inr (Or.inl hd2), e, rfl⟩

end storagemarket

/-! ## The operations, case by case -/

namespace storagemarket

theorem Errors_PledgeTooLow :
    Errors ErrPledgeTooLow = some (.revert 33 "pledge must be at least 10 sectors") := rfl

theorem Errors_UnknownMiner : Errors ErrUnknownMiner = some (.revert 34 "unknown miner") := rfl

theorem Errors_InsufficientBidFunds :
    Errors ErrInsufficientBidFunds =
      some (.revert 44 "must send price * size funds to create bid") := rfl

theorem AddBid_insufficient (vmctx : VMContext) (price : AttoFIL) (size : BytesAmount) (st : State)
    (h : vmctx.Message.Value < price * size) :
    AddBid vmctx price size st = (⟨.nil, 44, Errors ErrInsufficientBidFunds⟩, st) := by
  simp [AddBid, WithState, AddBidClosure, types.LessThan, types.CalculatePrice, h,
    Errors_InsufficientBidFunds, errors.CodeError]

theorem AddBid_sufficient (vmctx : VMContext) (price : AttoFIL) (size : BytesAmount) (st : State)
    (h : ¬ vmctx.Message.Value < price * size) :
    AddBid vmctx price size st =
      (⟨.bigInt (st.Orderbook.NextBidID : Int), 0, none⟩,
        { st with Orderbook :=
          { st.Orderbook with
            NextBidID := (st.Orderbook.NextBidID + 1) % 2 ^ 64
            Bids := ⟨actor.upsertEntry (keyFromID st.Orderbook.NextBidID)
              ⟨st.Orderbook.NextBidID, price, size, vmctx.Message.From⟩
              st.Orderbook.Bids.entries⟩ } }) := by
  simp [AddBid, WithState, AddBidClosure, types.LessThan, types.CalculatePrice, h,
    actor.SetKeyValue, actor.LoadLookup]

theorem AddAsk_unknown (vmctx : VMContext) (price : AttoFIL) (size : BytesAmount) (st : State)
    (h : actor.findEntry vmctx.Message.From.String st.Miners.entries = none) :
    AddAsk vmctx price size st = (⟨.nil, 34, Errors ErrUnknownMiner⟩, st) := by
  simp [AddAsk, WithState, AddAskClosure, actor.LoadLookup, actor.Lookup.Find, h,
    Errors_UnknownMiner, errors.CodeError]

theorem AddAsk_known (vmctx : VMContext) (price : AttoFIL) (size : BytesAmount) (st : State)
    (b : Bool) (h : actor.findEntry vmctx.Message.From.String st.Miners.entries = some b) :
    AddAsk vmctx price size st =
      (⟨.bigInt (st.Orderbook.NextSAskID : Int), 0, none⟩,
        { st with Orderbook :=
          { st.Orderbook with
            NextSAskID := (st.Orderbook.NextSAskID + 1) % 2 ^ 64
            StorageAsks := ⟨actor.upsertEntry (keyFromID st.Orderbook.NextSAskID)
              ⟨st.Orderbook.NextSAskID, price, size, vmctx.Message.From⟩
              st.Orderbook.StorageAsks.entries⟩ } }) := by
  simp [AddAsk, WithState, AddAskClosure, actor.LoadLookup, actor.Lookup.Find, h,
    actor.SetKeyValue]

theorem UpdatePower_unknown (vmctx : VMContext) (delta : Int) (st : State)
    (h : actor.findEntry vmctx.Message.From.String st.Miners.entries = none) :
    UpdatePower vmctx delta st = (⟨.nil, 34, Errors ErrUnknownMiner⟩, st) := by
  simp [UpdatePower, WithState, UpdatePowerClosure, actor.LoadLookup, actor.Lookup.Find, h,
    Errors_UnknownMiner, errors.CodeError]

theorem UpdatePower_known (vmctx : VMContext) (delta : Int) (st : State)
    (b : Bool) (h : actor.findEntry vmctx.Message.From.String st.Miners.entries = some b) :
    UpdatePower vmctx delta st =
      (⟨.nil, 0, none⟩,
        { st with TotalCommittedStorage :=
          cbor.storedBigInt (st.TotalCommittedStorage + delta) }) := by
  simp [UpdatePower, WithState, UpdatePowerClosure, actor.LoadLookup, actor.Lookup.Find, h,
    State.stored]

theorem GetTotalStorage_eq (vmctx : VMContext) (st : State) :
    GetTotalStorage vmctx st = (⟨.bigInt st.TotalCommittedStorage, 0, none⟩, st) := by
  simp [GetTotalStorage, WithState]

theorem GetAsk_absent (vmctx : VMContext) (askID : Int) (st : State)
    (h : actor.findEntry (strconv.FormatUint (Uint64 askID) 36)
      st.Orderbook.StorageAsks.entries = none) :
    GetAsk vmctx askID st =
      (⟨.nil, 1, some (.fault "could not find ask with askID")⟩, st) := by
  simp [GetAsk, WithState, GetAskClosure, actor.LoadLookup, actor.Lookup.Find, h,
    errors.FaultErrorWrap, errors.CodeError]

theorem GetAsk_present (vmctx : VMContext) (askID : Int) (st : State) (ask : Ask)
    (h : actor.findEntry (strconv.FormatUint (Uint64 askID) 36)
      st.Orderbook.StorageAsks.entries = some ask) :
    GetAsk vmctx askID st = (⟨.bytes (.ask ask), 0, none⟩, st) := by
  simp [GetAsk, WithState, GetAskClosure, actor.LoadLookup, actor.Lookup.Find, h, MarshalAsk]

theorem GetBid_absent (vmctx : VMContext) (bidID : Int) (st : State)
    (h : actor.findEntry (strconv.FormatUint (Uint64 bidID) 36)
      st.Orderbook.Bids.entries = none) :
    GetBid vmctx bidID st =
      (⟨.nil, 1, some (.fault "could not find bid with askID")⟩, st) := by
  simp [GetBid, WithState, GetBidClosure, actor.LoadLookup, actor.Lookup.Find, h,
    errors.FaultErrorWrap, errors.CodeError]

theorem GetBid_present (vmctx : VMContext) (bidID : Int) (st : State) (bid : Bid)
    (h : actor.findEntry (strconv.FormatUint (Uint64 bidID) 36)
      st.Orderbook.Bids.entries = some bid) :
    GetBid vmctx bidID st = (⟨.bytes (.bid bid), 0, none⟩, st) := by
  simp [GetBid, WithState, GetBidClosure, actor.LoadLookup, actor.Lookup.Find, h, MarshalBid]

theorem GetAllAsks_state (vmctx : VMContext) (st : State) : (GetAllAsks vmctx st).2 = st := by
  simp only [GetAllAsks, WithState, GetAllAsksClosure, actor.LoadTypedLookup, actor.Lookup.Values,
    MarshalAskSet]
  cases collectAsks _ [] <;> rfl

theorem GetAllBids_state (vmctx : VMContext) (st : State) : (GetAllBids vmctx st).2 = st := by
  simp only [GetAllBids, WithState, GetAllBidsClosure, actor.LoadTypedLookup, actor.Lookup.Values,
    MarshalBidSet]
  cases collectBids _ [] <;> rfl

theorem CreateMiner_low (vmctx : VMContext) (pledge : Int) (publicKey : List Nat) (pid : String)
    (st : State) (h : pledge < 10) :
    CreateMiner vmctx pledge publicKey pid st =
      (⟨.addr Address.zero, 33, Errors ErrPledgeTooLow⟩, st) := by
  simp [CreateMiner, WithState, CreateMinerClosure, MinimumPledge, h, Errors_PledgeTooLow,
    errors.CodeError]

theorem CreateMiner_noAddress (vmctx : VMContext) (pledge : Int) (publicKey : List Nat)
    (pid : String) (st : State) (h : ¬ pledge < 10) (e : ExtError)
    (ha : vmctx.AddressForNewActor = .error e) :
    CreateMiner vmctx pledge publicKey pid st =
      (⟨.addr Address.zero, 1, some (.fault "could not get address for new actor")⟩, st) := by
  simp [CreateMiner, WithState, CreateMinerClosure, MinimumPledge, h, ha, errors.FaultErrorWrap,
    errors.CodeError]

theorem CreateMiner_createFails (vmctx : VMContext) (pledge : Int) (publicKey : List Nat)
    (pid : String) (st : State) (h : ¬ pledge < 10) (addr : Address)
    (ha : vmctx.AddressForNewActor = .ok addr) (e : ExtError)
    (hc : vmctx.CreateNewActor addr .MinerActorCodeCid
      (miner.NewState vmctx.Message.From publicKey pledge pid vmctx.Message.Value) = some e) :
    CreateMiner vmctx pledge publicKey pid st =
      (⟨.addr Address.zero, e.code, some (.external e)⟩, st) := by
  simp [CreateMiner, WithState, CreateMinerClosure, MinimumPledge, h, ha, hc, errors.CodeError]

theorem CreateMiner_sendFails (vmctx : VMContext) (pledge : Int) (publicKey : List Nat)
    (pid : String) (st : State) (h : ¬ pledge < 10) (addr : Address)
    (ha : vmctx.AddressForNewActor = .ok addr)
    (hc : vmctx.CreateNewActor addr .MinerActorCodeCid
      (miner.NewState vmctx.Message.From publicKey pledge pid vmctx.Message.Value) = none)
    (e : ExtError) (hs : vmctx.Send addr "" vmctx.Message.Value = some e) :
    CreateMiner vmctx pledge publicKey pid st =
      (⟨.addr Address.zero, e.code, some (.external e)⟩, st) := by
  simp [CreateMiner, WithState, CreateMinerClosure, MinimumPledge, h, ha, hc, hs,
    errors.CodeError]

theorem CreateMiner_succeeds (vmctx : VMContext) (pledge : Int) (publicKey : List Nat)
    (pid : String) (st : State) (h : ¬ pledge < 10) (addr : Address)
    (ha : vmctx.AddressForNewActor = .ok addr)
    (hc : vmctx.CreateNewActor addr .MinerActorCodeCid
      (miner.NewState vmctx.Message.From publicKey pledge pid vmctx.Message.Value) = none)
    (hs : vmctx.Send addr "" vmctx.Message.Value = none) :
    CreateMiner vmctx pledge publicKey pid st =
      (⟨.addr addr, 0, none⟩,
        { st with Miners := ⟨actor.upsertEntry addr.String true st.Miners.entries⟩ }) := by
  simp [CreateMiner, WithState, CreateMinerClosure, MinimumPledge, h, ha, hc, hs,
    actor.SetKeyValue, actor.LoadLookup]

/-- The possible outcomes of `CreateMiner`: a failure that leaves the state
as it was and returns the zero address, or a success that returns the address
handed out by the VM and adds it to the miner registry. -/
theorem CreateMiner_outcome (vmctx : VMContext) (pledge : Int) (publicKey : List Nat)
    (pid : String) (st : State) :
    (∃ code e, CreateMiner vmctx pledge publicKey pid st =
        (⟨.addr Address.zero, code, some e⟩, st)) ∨
    (∃ addr, vmctx.AddressForNewActor = .ok addr ∧ ¬ pledge < 10 ∧
      CreateMiner vmctx pledge publicKey pid st =
        (⟨.addr addr, 0, none⟩,
          { st with Miners := ⟨actor.upsertEntry addr.String true st.Miners.entries⟩ })) := by
  by_cases h : pledge < 10
  · exact Or.inl ⟨_, _, CreateMiner_low vmctx pledge publicKey pid st h⟩
  · cases ha : vmctx.AddressForNewActor with
    | error e => exact Or.inl ⟨_, _, CreateMiner_noAddress vmctx pledge publicKey pid st h e ha⟩
    | ok addr =>
      cases hc : vmctx.CreateNewActor addr .MinerActorCodeCid
          (miner.NewState vmctx.Message.From publicKey pledge pid vmctx.Message.Value) with
      | some e =>
        exact Or.inl ⟨_, _, CreateMiner_createFails vmctx pledge publicKey pid st h addr ha e hc⟩
      | none =>
        cases hs : vmctx.Send addr "" vmctx.Message.Value with
        | some e =>
          exact Or.inl ⟨_, _,
            CreateMiner_sendFails vmctx pledge publicKey pid st h addr ha hc e hs⟩
        | none =>
          exact Or.inr ⟨addr, rfl, h,
            CreateMiner_succeeds vmctx pledge publicKey pid st h addr ha hc hs⟩

theorem AddAsk_outcome (vmctx : VMContext) (price : AttoFIL) (size : BytesAmount) (st : State) :
    AddAsk vmctx price size st = (⟨.nil, 34, Errors ErrUnknownMiner⟩, st) ∨
    AddAsk vmctx price size st =
      (⟨.bigInt (st.Orderbook.NextSAskID : Int), 0, none⟩,
        { st with Orderbook :=
          { st.Orderbook with
            NextSAskID := (st.Orderbook.NextSAskID + 1) % 2 ^ 64
            StorageAsks := ⟨actor.upsertEntry (keyFromID st.Orderbook.NextSAskID)
              ⟨st.Orderbook.NextSAskID, price, size, vmctx.Message.From⟩
              st.Orderbook.StorageAsks.entries⟩ } }) := by
  cases h : actor.findEntry vmctx.Message.From.String st.Miners.entries with
  | none => exact Or.inl (AddAsk_unknown vmctx price size st h)
  | some b => exact Or.inr (AddAsk_known vmctx price size st b h)

theorem AddBid_outcome (vmctx : VMContext) (price : AttoFIL) (size : BytesAmount) (st : State) :
    AddBid vmctx price size st = (⟨.nil, 44, Errors ErrInsufficientBidFunds⟩, st) ∨
    AddBid vmctx price size st =
      (⟨.bigInt (st.Orderbook.NextBidID : Int), 0, none⟩,
        { st with Orderbook :=
          { st.Orderbook with
            NextBidID := (st.Orderbook.NextBidID + 1) % 2 ^ 64
            Bids := ⟨actor.upsertEntry (keyFromID st.Orderbook.NextBidID)
              ⟨st.Orderbook.NextBidID, price, size, vmctx.Message.From⟩
              st.Orderbook.Bids.entries⟩ } }) := by
  by_cases h : vmctx.Message.Value < price * size
  · exact Or.inl (AddBid_insufficient vmctx price size st h)
  · exact Or.inr (AddBid_sufficient vmctx price size st h)

theorem UpdatePower_outcome (vmctx : VMContext) (delta : Int) (st : State) :
    UpdatePower vmctx delta st = (⟨.nil, 34, Errors ErrUnknownMiner⟩, st) ∨
    UpdatePower vmctx delta st =
      (⟨.nil, 0, none⟩,
        { st with TotalCommittedStorage :=
          cbor.storedBigInt (st.TotalCommittedStorage + delta) }) := by
  cases h : actor.findEntry vmctx.Message.From.String st.Miners.entries with
  | none => exact Or.inl (UpdatePower_unknown vmctx delta st h)
  | some b => exact Or.inr (UpdatePower_known vmctx delta st b h)

theorem GetAsk_state (vmctx : VMContext) (askID : Int) (st : State) :
    (GetAsk vmctx askID st).2 = st := by
  cases h : actor.findEntry (strconv.FormatUint (Uint64 askID) 36)
      st.Orderbook.StorageAsks.entries with
  | none => rw [GetAsk_absent vmctx askID st h]
  | some a => rw [GetAsk_present vmctx askID st a h]

theorem GetBid_state (vmctx : VMContext) (bidID : Int) (st : State) :
    (GetBid vmctx bidID st).2 = st := by
  cases h : actor.findEntry (strconv.FormatUint (Uint64 bidID) 36)
      st.Orderbook.Bids.entries with
  | none => rw [GetBid_absent vmctx bidID st h]
  | some a => rw [GetBid_present vmctx bidID st a h]

/-- Claim C1 (atomicity): whatever the operation, the state and the message,
if the operation returns an error then the committed market state after the
call (miner set, asks index, bids index, both order id counters and the total
committed storage) equals the state before the call; in particular a failed
`AddAsk` or `AddBid` consumes no order id. -/
theorem atomicity (op : Op) (st : State) (h : (dispatch op st).1.err ≠ none) :
    (dispatch op st).2 = st ∧
      (dispatch op st).2.Orderbook.NextSAskID = st.Orderbook.NextSAskID ∧
      (dispatch op st).2.Orderbook.NextBidID = st.Orderbook.NextBidID := by
  have key : (dispatch op st).2 = st := by
    obtain ⟨vmctx, call⟩ := op
    cases call with
    | createMiner pledge publicKey pid =>
      simp only [dispatch] at h ⊢
      rcases CreateMiner_outcome vmctx pledge publicKey pid st with ⟨c, e, he⟩ | ⟨a, _, _, he⟩
      · rw [he]
      · rw [he] at h; exact absurd rfl h
    | addAsk price size =>
      simp only [dispatch] at h ⊢
      rcases AddAsk_outcome vmctx price size st with he | he
      · rw [he]
      · rw [he] at h; exact absurd rfl h
    | addBid price size =>
      simp only [dispatch] at h ⊢
      rcases AddBid_outcome vmctx price size st with he | he
      · rw [he]
      · rw [he] at h; exact absurd rfl h
    | updatePower delta =>
      simp only [dispatch] at h ⊢
      rcases UpdatePower_outcome vmctx delta st with he | he
      · rw [he]
      · rw [he] at h; exact absurd rfl h
    | getTotalStorage => simp only [dispatch, GetTotalStorage_eq]
    | getAsk askID => exact GetAsk_state vmctx askID st
    | getBid bidID => exact GetBid_state vmctx bidID st
    | getAllAsks => exact GetAllAsks_state vmctx st
    | getAllBids => exact GetAllBids_state vmctx st
  rw [key]
  exact ⟨rfl, rfl, rfl⟩

/-- Witness for `atomicity`: a bid of price 5 for 100 bytes carrying only 499
is rejected on the initial state and leaves it unchanged. -/
theorem atomicity_witness :
    (dispatch ⟨okContext ⟨"B"⟩ 499 ⟨"A"⟩, .addBid 5 100⟩ InitializeState).1.err ≠ none ∧
    ((dispatch ⟨okContext ⟨"B"⟩ 499 ⟨"A"⟩, .addBid 5 100⟩ InitializeState).2 = InitializeState ∧
      (dispatch ⟨okContext ⟨"B"⟩ 499 ⟨"A"⟩, .addBid 5 100⟩ InitializeState).2.Orderbook.NextSAskID
        = InitializeState.Orderbook.NextSAskID ∧
      (dispatch ⟨okContext ⟨"B"⟩ 499 ⟨"A"⟩, .addBid 5 100⟩ InitializeState).2.Orderbook.NextBidID
        = InitializeState.Orderbook.NextBidID) :=
  ⟨by decide, atomicity ⟨okContext ⟨"B"⟩ 499 ⟨"A"⟩, .addBid 5 100⟩ InitializeState (by decide)⟩

end storagemarket

/-! ## Entries of a persistent index -/

namespace actor

theorem findEntry_upsertEntry_self {V : Type} (k : String) (v : V) (l : List (String × V)) :
    findEntry k (upsertEntry k v l) = some v := by
  induction l with
  | nil => simp [upsertEntry, findEntry]
  | cons kv rest ih =>
    obtain ⟨k1, v1⟩ := kv
    by_cases h : k1 = k
    · simp [upsertEntry, findEntry, h]
    · simp [upsertEntry, findEntry, h, ih]

theorem findEntry_upsertEntry_other {V : Type} (k k2 : String) (v : V) (l : List (String × V))
    (hne : k ≠ k2) : findEntry k2 (upsertEntry k v l) = findEntry k2 l := by
  induction l with
  | nil => simp [upsertEntry, findEntry, hne]
  | cons kv rest ih =>
    obtain ⟨k1, v1⟩ := kv
    by_cases h : k1 = k
    · subst h; simp [upsertEntry, findEntry, hne]
    · by_cases h2 : k1 = k2
      · subst h2; simp [upsertEntry, findEntry, h]
      · simp [upsertEntry, findEntry, h, h2, ih]

theorem upsertEntry_absent {V : Type} (k : String) (v : V) (l : List (String × V))
    (h : findEntry k l = none) : upsertEntry k v l = l ++ [(k, v)] := by
  induction l with
  | nil => rfl
  | cons kv rest ih =>
    obtain ⟨k1, v1⟩ := kv
    by_cases h1 : k1 = k
    · simp [findEntry, h1] at h
    · simp only [findEntry, if_neg h1] at h
      simp [upsertEntry, h1, ih h]

end actor

namespace storagemarket

/-! ## Claims about single operations -/

/-- Claim C2 (funds gating): whatever the state and the caller, registered as a
miner or not, and for all prices, sizes and attached values (the non-negative
ones in particular), `AddBid` fails with the insufficient-bid-funds error, code
44, and leaves the state alone when the value is less than price times size;
otherwise it succeeds, returns the previous `NextBidID`, and the bids index of
the new state holds under the key of that id the bid with that id, the given
price and size, and the caller as owner. -/
theorem AddBid_funds_gating (vmctx : VMContext) (price : AttoFIL) (size : BytesAmount)
    (st : State) :
    if vmctx.Message.Value < price * size then
      AddBid vmctx price size st =
        (⟨.nil, 44, some (.revert 44 "must send price * size funds to create bid")⟩, st)
    else
      (AddBid vmctx price size st).1 = ⟨.bigInt (st.Orderbook.NextBidID : Int), 0, none⟩ ∧
      (AddBid vmctx price size st).2.Orderbook.Bids.Find (keyFromID st.Orderbook.NextBidID) =
        .ok ⟨st.Orderbook.NextBidID, price, size, vmctx.Message.From⟩ := by
  by_cases h : vmctx.Message.Value < price * size
  · rw [if_pos h, AddBid_insufficient vmctx price size st h, Errors_InsufficientBidFunds]
  · rw [if_neg h, AddBid_sufficient vmctx price size st h]
    refine ⟨rfl, ?_⟩
    simp only [actor.Lookup.Find, actor.findEntry_upsertEntry_self]

/-- Claim C4 (pledge floor): for every pledge, negative ones included, and
every state, `CreateMiner` fails with the pledge-too-low error of the `Errors`
table exactly when the pledge is below 10, and then reports exit code 33; when
the pledge is at least 10 and the VM hands out an address, creates the actor
and forwards the value without error, `CreateMiner` returns that address with
exit code 0 and the address is in the miner set of the resulting state. -/
theorem CreateMiner_pledge_floor (vmctx : VMContext) (pledge : Int) (publicKey : List Nat)
    (pid : String) (st : State) :
    ((CreateMiner vmctx pledge publicKey pid st).1.err = Errors ErrPledgeTooLow ↔ pledge < 10) ∧
    (pledge < 10 → (CreateMiner vmctx pledge publicKey pid st).1.code = 33 ∧
      errors.CodeError (Errors ErrPledgeTooLow) = 33) ∧
    (∀ addr, 10 ≤ pledge → vmctx.AddressForNewActor = .ok addr →
      vmctx.CreateNewActor addr .MinerActorCodeCid
        (miner.NewState vmctx.Message.From publicKey pledge pid vmctx.Message.Value) = none →
      vmctx.Send addr "" vmctx.Message.Value = none →
      (CreateMiner vmctx pledge publicKey pid st).1 = ⟨.addr addr, 0, none⟩ ∧
      (CreateMiner vmctx pledge publicKey pid st).2.Miners.Find addr.String = .ok true) := by
  refine ⟨?_, ?_, ?_⟩
  · constructor
    · intro herr
      by_contra hlow
      cases ha : vmctx.AddressForNewActor with
      | error e =>
        rw [CreateMiner_noAddress vmctx pledge publicKey pid st hlow e ha] at herr
        simp [Errors_PledgeTooLow] at herr
      | ok addr =>
        cases hc : vmctx.CreateNewActor addr .MinerActorCodeCid
            (miner.NewState vmctx.Message.From publicKey pledge pid vmctx.Message.Value) with
        | some e =>
          rw [CreateMiner_createFails vmctx pledge publicKey pid st hlow addr ha e hc] at herr
          simp [Errors_PledgeTooLow] at herr
        | none =>
          cases hs : vmctx.Send addr "" vmctx.Message.Value with
          | some e =>
            rw [CreateMiner_sendFails vmctx pledge publicKey pid st hlow addr ha hc e hs] at herr
            simp [Errors_PledgeTooLow] at herr
          | none =>
            rw [CreateMiner_succeeds vmctx pledge publicKey pid st hlow addr ha hc hs] at herr
            simp [Errors_PledgeTooLow] at herr
    · intro hlow
      rw [CreateMiner_low vmctx pledge publicKey pid st hlow]
  · intro hlow
    rw [CreateMiner_low vmctx pledge publicKey pid st hlow]
    exact ⟨rfl, rfl⟩
  · intro addr hp ha hc hs
    rw [CreateMiner_succeeds vmctx pledge publicKey pid st (by omega) addr ha hc hs]
    refine ⟨rfl, ?_⟩
    simp only [actor.Lookup.Find, actor.findEntry_upsertEntry_self]

/-- Witness for `CreateMiner_pledge_floor`: a pledge of 9 is refused with code
33, a pledge of 10 registers the address handed out by the VM. -/
theorem CreateMiner_pledge_floor_witness :
    ((9 : Int) < 10 ∧
      (CreateMiner (okContext ⟨"owner"⟩ 7 ⟨"m1"⟩) 9 [1, 2] "peer" InitializeState).1.code = 33) ∧
    ((10 : Int) ≤ 10 ∧
      (CreateMiner (okContext ⟨"owner"⟩ 7 ⟨"m1"⟩) 10 [1, 2] "peer" InitializeState).1
        = ⟨.addr ⟨"m1"⟩, 0, none⟩ ∧
      (CreateMiner (okContext ⟨"owner"⟩ 7 ⟨"m1"⟩) 10 [1, 2] "peer"
        InitializeState).2.Miners.Find (Address.String ⟨"m1"⟩) = .ok true) :=
  ⟨⟨by decide,
    ((CreateMiner_pledge_floor (okContext ⟨"owner"⟩ 7 ⟨"m1"⟩) 9 [1, 2] "peer"
      InitializeState).2.1 (by decide)).1⟩,
   ⟨by decide,
    (CreateMiner_pledge_floor (okContext ⟨"owner"⟩ 7 ⟨"m1"⟩) 10 [1, 2] "peer"
      InitializeState).2.2 ⟨"m1"⟩ (by decide) rfl rfl rfl⟩⟩

theorem Uint64_natCast (n : Nat) (h : n < 2 ^ 64) : Uint64 (n : Int) = n := by
  unfold Uint64
  rw [Int.natAbs_ofNat]
  exact Nat.mod_eq_of_lt h

/-- Claim C6 (point-lookup round trip): in every state whose counters hold
unsigned 64-bit values, when `AddAsk` with a price and size by a caller
succeeds and returns id `i`, `GetAsk i` on the resulting state succeeds with
exit code 0 and yields the ask with id `i`, that price and size, and the caller
as owner; likewise `GetBid` after a successful `AddBid`. -/
theorem point_lookup_round_trip (st : State) (hwf : st.wellFormed) (vmctx reader : VMContext)
    (price : AttoFIL) (size : BytesAmount) :
    ((AddAsk vmctx price size st).1.err = none →
      ∃ i : Nat, (AddAsk vmctx price size st).1 = ⟨.bigInt (i : Int), 0, none⟩ ∧
        GetAsk reader (i : Int) (AddAsk vmctx price size st).2 =
          (⟨.bytes (.ask ⟨i, price, size, vmctx.Message.From⟩), 0, none⟩,
            (AddAsk vmctx price size st).2)) ∧
    ((AddBid vmctx price size st).1.err = none →
      ∃ i : Nat, (AddBid vmctx price size st).1 = ⟨.bigInt (i : Int), 0, none⟩ ∧
        GetBid reader (i : Int) (AddBid vmctx price size st).2 =
          (⟨.bytes (.bid ⟨i, price, size, vmctx.Message.From⟩), 0, none⟩,
            (AddBid vmctx price size st).2)) := by
  obtain ⟨hwa, hwb⟩ := hwf
  constructor
  · intro hok
    rcases AddAsk_outcome vmctx price size st with he | he
    · rw [he, Errors_UnknownMiner] at hok; cases hok
    · refine ⟨st.Orderbook.NextSAskID, by rw [he], ?_⟩
      rw [he]
      apply GetAsk_present
      rw [Uint64_natCast _ hwa]
      exact actor.findEntry_upsertEntry_self _ _ _
  · intro hok
    rcases AddBid_outcome vmctx price size st with he | he
    · rw [he, Errors_InsufficientBidFunds] at hok; cases hok
    · refine ⟨st.Orderbook.NextBidID, by rw [he], ?_⟩
      rw [he]
      apply GetBid_present
      rw [Uint64_natCast _ hwb]
      exact actor.findEntry_upsertEntry_self _ _ _

/-- Witness for `point_lookup_round_trip` on the state in which `sampleMiner`
is registered: its ask and a funded bid both succeed with id 0 and are read
back. -/
theorem point_lookup_round_trip_witness :
    sampleState.wellFormed ∧
    (AddAsk (okContext sampleMiner 500 sampleMiner) 5 100 sampleState).1.err = none ∧
    (AddBid (okContext sampleMiner 500 sampleMiner) 5 100 sampleState).1.err = none ∧
    (∃ i : Nat, (AddAsk (okContext sampleMiner 500 sampleMiner) 5 100 sampleState).1 =
        ⟨.bigInt (i : Int), 0, none⟩ ∧
      GetAsk (okContext sampleClient 0 sampleMiner) (i : Int)
          (AddAsk (okContext sampleMiner 500 sampleMiner) 5 100 sampleState).2 =
        (⟨.bytes (.ask ⟨i, 5, 100, (okContext sampleMiner 500 sampleMiner).Message.From⟩), 0, none⟩,
          (AddAsk (okContext sampleMiner 500 sampleMiner) 5 100 sampleState).2)) ∧
    (∃ i : Nat, (AddBid (okContext sampleMiner 500 sampleMiner) 5 100 sampleState).1 =
        ⟨.bigInt (i : Int), 0, none⟩ ∧
      GetBid (okContext sampleClient 0 sampleMiner) (i : Int)
          (AddBid (okContext sampleMiner 500 sampleMiner) 5 100 sampleState).2 =
        (⟨.bytes (.bid ⟨i, 5, 100, (okContext sampleMiner 500 sampleMiner).Message.From⟩), 0, none⟩,
          (AddBid (okContext sampleMiner 500 sampleMiner) 5 100 sampleState).2)) :=
  ⟨by decide, by decide, by decide,
    (point_lookup_round_trip sampleState (by decide) (okContext sampleMiner 500 sampleMiner)
      (okContext sampleClient 0 sampleMiner) 5 100).1 (by decide),
    (point_lookup_round_trip sampleState (by decide) (okContext sampleMiner 500 sampleMiner)
      (okContext sampleClient 0 sampleMiner) 5 100).2 (by decide)⟩

end storagemarket

/-! ## Runs of messages -/

namespace storagemarket

theorem replies_cons (st : State) (op : Op) (ops : List Op) :
    replies st (op :: ops) = (op, (dispatch op st).1) :: replies (dispatch op st).2 ops := rfl

theorem run_cons (st : State) (op : Op) (ops : List Op) :
    run st (op :: ops) = run (dispatch op st).2 ops := rfl

/-- What one message does to the miner registry: nothing, unless it is a
successful `CreateMiner`, which adds the address it returns. -/
theorem dispatch_miners (op : Op) (st : State) :
    ((dispatch op st).2.Miners = st.Miners ∧ createdOf (op, (dispatch op st).1) = none) ∨
    (∃ addr, (dispatch op st).2.Miners = ⟨actor.upsertEntry addr.String true st.Miners.entries⟩ ∧
      createdOf (op, (dispatch op st).1) = some addr) := by
  obtain ⟨vmctx, call⟩ := op
  cases call with
  | createMiner pledge publicKey pid =>
    simp only [dispatch]
    rcases CreateMiner_outcome vmctx pledge publicKey pid st with ⟨c, e, he⟩ | ⟨a, _, _, he⟩
    · rw [he]; exact Or.inl ⟨rfl, rfl⟩
    · rw [he]; exact Or.inr ⟨a, rfl, rfl⟩
  | addAsk price size =>
    simp only [dispatch]
    rcases AddAsk_outcome vmctx price size st with he | he <;> rw [he] <;> exact Or.inl ⟨rfl, rfl⟩
  | addBid price size =>
    simp only [dispatch]
    rcases AddBid_outcome vmctx price size st with he | he <;> rw [he] <;> exact Or.inl ⟨rfl, rfl⟩
  | updatePower delta =>
    simp only [dispatch]
    rcases UpdatePower_outcome vmctx delta st with he | he <;> rw [he] <;>
      exact Or.inl ⟨rfl, rfl⟩
  | getTotalStorage => exact Or.inl ⟨by simp only [dispatch, GetTotalStorage_eq], rfl⟩
  | getAsk askID => exact Or.inl ⟨by simp only [dispatch, GetAsk_state], rfl⟩
  | getBid bidID => exact Or.inl ⟨by simp only [dispatch, GetBid_state], rfl⟩
  | getAllAsks => exact Or.inl ⟨by simp only [dispatch, GetAllAsks_state], rfl⟩
  | getAllBids => exact Or.inl ⟨by simp only [dispatch, GetAllBids_state], rfl⟩

/-- Every key of the miner registry after a run was there before the run or is
the string of an address returned by a successful `CreateMiner` of the run. -/
theorem miners_of_run (ops : List Op) : ∀ (st : State) (k : String),
    actor.findEntry k (run st ops).Miners.entries ≠ none →
      actor.findEntry k st.Miners.entries ≠ none ∨
        ∃ a ∈ createdMiners (replies st ops), a.String = k := by
  induction ops with
  | nil => intro st k h; exact Or.inl h
  | cons op ops ih =>
    intro st k h
    rw [run_cons] at h
    rw [replies_cons]
    rcases ih (dispatch op st).2 k h with h1 | ⟨a, ha, hk⟩
    · rcases dispatch_miners op st with ⟨hm, _⟩ | ⟨addr, hm, hc⟩
      · rw [hm] at h1; exact Or.inl h1
      · rw [hm] at h1
        by_cases hk : addr.String = k
        · refine Or.inr ⟨addr, ?_, hk⟩
          simp only [createdMiners, List.filterMap_cons, hc]
          exact List.mem_cons_self _ _
        · rw [actor.findEntry_upsertEntry_other _ _ _ _ hk] at h1
          exact Or.inl h1
    · refine Or.inr ⟨a, ?_, hk⟩
      simp only [createdMiners, List.filterMap_cons]
      cases createdOf (op, (dispatch op st).1) with
      | none => exact ha
      | some b => exact List.mem_cons_of_mem _ ha

theorem Address_String_injective (a b : Address) (h : a.String = b.String) : a = b := by
  cases a; cases b
  simp only [Address.String] at h
  rw [h]

/-- Claim C3 (registry gating): in the state reached from the initial state by
any sequence of messages, `AddAsk` and `UpdatePower` called by an address that
no earlier successful `CreateMiner` of the sequence returned fail with the
unknown-miner error, code 34, and leave the state as it is. -/
theorem registry_gating (ops : List Op) (vmctx : VMContext) (price : AttoFIL)
    (size : BytesAmount) (delta : Int)
    (h : vmctx.Message.From ∉ createdMiners (replies InitializeState ops)) :
    AddAsk vmctx price size (run InitializeState ops) =
        (⟨.nil, 34, some (.revert 34 "unknown miner")⟩, run InitializeState ops) ∧
      UpdatePower vmctx delta (run InitializeState ops) =
        (⟨.nil, 34, some (.revert 34 "unknown miner")⟩, run InitializeState ops) := by
  have hnone : actor.findEntry vmctx.Message.From.String
      (run InitializeState ops).Miners.entries = none := by
    by_contra hcon
    rcases miners_of_run ops InitializeState _ hcon with h0 | ⟨a, ha, hk⟩
    · exact h0 rfl
    · rw [Address_String_injective a _ hk] at ha
      exact h ha
  exact ⟨by rw [AddAsk_unknown _ _ _ _ hnone, Errors_UnknownMiner],
    by rw [UpdatePower_unknown _ _ _ hnone, Errors_UnknownMiner]⟩

/-- Witness for `registry_gating`: after `sampleMiner` is created, the client,
which is no miner, can neither post an ask nor report power. -/
theorem registry_gating_witness :
    (okContext sampleClient 0 sampleMiner).Message.From ∉
        createdMiners (replies InitializeState [sampleCreate]) ∧
    (AddAsk (okContext sampleClient 0 sampleMiner) 5 100 (run InitializeState [sampleCreate]) =
        (⟨.nil, 34, some (.revert 34 "unknown miner")⟩, run InitializeState [sampleCreate]) ∧
      UpdatePower (okContext sampleClient 0 sampleMiner) 7 (run InitializeState [sampleCreate]) =
        (⟨.nil, 34, some (.revert 34 "unknown miner")⟩, run InitializeState [sampleCreate])) :=
  ⟨by decide,
    registry_gating [sampleCreate] (okContext sampleClient 0 sampleMiner) 5 100 7 (by decide)⟩

end storagemarket

namespace storagemarket

/-- What one message does to the asks side of the orderbook: nothing, unless
it is a successful `AddAsk`, which returns the current counter, stores the ask
under its key and advances the counter modulo `2 ^ 64`. -/
theorem dispatch_asks (op : Op) (st : State) :
    ((dispatch op st).2.Orderbook.StorageAsks = st.Orderbook.StorageAsks ∧
      (dispatch op st).2.Orderbook.NextSAskID = st.Orderbook.NextSAskID ∧
      askIDOf (op, (dispatch op st).1) = none ∧ askOf (op, (dispatch op st).1) = none) ∨
    (∃ price size,
      (dispatch op st).2.Orderbook.StorageAsks =
        ⟨actor.upsertEntry (keyFromID st.Orderbook.NextSAskID)
          ⟨st.Orderbook.NextSAskID, price, size, op.vmctx.Message.From⟩
          st.Orderbook.StorageAsks.entries⟩ ∧
      (dispatch op st).2.Orderbook.NextSAskID = (st.Orderbook.NextSAskID + 1) % 2 ^ 64 ∧
      askIDOf (op, (dispatch op st).1) = some (st.Orderbook.NextSAskID : Int) ∧
      askOf (op, (dispatch op st).1) =
        some ⟨st.Orderbook.NextSAskID, price, size, op.vmctx.Message.From⟩) := by
  obtain ⟨vmctx, call⟩ := op
  cases call with
  | createMiner pledge publicKey pid =>
    simp only [dispatch]
    rcases CreateMiner_outcome vmctx pledge publicKey pid st with ⟨c, e, he⟩ | ⟨a, _, _, he⟩ <;>
      rw [he] <;> exact Or.inl ⟨rfl, rfl, rfl, rfl⟩
  | addAsk price size =>
    simp only [dispatch]
    rcases AddAsk_outcome vmctx price size st with he | he
    · rw [he]; exact Or.inl ⟨rfl, rfl, rfl, rfl⟩
    · rw [he]; exact Or.inr ⟨price, size, rfl, rfl, rfl, rfl⟩
  | addBid price size =>
    simp only [dispatch]
    rcases AddBid_outcome vmctx price size st with he | he <;> rw [he] <;>
      exact Or.inl ⟨rfl, rfl, rfl, rfl⟩
  | updatePower delta =>
    simp only [dispatch]
    rcases UpdatePower_outcome vmctx delta st with he | he <;> rw [he] <;>
      exact Or.inl ⟨rfl, rfl, rfl, rfl⟩
  | getTotalStorage => exact Or.inl ⟨by simp only [dispatch, GetTotalStorage_eq], by
      simp only [dispatch, GetTotalStorage_eq], rfl, rfl⟩
  | getAsk askID => exact Or.inl ⟨by simp only [dispatch, GetAsk_state], by
      simp only [dispatch, GetAsk_state], rfl, rfl⟩
  | getBid bidID => exact Or.inl ⟨by simp only [dispatch, GetBid_state], by
      simp only [dispatch, GetBid_state], rfl, rfl⟩
  | getAllAsks => exact Or.inl ⟨by simp only [dispatch, GetAllAsks_state], by
      simp only [dispatch, GetAllAsks_state], rfl, rfl⟩
  | getAllBids => exact Or.inl ⟨by simp only [dispatch, GetAllBids_state], by
      simp only [dispatch, GetAllBids_state], rfl, rfl⟩

/-- What one message does to the bids side of the orderbook: nothing, unless
it is a successful `AddBid`, which returns the current counter, stores the bid
under its key and advances the counter modulo `2 ^ 64`. -/
theorem dispatch_bids (op : Op) (st : State) :
    ((dispatch op st).2.Orderbook.Bids = st.Orderbook.Bids ∧
      (dispatch op st).2.Orderbook.NextBidID = st.Orderbook.NextBidID ∧
      bidIDOf (op, (dispatch op st).1) = none ∧ bidOf (op, (dispatch op st).1) = none) ∨
    (∃ price size,
      (dispatch op st).2.Orderbook.Bids =
        ⟨actor.upsertEntry (keyFromID st.Orderbook.NextBidID)
          ⟨st.Orderbook.NextBidID, price, size, op.vmctx.Message.From⟩
          st.Orderbook.Bids.entries⟩ ∧
      (dispatch op st).2.Orderbook.NextBidID = (st.Orderbook.NextBidID + 1) % 2 ^ 64 ∧
      bidIDOf (op, (dispatch op st).1) = some (st.Orderbook.NextBidID : Int) ∧
      bidOf (op, (dispatch op st).1) =
        some ⟨st.Orderbook.NextBidID, price, size, op.vmctx.Message.From⟩) := by
  obtain ⟨vmctx, call⟩ := op
  cases call with
  | createMiner pledge publicKey pid =>
    simp only [dispatch]
    rcases CreateMiner_outcome vmctx pledge publicKey pid st with ⟨c, e, he⟩ | ⟨a, _, _, he⟩ <;>
      rw [he] <;> exact Or.inl ⟨rfl, rfl, rfl, rfl⟩
  | addAsk price size =>
    simp only [dispatch]
    rcases AddAsk_outcome vmctx price size st with he | he <;> rw [he] <;>
      exact Or.inl ⟨rfl, rfl, rfl, rfl⟩
  | addBid price size =>
    simp only [dispatch]
    rcases AddBid_outcome vmctx price size st with he | he
    · rw [he]; exact Or.inl ⟨rfl, rfl, rfl, rfl⟩
    · rw [he]; exact Or.inr ⟨price, size, rfl, rfl, rfl, rfl⟩
  | updatePower delta =>
    simp only [dispatch]
    rcases UpdatePower_outcome vmctx delta st with he | he <;> rw [he] <;>
      exact Or.inl ⟨rfl, rfl, rfl, rfl⟩
  | getTotalStorage => exact Or.inl ⟨by simp only [dispatch, GetTotalStorage_eq], by
      simp only [dispatch, GetTotalStorage_eq], rfl, rfl⟩
  | getAsk askID => exact Or.inl ⟨by simp only [dispatch, GetAsk_state], by
      simp only [dispatch, GetAsk_state], rfl, rfl⟩
  | getBid bidID => exact Or.inl ⟨by simp only [dispatch, GetBid_state], by
      simp only [dispatch, GetBid_state], rfl, rfl⟩
  | getAllAsks => exact Or.inl ⟨by simp only [dispatch, GetAllAsks_state], by
      simp only [dispatch, GetAllAsks_state], rfl, rfl⟩
  | getAllBids => exact Or.inl ⟨by simp only [dispatch, GetAllBids_state], by
      simp only [dispatch, GetAllBids_state], rfl, rfl⟩

theorem ids_step (n m : Nat) (hn : n < 2 ^ 64) :
    ((n : Nat) : Int) ::
        (List.range m).map (fun k => ((((n + 1) % 2 ^ 64 + k) % 2 ^ 64 : Nat) : Int)) =
      (List.range (m + 1)).map (fun k => (((n + k) % 2 ^ 64 : Nat) : Int)) := by
  rw [List.range_succ_eq_map, List.map_cons, List.map_map]
  congr 1
  · rw [Nat.add_zero, Nat.mod_eq_of_lt hn]
  · apply List.map_congr_left
    intro k _
    simp only [Function.comp, Nat.succ_eq_add_one]
    congr 1
    omega

/-- The ids returned by the successful `AddAsk` calls of a run count up from
the counter of the starting state, modulo `2 ^ 64`. -/
theorem askIDs_of_run (ops : List Op) : ∀ st : State, st.Orderbook.NextSAskID < 2 ^ 64 →
    askIDs (replies st ops) =
      (List.range (askIDs (replies st ops)).length).map
        (fun k => (((st.Orderbook.NextSAskID + k) % 2 ^ 64 : Nat) : Int)) := by
  induction ops with
  | nil => intro st _; rfl
  | cons op ops ih =>
    intro st hst
    rw [replies_cons]
    rcases dispatch_asks op st with ⟨_, hn, hid, _⟩ | ⟨price, size, _, hn, hid, _⟩
    · have e : askIDs ((op, (dispatch op st).1) :: replies (dispatch op st).2 ops) =
          askIDs (replies (dispatch op st).2 ops) := by
        simp only [askIDs, List.filterMap_cons, hid]
      rw [e]
      have := ih (dispatch op st).2 (by rw [hn]; exact hst)
      rw [hn] at this
      exact this
    · have e : askIDs ((op, (dispatch op st).1) :: replies (dispatch op st).2 ops) =
          (st.Orderbook.NextSAskID : Int) :: askIDs (replies (dispatch op st).2 ops) := by
        simp only [askIDs, List.filterMap_cons, hid]
      rw [e]
      have := ih (dispatch op st).2 (by rw [hn]; exact Nat.mod_lt _ (by norm_num))
      rw [hn] at this
      rw [List.length_cons, ← ids_step _ _ hst, ← this]

/-- The ids returned by the successful `AddBid` calls of a run count up from
the counter of the starting state, modulo `2 ^ 64`. -/
theorem bidIDs_of_run (ops : List Op) : ∀ st : State, st.Orderbook.NextBidID < 2 ^ 64 →
    bidIDs (replies st ops) =
      (List.range (bidIDs (replies st ops)).length).map
        (fun k => (((st.Orderbook.NextBidID + k) % 2 ^ 64 : Nat) : Int)) := by
  induction ops with
  | nil => intro st _; rfl
  | cons op ops ih =>
    intro st hst
    rw [replies_cons]
    rcases dispatch_bids op st with ⟨_, hn, hid, _⟩ | ⟨price, size, _, hn, hid, _⟩
    · have e : bidIDs ((op, (dispatch op st).1) :: replies (dispatch op st).2 ops) =
          bidIDs (replies (dispatch op st).2 ops) := by
        simp only [bidIDs, List.filterMap_cons, hid]
      rw [e]
      have := ih (dispatch op st).2 (by rw [hn]; exact hst)
      rw [hn] at this
      exact this
    · have e : bidIDs ((op, (dispatch op st).1) :: replies (dispatch op st).2 ops) =
          (st.Orderbook.NextBidID : Int) :: bidIDs (replies (dispatch op st).2 ops) := by
        simp only [bidIDs, List.filterMap_cons, hid]
      rw [e]
      have := ih (dispatch op st).2 (by rw [hn]; exact Nat.mod_lt _ (by norm_num))
      rw [hn] at this
      rw [List.length_cons, ← ids_step _ _ hst, ← this]

end storagemarket

namespace storagemarket

/-- From the initial state the ids of the successful `AddAsk` calls are
`0, 1, 2, ...` reduced modulo `2 ^ 64`, and so are those of `AddBid`. -/
theorem ids_from_genesis (ops : List Op) :
    askIDs (replies InitializeState ops) =
        (List.range (askIDs (replies InitializeState ops)).length).map
          (fun n => ((n % 2 ^ 64 : Nat) : Int)) ∧
      bidIDs (replies InitializeState ops) =
        (List.range (bidIDs (replies InitializeState ops)).length).map
          (fun n => ((n % 2 ^ 64 : Nat) : Int)) := by
  have ha := askIDs_of_run ops InitializeState (by decide)
  have hb := bidIDs_of_run ops InitializeState (by decide)
  rw [show InitializeState.Orderbook.NextSAskID = 0 from rfl] at ha
  rw [show InitializeState.Orderbook.NextBidID = 0 from rfl] at hb
  simp only [Nat.zero_add] at ha hb
  exact ⟨ha, hb⟩

/-- Claim C5 (monotonic ids, amended): from the initial state and for every
sequence of messages, the n-th successful `AddAsk`, counting from 0, returns
the id `n mod 2 ^ 64`, whatever failed calls or other operations are
interleaved; the same holds for `AddBid`, each sequence depending only on the
number of its own earlier successes. For the first `2 ^ 64` successes the id
is `n` itself. -/
theorem monotonic_ids (ops : List Op) :
    askIDs (replies InitializeState ops) =
        (List.range (askIDs (replies InitializeState ops)).length).map
          (fun n => ((n % 2 ^ 64 : Nat) : Int)) ∧
      bidIDs (replies InitializeState ops) =
        (List.range (bidIDs (replies InitializeState ops)).length).map
          (fun n => ((n % 2 ^ 64 : Nat) : Int)) :=
  ids_from_genesis ops

/-- A registered miner posting the same ask `k` times succeeds `k` times. -/
theorem askIDs_replicate (vmctx : VMContext) (price : AttoFIL) (size : BytesAmount) (k : Nat) :
    ∀ st : State, (∃ b, actor.findEntry vmctx.Message.From.String st.Miners.entries = some b) →
      (askIDs (replies st (List.replicate k ⟨vmctx, .addAsk price size⟩))).length = k ∧
      (insertedAsks (replies st (List.replicate k ⟨vmctx, .addAsk price size⟩))).length = k := by
  induction k with
  | zero => intro st _; exact ⟨rfl, rfl⟩
  | succ k ih =>
    intro st hm
    obtain ⟨b, hb⟩ := hm
    rw [List.replicate_succ, replies_cons]
    have hd : dispatch ⟨vmctx, .addAsk price size⟩ st = AddAsk vmctx price size st := rfl
    rw [hd, AddAsk_known vmctx price size st b hb]
    obtain ⟨h1, h2⟩ := ih { st with Orderbook :=
      { st.Orderbook with
        NextSAskID := (st.Orderbook.NextSAskID + 1) % 2 ^ 64
        StorageAsks := ⟨actor.upsertEntry (keyFromID st.Orderbook.NextSAskID)
          ⟨st.Orderbook.NextSAskID, price, size, vmctx.Message.From⟩
          st.Orderbook.StorageAsks.entries⟩ } } ⟨b, hb⟩
    constructor
    · simp only [askIDs, List.filterMap_cons, askIDOf, List.length_cons] at h1 ⊢
      rw [h1]
    · simp only [insertedAsks, List.filterMap_cons, askOf, List.length_cons] at h2 ⊢
      rw [h2]

/-- A client posting the same funded bid `k` times succeeds `k` times. -/
theorem bidIDs_replicate (vmctx : VMContext) (price : AttoFIL) (size : BytesAmount) (k : Nat)
    (hfunds : ¬ vmctx.Message.Value < price * size) :
    ∀ st : State,
      (bidIDs (replies st (List.replicate k ⟨vmctx, .addBid price size⟩))).length = k ∧
      (insertedBids (replies st (List.replicate k ⟨vmctx, .addBid price size⟩))).length = k := by
  induction k with
  | zero => intro st; exact ⟨rfl, rfl⟩
  | succ k ih =>
    intro st
    rw [List.replicate_succ, replies_cons]
    have hd : dispatch ⟨vmctx, .addBid price size⟩ st = AddBid vmctx price size st := rfl
    rw [hd, AddBid_sufficient vmctx price size st hfunds]
    obtain ⟨h1, h2⟩ := ih { st with Orderbook :=
      { st.Orderbook with
        NextBidID := (st.Orderbook.NextBidID + 1) % 2 ^ 64
        Bids := ⟨actor.upsertEntry (keyFromID st.Orderbook.NextBidID)
          ⟨st.Orderbook.NextBidID, price, size, vmctx.Message.From⟩
          st.Orderbook.Bids.entries⟩ } }
    constructor
    · simp only [bidIDs, List.filterMap_cons, bidIDOf, List.length_cons] at h1 ⊢
      rw [h1]
    · simp only [insertedBids, List.filterMap_cons, bidOf, List.length_cons] at h2 ⊢
      rw [h2]

theorem sampleState_eq : (dispatch sampleCreate InitializeState).2 = sampleState := rfl

theorem sampleMiner_registered :
    ∃ b, actor.findEntry (okContext sampleMiner 0 sampleMiner).Message.From.String
      sampleState.Miners.entries = some b := ⟨true, by decide⟩

theorem replies_wrapRun :
    askIDs (replies InitializeState wrapRun) =
        askIDs (replies sampleState (List.replicate (2 ^ 64 + 1) sampleAsk)) ∧
      insertedAsks (replies InitializeState wrapRun) =
        insertedAsks (replies sampleState (List.replicate (2 ^ 64 + 1) sampleAsk)) := by
  unfold wrapRun
  rw [replies_cons, sampleState_eq]
  exact ⟨rfl, rfl⟩

theorem wrapRun_lengths :
    (askIDs (replies InitializeState wrapRun)).length = 2 ^ 64 + 1 ∧
      (insertedAsks (replies InitializeState wrapRun)).length = 2 ^ 64 + 1 := by
  rw [replies_wrapRun.1, replies_wrapRun.2]
  exact askIDs_replicate (okContext sampleMiner 0 sampleMiner) 5 100 (2 ^ 64 + 1) sampleState
    sampleMiner_registered

/-- Counterexample to claim C5 as stated: in the run `wrapRun` the miner posts
`2 ^ 64 + 1` asks, all successful; the successful `AddAsk` number `2 ^ 64`
(counting from 0) returns id 0, as the very first one did, and not `2 ^ 64`. -/
theorem monotonic_ids_counterexample :
    (askIDs (replies InitializeState wrapRun)).length = 2 ^ 64 + 1 ∧
      (askIDs (replies InitializeState wrapRun))[0]? = some 0 ∧
      (askIDs (replies InitializeState wrapRun))[2 ^ 64]? = some 0 ∧
      (askIDs (replies InitializeState wrapRun))[2 ^ 64]? ≠ some (((2 ^ 64 : Nat) : Int)) := by
  have hlen := wrapRun_lengths.1
  have hids := (ids_from_genesis wrapRun).1
  rw [hlen] at hids
  have h0 : (askIDs (replies InitializeState wrapRun))[0]? = some 0 := by
    rw [hids, List.getElem?_map, List.getElem?_range (by norm_num)]
    rfl
  have hw : (askIDs (replies InitializeState wrapRun))[2 ^ 64]? = some 0 := by
    rw [hids, List.getElem?_map, List.getElem?_range (by norm_num)]
    simp only [Option.map_some', Nat.mod_self]
    rfl
  refine ⟨hlen, h0, hw, ?_⟩
  rw [hw]
  intro hcon
  injection hcon with hcon
  norm_num at hcon

end storagemarket

/-! ## Enumeration of the orderbook -/

namespace storagemarket

theorem mapGet_mapSet {V : Type} (id i : Nat) (v : V) (l : List (Nat × V)) :
    mapGet i (mapSet id v l) = if id = i then some v else mapGet i l := by
  induction l with
  | nil => simp [mapSet, mapGet]
  | cons kv rest ih =>
    obtain ⟨j, w⟩ := kv
    by_cases h : j = id
    · subst h
      by_cases h2 : j = i
      · simp [mapSet, mapGet, h2]
      · simp [mapSet, mapGet, h2]
    · by_cases h2 : j = i
      · subst h2
        have h3 : ¬ id = j := fun e => h e.symm
        simp [mapSet, mapGet, h, h3]
      · simp [mapSet, mapGet, h, h2, ih]

theorem mapSet_absent {V : Type} (id : Nat) (v : V) (l : List (Nat × V))
    (h : mapGet id l = none) : mapSet id v l = l ++ [(id, v)] := by
  induction l with
  | nil => rfl
  | cons kv rest ih =>
    obtain ⟨j, w⟩ := kv
    by_cases h1 : j = id
    · simp [mapGet, h1] at h
    · simp only [mapGet, if_neg h1] at h
      simp [mapSet, h1, ih h]

theorem mapGet_none_of_not_mem {V : Type} (id : Nat) (l : List (Nat × V))
    (h : id ∉ l.map Prod.fst) : mapGet id l = none := by
  induction l with
  | nil => rfl
  | cons kv rest ih =>
    obtain ⟨j, w⟩ := kv
    simp only [List.map_cons, List.mem_cons, not_or] at h
    have h1 : ¬ j = id := fun e => h.1 e.symm
    simp only [mapGet, if_neg h1]
    exact ih h.2

/-- Reading id `i` in the list of pairs built from records whose ids are
`k, k + 1, ...` in order. -/
theorem mapGet_of_range {V : Type} (idOf : V → Nat) (L : List V) : ∀ k : Nat,
    L.map idOf = List.range' k L.length →
      ∀ i, mapGet i (L.map fun a => (idOf a, a)) = if i < k then none else L[i - k]? := by
  induction L with
  | nil => intro k _ i; simp [mapGet]
  | cons a L ih =>
    intro k h i
    simp only [List.map_cons, List.length_cons, List.range'_succ, List.cons.injEq] at h
    obtain ⟨ha, hL⟩ := h
    simp only [List.map_cons, mapGet, ha]
    by_cases hki : k = i
    · subst hki
      simp
    · rw [if_neg hki, ih (k + 1) hL i]
      by_cases hlt : i < k
      · rw [if_pos hlt, if_pos (by omega)]
      · rw [if_neg hlt, if_neg (by omega)]
        have : i - k = (i - (k + 1)) + 1 := by omega
        rw [this, List.getElem?_cons_succ]

theorem findEntry_none_of_keys {V : Type} (keyOf : V → String) (k : String) (L : List V)
    (h : ∀ a ∈ L, keyOf a ≠ k) : actor.findEntry k (L.map fun a => (keyOf a, a)) = none := by
  induction L with
  | nil => rfl
  | cons a L ih =>
    have h1 : ¬ keyOf a = k := h a (List.mem_cons_self a L)
    simp only [List.map_cons, actor.findEntry, if_neg h1]
    exact ih fun x hx => h x (List.mem_cons_of_mem a hx)

theorem keyFromID_injective (a b : Nat) (ha : a < 2 ^ 64) (hb : b < 2 ^ 64)
    (h : keyFromID a = keyFromID b) : a = b := by
  have ea := strconv.ParseUint_FormatUint a ha
  have eb := strconv.ParseUint_FormatUint b hb
  unfold keyFromID at h
  rw [h, eb] at ea
  injection ea with ea
  exact ea.symm

theorem idFromKey_keyFromID (a : Nat) (ha : a < 2 ^ 64) : idFromKey (keyFromID a) = .ok a :=
  strconv.ParseUint_FormatUint a ha

theorem idFromKey_lt (key : String) (n : Nat) (h : idFromKey key = .ok n) : n < 2 ^ 64 :=
  strconv.ParseUint_lt key n h

/-- The loop of `GetAllAsks` on an index that holds asks with pairwise distinct
unsigned 64-bit ids, each under the key of its id. -/
theorem collectAsks_of_keys (rest : List Ask) : ∀ pre : List Ask,
    ((pre ++ rest).map fun a => a.ID).Nodup → (∀ a ∈ rest, a.ID < 2 ^ 64) →
      collectAsks (rest.map fun a => ⟨keyFromID a.ID, a⟩) (pre.map fun a => (a.ID, a)) =
        .ok ((pre ++ rest).map fun a => (a.ID, a)) := by
  induction rest with
  | nil => intro pre _ _; simp [collectAsks]
  | cons a rest ih =>
    intro pre hnd hlt
    have ha : a.ID < 2 ^ 64 := hlt a (List.mem_cons_self a rest)
    have hnot : a.ID ∉ (pre.map fun a => (a.ID, a)).map Prod.fst := by
      rw [List.map_map]
      intro hmem
      rw [List.map_append, List.map_cons] at hnd
      have hdis := (List.nodup_append.mp hnd).2.2
      exact hdis hmem (List.mem_cons_self _ _)
    have hset := mapSet_absent a.ID a _ (mapGet_none_of_not_mem a.ID _ hnot)
    have hpre : (pre.map fun a => (a.ID, a)) ++ [(a.ID, a)] =
        (pre ++ [a]).map fun a => (a.ID, a) := by
      rw [List.map_append]; rfl
    have hassoc : pre ++ a :: rest = (pre ++ [a]) ++ rest := by
      rw [List.append_assoc]; rfl
    simp only [List.map_cons, collectAsks, idFromKey_keyFromID a.ID ha, hset, hpre]
    rw [hassoc]
    apply ih
    · rw [← hassoc]; exact hnd
    · exact fun x hx => hlt x (List.mem_cons_of_mem a hx)

/-- The loop of `GetAllBids` on an index that holds bids with pairwise distinct
unsigned 64-bit ids, each under the key of its id. -/
theorem collectBids_of_keys (rest : List Bid) : ∀ pre : List Bid,
    ((pre ++ rest).map fun a => a.ID).Nodup → (∀ a ∈ rest, a.ID < 2 ^ 64) →
      collectBids (rest.map fun a => ⟨keyFromID a.ID, a⟩) (pre.map fun a => (a.ID, a)) =
        .ok ((pre ++ rest).map fun a => (a.ID, a)) := by
  induction rest with
  | nil => intro pre _ _; simp [collectBids]
  | cons a rest ih =>
    intro pre hnd hlt
    have ha : a.ID < 2 ^ 64 := hlt a (List.mem_cons_self a rest)
    have hnot : a.ID ∉ (pre.map fun a => (a.ID, a)).map Prod.fst := by
      rw [List.map_map]
      intro hmem
      rw [List.map_append, List.map_cons] at hnd
      have hdis := (List.nodup_append.mp hnd).2.2
      exact hdis hmem (List.mem_cons_self _ _)
    have hset := mapSet_absent a.ID a _ (mapGet_none_of_not_mem a.ID _ hnot)
    have hpre : (pre.map fun a => (a.ID, a)) ++ [(a.ID, a)] =
        (pre ++ [a]).map fun a => (a.ID, a) := by
      rw [List.map_append]; rfl
    have hassoc : pre ++ a :: rest = (pre ++ [a]) ++ rest := by
      rw [List.append_assoc]; rfl
    simp only [List.map_cons, collectBids, idFromKey_keyFromID a.ID ha, hset, hpre]
    rw [hassoc]
    apply ih
    · rw [← hassoc]; exact hnd
    · exact fun x hx => hlt x (List.mem_cons_of_mem a hx)

end storagemarket

namespace storagemarket

/-- The asks index after a run: when it held the asks `L`, with ids
`0, 1, ...` in order, each under the key of its id, and the counter stood at
their number, then after the run it holds `L` followed by the asks the run
inserted, in the same shape, provided there are at most `2 ^ 64` in all. -/
theorem asks_of_run (ops : List Op) : ∀ (st : State) (L : List Ask),
    st.Orderbook.StorageAsks.entries = (L.map fun a => (keyFromID a.ID, a)) →
    (L.map fun a => a.ID) = List.range L.length →
    st.Orderbook.NextSAskID = L.length % 2 ^ 64 →
    L.length + (insertedAsks (replies st ops)).length ≤ 2 ^ 64 →
      (run st ops).Orderbook.StorageAsks.entries =
          ((L ++ insertedAsks (replies st ops)).map fun a => (keyFromID a.ID, a)) ∧
        ((L ++ insertedAsks (replies st ops)).map fun a => a.ID) =
          List.range (L ++ insertedAsks (replies st ops)).length ∧
        (run st ops).Orderbook.NextSAskID =
          (L ++ insertedAsks (replies st ops)).length % 2 ^ 64 := by
  induction ops with
  | nil =>
    intro st L hent hid hnext _
    have e : insertedAsks (replies st []) = [] := rfl
    rw [e, List.append_nil]
    exact ⟨hent, hid, hnext⟩
  | cons op ops ih =>
    intro st L hent hid hnext hlen
    rw [run_cons]
    rw [replies_cons] at hlen ⊢
    rcases dispatch_asks op st with ⟨hs, hn, _, hask⟩ | ⟨price, size, hs, hn, _, hask⟩
    · have e : insertedAsks ((op, (dispatch op st).1) :: replies (dispatch op st).2 ops) =
          insertedAsks (replies (dispatch op st).2 ops) := by
        simp only [insertedAsks, List.filterMap_cons, hask]
      rw [e] at hlen ⊢
      exact ih (dispatch op st).2 L (by rw [hs]; exact hent) hid (by rw [hn]; exact hnext) hlen
    · have e : insertedAsks ((op, (dispatch op st).1) :: replies (dispatch op st).2 ops) =
          ⟨st.Orderbook.NextSAskID, price, size, op.vmctx.Message.From⟩ ::
            insertedAsks (replies (dispatch op st).2 ops) := by
        simp only [insertedAsks, List.filterMap_cons, hask]
      rw [e] at hlen ⊢
      rw [List.length_cons] at hlen
      have hL : L.length < 2 ^ 64 := by omega
      have hnext2 : st.Orderbook.NextSAskID = L.length := by
        rw [hnext]; exact Nat.mod_eq_of_lt hL
      have hmem : ∀ a ∈ L, a.ID < L.length := by
        intro a ha
        have : a.ID ∈ L.map fun a => a.ID := List.mem_map_of_mem _ ha
        rw [hid] at this
        exact List.mem_range.mp this
      have habs : actor.findEntry (keyFromID st.Orderbook.NextSAskID)
          (L.map fun a => (keyFromID a.ID, a)) = none := by
        apply findEntry_none_of_keys (fun a : Ask => keyFromID a.ID)
        intro a ha hkey
        have hlt := hmem a ha
        have := keyFromID_injective a.ID st.Orderbook.NextSAskID (by omega) (by omega) hkey
        omega
      have hassoc : L ++ (⟨st.Orderbook.NextSAskID, price, size, op.vmctx.Message.From⟩ : Ask) ::
          insertedAsks (replies (dispatch op st).2 ops) =
          (L ++ [⟨st.Orderbook.NextSAskID, price, size, op.vmctx.Message.From⟩]) ++
            insertedAsks (replies (dispatch op st).2 ops) := by
        rw [List.append_assoc]; rfl
      rw [hassoc]
      apply ih
      · rw [hs, hent, actor.upsertEntry_absent _ _ _ habs, List.map_append]
        rfl
      · rw [List.map_append, hid, List.length_append, List.length_singleton, List.range_succ,
          List.map_cons, List.map_nil, hnext2]
      · rw [hn, List.length_append, List.length_singleton, hnext2]
      · rw [List.length_append, List.length_singleton]; omega

/-- The reply of `GetAllAsks` on an index holding the asks `L`, with ids
`0, 1, ...` in order, each under the key of its id. -/
theorem GetAllAsks_of_keys (vmctx : VMContext) (st : State) (L : List Ask)
    (hent : st.Orderbook.StorageAsks.entries = (L.map fun a => (keyFromID a.ID, a)))
    (hid : (L.map fun a => a.ID) = List.range L.length) (hlen : L.length ≤ 2 ^ 64) :
    GetAllAsks vmctx st = (⟨.bytes (.askSet (L.map fun a => (a.ID, a))), 0, none⟩, st) := by
  have hnd : (([] ++ L).map fun a : Ask => a.ID).Nodup := by
    rw [List.nil_append, hid]; exact List.nodup_range _
  have hlt : ∀ a ∈ L, a.ID < 2 ^ 64 := by
    intro a ha
    have : a.ID ∈ L.map fun a => a.ID := List.mem_map_of_mem _ ha
    rw [hid] at this
    have := List.mem_range.mp this
    omega
  have hcol := collectAsks_of_keys L [] hnd hlt
  rw [List.nil_append] at hcol
  have hvals : (st.Orderbook.StorageAsks.entries.map fun kv => (⟨kv.1, kv.2⟩ : KeyValue Ask)) =
      (L.map fun a => ⟨keyFromID a.ID, a⟩) := by
    rw [hent, List.map_map]; rfl
  simp only [GetAllAsks, WithState, GetAllAsksClosure, actor.LoadTypedLookup, actor.Lookup.Values,
    hvals]
  simp only [List.map_nil] at hcol
  rw [hcol]
  rfl

/-- The loop of `GetAllAsks` never produces an id of `2 ^ 64` or more. -/
theorem collectAsks_ids_lt (kvs : List (KeyValue Ask)) : ∀ (acc s : AskSet),
    collectAsks kvs acc = .ok s → ∀ i, 2 ^ 64 ≤ i → mapGet i acc = none → mapGet i s = none := by
  induction kvs with
  | nil =>
    intro acc s h i _ hacc
    simp only [collectAsks] at h
    injection h with h
    rw [← h]; exact hacc
  | cons kv kvs ih =>
    intro acc s h i hi hacc
    simp only [collectAsks] at h
    cases hk : idFromKey kv.Key with
    | error e => rw [hk] at h; cases h
    | ok id =>
      rw [hk] at h
      have hlt := idFromKey_lt kv.Key id hk
      apply ih _ s h i hi
      rw [mapGet_mapSet, if_neg (by omega)]
      exact hacc

theorem returnedAsks_ids_lt (vmctx : VMContext) (st : State) (i : Nat) (hi : 2 ^ 64 ≤ i) :
    mapGet i (returnedAsks (GetAllAsks vmctx st).1) = none := by
  simp only [GetAllAsks, WithState, GetAllAsksClosure, actor.LoadTypedLookup, actor.Lookup.Values]
  cases hc : collectAsks (st.Orderbook.StorageAsks.entries.map fun kv => ⟨kv.1, kv.2⟩) [] with
  | error e => rfl
  | ok s => exact collectAsks_ids_lt _ [] s hc i hi rfl

/-- The bids index after a run: when it held the bids `L`, with ids
`0, 1, ...` in order, each under the key of its id, and the counter stood at
their number, then after the run it holds `L` followed by the bids the run
inserted, in the same shape, provided there are at most `2 ^ 64` in all. -/
theorem bids_of_run (ops : List Op) : ∀ (st : State) (L : List Bid),
    st.Orderbook.Bids.entries = (L.map fun a => (keyFromID a.ID, a)) →
    (L.map fun a => a.ID) = List.range L.length →
    st.Orderbook.NextBidID = L.length % 2 ^ 64 →
    L.length + (insertedBids (replies st ops)).length ≤ 2 ^ 64 →
      (run st ops).Orderbook.Bids.entries =
          ((L ++ insertedBids (replies st ops)).map fun a => (keyFromID a.ID, a)) ∧
        ((L ++ insertedBids (replies st ops)).map fun a => a.ID) =
          List.range (L ++ insertedBids (replies st ops)).length ∧
        (run st ops).Orderbook.NextBidID =
          (L ++ insertedBids (replies st ops)).length % 2 ^ 64 := by
  induction ops with
  | nil =>
    intro st L hent hid hnext _
    have e : insertedBids (replies st []) = [] := rfl
    rw [e, List.append_nil]
    exact ⟨hent, hid, hnext⟩
  | cons op ops ih =>
    intro st L hent hid hnext hlen
    rw [run_cons]
    rw [replies_cons] at hlen ⊢
    rcases dispatch_bids op st with ⟨hs, hn, _, hbid⟩ | ⟨price, size, hs, hn, _, hbid⟩
    · have e : insertedBids ((op, (dispatch op st).1) :: replies (dispatch op st).2 ops) =
          insertedBids (replies (dispatch op st).2 ops) := by
        simp only [insertedBids, List.filterMap_cons, hbid]
      rw [e] at hlen ⊢
      exact ih (dispatch op st).2 L (by rw [hs]; exact hent) hid (by rw [hn]; exact hnext) hlen
    · have e : insertedBids ((op, (dispatch op st).1) :: replies (dispatch op st).2 ops) =
          ⟨st.Orderbook.NextBidID, price, size, op.vmctx.Message.From⟩ ::
            insertedBids (replies (dispatch op st).2 ops) := by
        simp only [insertedBids, List.filterMap_cons, hbid]
      rw [e] at hlen ⊢
      rw [List.length_cons] at hlen
      have hL : L.length < 2 ^ 64 := by omega
      have hnext2 : st.Orderbook.NextBidID = L.length := by
        rw [hnext]; exact Nat.mod_eq_of_lt hL
      have hmem : ∀ a ∈ L, a.ID < L.length := by
        intro a ha
        have : a.ID ∈ L.map fun a => a.ID := List.mem_map_of_mem _ ha
        rw [hid] at this
        exact List.mem_range.mp this
      have habs : actor.findEntry (keyFromID st.Orderbook.NextBidID)
          (L.map fun a => (keyFromID a.ID, a)) = none := by
        apply findEntry_none_of_keys (fun a : Bid => keyFromID a.ID)
        intro a ha hkey
        have hlt := hmem a ha
        have := keyFromID_injective a.ID st.Orderbook.NextBidID (by omega) (by omega) hkey
        omega
      have hassoc : L ++ (⟨st.Orderbook.NextBidID, price, size, op.vmctx.Message.From⟩ : Bid) ::
          insertedBids (replies (dispatch op st).2 ops) =
          (L ++ [⟨st.Orderbook.NextBidID, price, size, op.vmctx.Message.From⟩]) ++
            insertedBids (replies (dispatch op st).2 ops) := by
        rw [List.append_assoc]; rfl
      rw [hassoc]
      apply ih
      · rw [hs, hent, actor.upsertEntry_absent _ _ _ habs, List.map_append]
        rfl
      · rw [List.map_append, hid, List.length_append, List.length_singleton, List.range_succ,
          List.map_cons, List.map_nil, hnext2]
      · rw [hn, List.length_append, List.length_singleton, hnext2]
      · rw [List.length_append, List.length_singleton]; omega

/-- The reply of `GetAllBids` on an index holding the bids `L`, with ids
`0, 1, ...` in order, each under the key of its id. -/
theorem GetAllBids_of_keys (vmctx : VMContext) (st : State) (L : List Bid)
    (hent : st.Orderbook.Bids.entries = (L.map fun a => (keyFromID a.ID, a)))
    (hid : (L.map fun a => a.ID) = List.range L.length) (hlen : L.length ≤ 2 ^ 64) :
    GetAllBids vmctx st = (⟨.bytes (.bidSet (L.map fun a => (a.ID, a))), 0, none⟩, st) := by
  have hnd : (([] ++ L).map fun a : Bid => a.ID).Nodup := by
    rw [List.nil_append, hid]; exact List.nodup_range _
  have hlt : ∀ a ∈ L, a.ID < 2 ^ 64 := by
    intro a ha
    have : a.ID ∈ L.map fun a => a.ID := List.mem_map_of_mem _ ha
    rw [hid] at this
    have := List.mem_range.mp this
    omega
  have hcol := collectBids_of_keys L [] hnd hlt
  rw [List.nil_append] at hcol
  have hvals : (st.Orderbook.Bids.entries.map fun kv => (⟨kv.1, kv.2⟩ : KeyValue Bid)) =
      (L.map fun a => ⟨keyFromID a.ID, a⟩) := by
    rw [hent, List.map_map]; rfl
  simp only [GetAllBids, WithState, GetAllBidsClosure, actor.LoadTypedLookup, actor.Lookup.Values,
    hvals]
  simp only [List.map_nil] at hcol
  rw [hcol]
  rfl

/-- The loop of `GetAllBids` never produces an id of `2 ^ 64` or more. -/
theorem collectBids_ids_lt (kvs : List (KeyValue Bid)) : ∀ (acc s : BidSet),
    collectBids kvs acc = .ok s → ∀ i, 2 ^ 64 ≤ i → mapGet i acc = none → mapGet i s = none := by
  induction kvs with
  | nil =>
    intro acc s h i _ hacc
    simp only [collectBids] at h
    injection h with h
    rw [← h]; exact hacc
  | cons kv kvs ih =>
    intro acc s h i hi hacc
    simp only [collectBids] at h
    cases hk : idFromKey kv.Key with
    | error e => rw [hk] at h; cases h
    | ok id =>
      rw [hk] at h
      have hlt := idFromKey_lt kv.Key id hk
      apply ih _ s h i hi
      rw [mapGet_mapSet, if_neg (by omega)]
      exact hacc

theorem returnedBids_ids_lt (vmctx : VMContext) (st : State) (i : Nat) (hi : 2 ^ 64 ≤ i) :
    mapGet i (returnedBids (GetAllBids vmctx st).1) = none := by
  simp only [GetAllBids, WithState, GetAllBidsClosure, actor.LoadTypedLookup, actor.Lookup.Values]
  cases hc : collectBids (st.Orderbook.Bids.entries.map fun kv => ⟨kv.1, kv.2⟩) [] with
  | error e => rfl
  | ok s => exact collectBids_ids_lt _ [] s hc i hi rfl

end storagemarket

namespace storagemarket

/-- Claim C7 (enumeration completeness, amended): in the state reached from
the initial state by a sequence of messages with `n` successful `AddAsk` calls,
`n` at most `2 ^ 64`, `GetAllAsks` succeeds with exit code 0 and returns the
collection that maps `0, ..., n - 1`, and no other id, each to the ask that the
successful `AddAsk` returning that id inserted; likewise `GetAllBids` for at
most `2 ^ 64` successful `AddBid` calls. -/
theorem enumeration_complete (ops : List Op) (vmctx : VMContext) :
    ((insertedAsks (replies InitializeState ops)).length ≤ 2 ^ 64 →
      GetAllAsks vmctx (run InitializeState ops) =
          (⟨.bytes (.askSet ((insertedAsks (replies InitializeState ops)).map
            fun a => (a.ID, a))), 0, none⟩, run InitializeState ops) ∧
        ((insertedAsks (replies InitializeState ops)).map fun a => a.ID) =
          List.range (insertedAsks (replies InitializeState ops)).length ∧
        ∀ i, mapGet i ((insertedAsks (replies InitializeState ops)).map fun a => (a.ID, a)) =
          (insertedAsks (replies InitializeState ops))[i]?) ∧
    ((insertedBids (replies InitializeState ops)).length ≤ 2 ^ 64 →
      GetAllBids vmctx (run InitializeState ops) =
          (⟨.bytes (.bidSet ((insertedBids (replies InitializeState ops)).map
            fun a => (a.ID, a))), 0, none⟩, run InitializeState ops) ∧
        ((insertedBids (replies InitializeState ops)).map fun a => a.ID) =
          List.range (insertedBids (replies InitializeState ops)).length ∧
        ∀ i, mapGet i ((insertedBids (replies InitializeState ops)).map fun a => (a.ID, a)) =
          (insertedBids (replies InitializeState ops))[i]?) := by
  constructor
  · intro hlen
    have hinv := asks_of_run ops InitializeState [] rfl rfl rfl
      (by rw [List.length_nil, Nat.zero_add]; exact hlen)
    rw [List.nil_append] at hinv
    obtain ⟨hent, hid, _⟩ := hinv
    refine ⟨GetAllAsks_of_keys vmctx _ _ hent hid hlen, hid, ?_⟩
    intro i
    have := mapGet_of_range (fun a : Ask => a.ID) _ 0
      (by rw [hid, List.range_eq_range']) i
    rw [this, if_neg (Nat.not_lt_zero i), Nat.sub_zero]
  · intro hlen
    have hinv := bids_of_run ops InitializeState [] rfl rfl rfl
      (by rw [List.length_nil, Nat.zero_add]; exact hlen)
    rw [List.nil_append] at hinv
    obtain ⟨hent, hid, _⟩ := hinv
    refine ⟨GetAllBids_of_keys vmctx _ _ hent hid hlen, hid, ?_⟩
    intro i
    have := mapGet_of_range (fun a : Bid => a.ID) _ 0
      (by rw [hid, List.range_eq_range']) i
    rw [this, if_neg (Nat.not_lt_zero i), Nat.sub_zero]

/-- Witness for `enumeration_complete`: after the miner is created, posts one
ask and the client posts one funded bid, both enumerations hold exactly id 0. -/
theorem enumeration_complete_witness :
    (insertedAsks (replies InitializeState [sampleCreate, sampleAsk, sampleBid])).length ≤ 2 ^ 64 ∧
    (insertedBids (replies InitializeState [sampleCreate, sampleAsk, sampleBid])).length ≤ 2 ^ 64 ∧
    GetAllAsks (okContext sampleClient 0 sampleMiner)
        (run InitializeState [sampleCreate, sampleAsk, sampleBid]) =
      (⟨.bytes (.askSet ((insertedAsks (replies InitializeState
        [sampleCreate, sampleAsk, sampleBid])).map fun a => (a.ID, a))), 0, none⟩,
        run InitializeState [sampleCreate, sampleAsk, sampleBid]) ∧
    GetAllBids (okContext sampleClient 0 sampleMiner)
        (run InitializeState [sampleCreate, sampleAsk, sampleBid]) =
      (⟨.bytes (.bidSet ((insertedBids (replies InitializeState
        [sampleCreate, sampleAsk, sampleBid])).map fun a => (a.ID, a))), 0, none⟩,
        run InitializeState [sampleCreate, sampleAsk, sampleBid]) :=
  ⟨by decide, by decide,
    ((enumeration_complete [sampleCreate, sampleAsk, sampleBid]
      (okContext sampleClient 0 sampleMiner)).1 (by decide)).1,
    ((enumeration_complete [sampleCreate, sampleAsk, sampleBid]
      (okContext sampleClient 0 sampleMiner)).2 (by decide)).1⟩

/-- Counterexample to claim C7 as stated: the run `wrapRun` contains
`n = 2 ^ 64 + 1` successful `AddAsk` calls, so the claim puts the id
`n - 1 = 2 ^ 64` in the collection returned by `GetAllAsks`; the collection
has no entry for that id. -/
theorem enumeration_counterexample :
    (insertedAsks (replies InitializeState wrapRun)).length = 2 ^ 64 + 1 ∧
      mapGet (2 ^ 64) (returnedAsks (GetAllAsks (okContext sampleClient 0 sampleMiner)
        (run InitializeState wrapRun)).1) = none :=
  ⟨wrapRun_lengths.2, returnedAsks_ids_lt _ _ _ (Nat.le_refl _)⟩

/-- Claim C10 (error table, a defect of the code): the entry stored in
`Errors` under `ErrInsufficientSpace` (39) is built with `ErrNotBidOwner` and
carries code 38, the code of the entry under `ErrNotBidOwner`; the other eleven
entries carry the code of their key. -/
theorem Errors_InsufficientSpace_code :
    Errors ErrInsufficientSpace = some (.revert 38 "not enough space in ask for bid") ∧
      errors.CodeError (Errors ErrInsufficientSpace) = 38 ∧
      errors.CodeError (Errors ErrNotBidOwner) = 38 ∧
      ∀ k ∈ [33, 34, 35, 36, 37, 38, 40, 41, 42, 43, 44], errors.CodeError (Errors k) = k := by
  decide

end storagemarket

/-! ## Claims about lookups, power updates and the initial state -/

namespace storagemarket

/-- Claim C11 (absent point lookup, amended): in every state, when the index
of asks has no entry under the key of the requested id (the low 64 bits of the
id, in base 36), `GetAsk` fails with a fault error and exit code 1, not with
the `Errors[ErrUnknownAsk]` entry of code 35, and leaves the state as it is;
likewise `GetBid` fails with a fault error and exit code 1, not with code 36. -/
theorem absent_point_lookup (vmctx : VMContext) (id : Int) (st : State) :
    (st.Orderbook.StorageAsks.Find (strconv.FormatUint (Uint64 id) 36) = .error .ErrNotFound →
      GetAsk vmctx id st = (⟨.nil, 1, some (.fault "could not find ask with askID")⟩, st) ∧
      (GetAsk vmctx id st).1.err ≠ Errors ErrUnknownAsk ∧ (GetAsk vmctx id st).1.code ≠ 35) ∧
    (st.Orderbook.Bids.Find (strconv.FormatUint (Uint64 id) 36) = .error .ErrNotFound →
      GetBid vmctx id st = (⟨.nil, 1, some (.fault "could not find bid with askID")⟩, st) ∧
      (GetBid vmctx id st).1.err ≠ Errors ErrUnknownBid ∧ (GetBid vmctx id st).1.code ≠ 36) := by
  constructor
  · intro h
    have hnone : actor.findEntry (strconv.FormatUint (Uint64 id) 36)
        st.Orderbook.StorageAsks.entries = none := by
      cases hf : actor.findEntry (strconv.FormatUint (Uint64 id) 36)
          st.Orderbook.StorageAsks.entries with
      | none => rfl
      | some a => simp [actor.Lookup.Find, hf] at h
    rw [GetAsk_absent vmctx id st hnone]
    refine ⟨rfl, ?_, ?_⟩
    · intro hcon
      have : Errors ErrUnknownAsk = some (.revert 35 "ask id not found") := rfl
      rw [this] at hcon
      simp at hcon
    · simp
  · intro h
    have hnone : actor.findEntry (strconv.FormatUint (Uint64 id) 36)
        st.Orderbook.Bids.entries = none := by
      cases hf : actor.findEntry (strconv.FormatUint (Uint64 id) 36)
          st.Orderbook.Bids.entries with
      | none => rfl
      | some a => simp [actor.Lookup.Find, hf] at h
    rw [GetBid_absent vmctx id st hnone]
    refine ⟨rfl, ?_, ?_⟩
    · intro hcon
      have : Errors ErrUnknownBid = some (.revert 36 "bid id not found") := rfl
      rw [this] at hcon
      simp at hcon
    · simp

/-- Witness for `absent_point_lookup`: id 0 on the initial state. -/
theorem absent_point_lookup_witness :
    (InitializeState.Orderbook.StorageAsks.Find (strconv.FormatUint (Uint64 0) 36) =
        .error .ErrNotFound ∧
      GetAsk (okContext sampleClient 0 sampleMiner) 0 InitializeState =
        (⟨.nil, 1, some (.fault "could not find ask with askID")⟩, InitializeState)) ∧
    (InitializeState.Orderbook.Bids.Find (strconv.FormatUint (Uint64 0) 36) =
        .error .ErrNotFound ∧
      GetBid (okContext sampleClient 0 sampleMiner) 0 InitializeState =
        (⟨.nil, 1, some (.fault "could not find bid with askID")⟩, InitializeState)) :=
  ⟨⟨by decide,
    ((absent_point_lookup (okContext sampleClient 0 sampleMiner) 0 InitializeState).1
      (by decide)).1⟩,
   ⟨by decide,
    ((absent_point_lookup (okContext sampleClient 0 sampleMiner) 0 InitializeState).2
      (by decide)).1⟩⟩

/-- Counterexample to claim C11 as stated: on the initial state, whose indexes
are empty, `GetAsk 0` and `GetBid 0` fail with exit code 1 and a fault error,
not with the `Errors` entries of codes 35 and 36. -/
theorem absent_point_lookup_counterexample :
    (GetAsk (okContext sampleClient 0 sampleMiner) 0 InitializeState).1 =
        ⟨.nil, 1, some (.fault "could not find ask with askID")⟩ ∧
      (GetAsk (okContext sampleClient 0 sampleMiner) 0 InitializeState).1.err ≠
        Errors ErrUnknownAsk ∧
      (GetBid (okContext sampleClient 0 sampleMiner) 0 InitializeState).1 =
        ⟨.nil, 1, some (.fault "could not find bid with askID")⟩ ∧
      (GetBid (okContext sampleClient 0 sampleMiner) 0 InitializeState).1.err ≠
        Errors ErrUnknownBid := by
  decide

/-- Claim C13 (UpdatePower postcondition, amended): in every state, for every
caller found in the miner set and every integer delta, `UpdatePower` succeeds
with exit code 0 and no error, and the miner set, both order indexes and both
id counters are unchanged; the total committed storage of the resulting state
is the magnitude of the previous value plus `delta`: the previous value plus
`delta` when that sum is not negative, and the sum with its sign dropped when
it is negative. -/
theorem UpdatePower_postcondition (vmctx : VMContext) (delta : Int) (st : State) (b : Bool)
    (h : st.Miners.Find vmctx.Message.From.String = .ok b) :
    (UpdatePower vmctx delta st).1 = ⟨.nil, 0, none⟩ ∧
      (UpdatePower vmctx delta st).2.TotalCommittedStorage =
        ((st.TotalCommittedStorage + delta).natAbs : Int) ∧
      (0 ≤ st.TotalCommittedStorage + delta →
        (UpdatePower vmctx delta st).2.TotalCommittedStorage =
          st.TotalCommittedStorage + delta) ∧
      (st.TotalCommittedStorage + delta < 0 →
        (UpdatePower vmctx delta st).2.TotalCommittedStorage =
          -(st.TotalCommittedStorage + delta)) ∧
      (UpdatePower vmctx delta st).2.Miners = st.Miners ∧
      (UpdatePower vmctx delta st).2.Orderbook = st.Orderbook := by
  have hb : actor.findEntry vmctx.Message.From.String st.Miners.entries = some b := by
    cases hf : actor.findEntry vmctx.Message.From.String st.Miners.entries with
    | none => simp [actor.Lookup.Find, hf] at h
    | some c =>
      simp only [actor.Lookup.Find, hf] at h
      injection h with h
      rw [h]
  rw [UpdatePower_known vmctx delta st b hb]
  refine ⟨rfl, rfl, ?_, ?_, rfl, rfl⟩
  · intro hnn
    show ((st.TotalCommittedStorage + delta).natAbs : Int) = _
    omega
  · intro hneg
    show ((st.TotalCommittedStorage + delta).natAbs : Int) = _
    omega

/-- Witness for `UpdatePower_postcondition`: the registered sample miner reports
four sectors, and then the loss of seven, which is three more than the total;
the total becomes 4, and then 3. -/
theorem UpdatePower_postcondition_witness :
    sampleState.Miners.Find (okContext sampleMiner 0 sampleMiner).Message.From.String = .ok true ∧
    (UpdatePower (okContext sampleMiner 0 sampleMiner) 4 sampleState).2.Miners.Find
        (okContext sampleMiner 0 sampleMiner).Message.From.String = .ok true ∧
    (UpdatePower (okContext sampleMiner 0 sampleMiner) 4 sampleState).1 = ⟨.nil, 0, none⟩ ∧
    (UpdatePower (okContext sampleMiner 0 sampleMiner) 4 sampleState).2.TotalCommittedStorage
      = 4 ∧
    (UpdatePower (okContext sampleMiner 0 sampleMiner) (-7)
      (UpdatePower (okContext sampleMiner 0 sampleMiner) 4 sampleState).2).1 = ⟨.nil, 0, none⟩ ∧
    (UpdatePower (okContext sampleMiner 0 sampleMiner) (-7)
      (UpdatePower (okContext sampleMiner 0 sampleMiner) 4 sampleState).2).2.TotalCommittedStorage
      = 3 ∧
    (UpdatePower (okContext sampleMiner 0 sampleMiner) (-7)
      (UpdatePower (okContext sampleMiner 0 sampleMiner) 4 sampleState).2).2.Miners
      = sampleState.Miners ∧
    (UpdatePower (okContext sampleMiner 0 sampleMiner) (-7)
      (UpdatePower (okContext sampleMiner 0 sampleMiner) 4 sampleState).2).2.Orderbook
      = sampleState.Orderbook :=
  have up := UpdatePower_postcondition (okContext sampleMiner 0 sampleMiner) 4 sampleState true
    (by decide)
  have down := UpdatePower_postcondition (okContext sampleMiner 0 sampleMiner) (-7)
    (UpdatePower (okContext sampleMiner 0 sampleMiner) 4 sampleState).2 true (by decide)
  ⟨by decide, by decide, up.1, up.2.2.1 (by decide), down.1,
    (down.2.2.2.1 (by decide)).trans (by decide),
    down.2.2.2.2.1.trans up.2.2.2.2.1, down.2.2.2.2.2.trans up.2.2.2.2.2⟩

/-- Counterexample to claim C13 as stated: the sample miner is registered and
the total is 0; after its `UpdatePower` with delta -3, which succeeds, the
total committed storage is 3, not the previous value plus the delta, which
is -3. -/
theorem UpdatePower_postcondition_counterexample :
    sampleState.Miners.Find (okContext sampleMiner 0 sampleMiner).Message.From.String = .ok true ∧
    sampleState.TotalCommittedStorage = 0 ∧
    (UpdatePower (okContext sampleMiner 0 sampleMiner) (-3) sampleState).1 = ⟨.nil, 0, none⟩ ∧
    (UpdatePower (okContext sampleMiner 0 sampleMiner) (-3) sampleState).2.TotalCommittedStorage
      = 3 ∧
    ¬ (UpdatePower (okContext sampleMiner 0 sampleMiner) (-3) sampleState).2.TotalCommittedStorage
      = sampleState.TotalCommittedStorage + (-3) := by
  decide

/-- Claim C15 (genesis state): the state stored by `InitializeState` has an
empty miner set, empty indexes of asks and bids, both id counters at 0 and a
total committed storage of 0; on it `GetTotalStorage` returns 0, `GetAllAsks`
and `GetAllBids` return empty collections, and `AddAsk` from any caller fails
with the unknown-miner error, code 34. -/
theorem genesis_state (vmctx : VMContext) (price : AttoFIL) (size : BytesAmount) :
    InitializeState.Miners.entries = [] ∧
      InitializeState.Orderbook.StorageAsks.entries = [] ∧
      InitializeState.Orderbook.Bids.entries = [] ∧
      InitializeState.Orderbook.NextSAskID = 0 ∧
      InitializeState.Orderbook.NextBidID = 0 ∧
      InitializeState.TotalCommittedStorage = 0 ∧
      GetTotalStorage vmctx InitializeState = (⟨.bigInt 0, 0, none⟩, InitializeState) ∧
      GetAllAsks vmctx InitializeState = (⟨.bytes (.askSet []), 0, none⟩, InitializeState) ∧
      GetAllBids vmctx InitializeState = (⟨.bytes (.bidSet []), 0, none⟩, InitializeState) ∧
      AddAsk vmctx price size InitializeState =
        (⟨.nil, 34, some (.revert 34 "unknown miner")⟩, InitializeState) := by
  refine ⟨rfl, rfl, rfl, rfl, rfl, rfl, GetTotalStorage_eq vmctx InitializeState, rfl, rfl, ?_⟩
  rw [AddAsk_unknown vmctx price size InitializeState rfl, Errors_UnknownMiner]

/-- Claim C19 (order of effects in CreateMiner): with a pledge below 10 no
collaborator call is made; with a pledge of at least 10 and every collaborator
call succeeding the calls are, in this order, `AddressForNewActor` giving `a`,
`CreateNewActor` at `a` with the miner code and the initialisation data made of
the caller, the public key, the pledge, the peer id and the message value,
`Send` of the message value to `a`, and the insertion of `a` in the miner set;
and when `CreateNewActor` or `Send` fails the miner set is unchanged. -/
theorem CreateMiner_effects (vmctx : VMContext) (pledge : Int) (publicKey : List Nat)
    (pid : String) (st : State) :
    (pledge < 10 → CreateMinerEffects vmctx pledge publicKey pid st = []) ∧
    (∀ a, 10 ≤ pledge → vmctx.AddressForNewActor = .ok a →
      vmctx.CreateNewActor a .MinerActorCodeCid
        (miner.NewState vmctx.Message.From publicKey pledge pid vmctx.Message.Value) = none →
      vmctx.Send a "" vmctx.Message.Value = none →
      CreateMinerEffects vmctx pledge publicKey pid st =
        [.addressForNewActor,
          .createNewActor a .MinerActorCodeCid
            ⟨vmctx.Message.From, publicKey, pledge, pid, vmctx.Message.Value⟩,
          .send a "" vmctx.Message.Value,
          .setKeyValue a.String] ∧
      (CreateMiner vmctx pledge publicKey pid st).2.Miners =
        ⟨actor.upsertEntry a.String true st.Miners.entries⟩) ∧
    (∀ a, 10 ≤ pledge → vmctx.AddressForNewActor = .ok a →
      (vmctx.CreateNewActor a .MinerActorCodeCid
          (miner.NewState vmctx.Message.From publicKey pledge pid vmctx.Message.Value) ≠ none ∨
        vmctx.Send a "" vmctx.Message.Value ≠ none) →
      (CreateMiner vmctx pledge publicKey pid st).2 = st ∧
      (CreateMiner vmctx pledge publicKey pid st).1.err ≠ none) := by
  refine ⟨?_, ?_, ?_⟩
  · intro h
    simp [CreateMinerEffects, CreateMinerClosure, MinimumPledge, h]
  · intro a hp ha hc hs
    have hlow : ¬ pledge < 10 := by omega
    refine ⟨?_, ?_⟩
    · simp only [CreateMinerEffects, CreateMinerClosure, MinimumPledge, if_neg hlow, ha, hc, hs,
        actor.SetKeyValue, actor.LoadLookup]
      rfl
    · rw [CreateMiner_succeeds vmctx pledge publicKey pid st hlow a ha hc hs]
  · intro a hp ha hfail
    have hlow : ¬ pledge < 10 := by omega
    cases hc : vmctx.CreateNewActor a .MinerActorCodeCid
        (miner.NewState vmctx.Message.From publicKey pledge pid vmctx.Message.Value) with
    | some e =>
      rw [CreateMiner_createFails vmctx pledge publicKey pid st hlow a ha e hc]
      exact ⟨rfl, by simp⟩
    | none =>
      cases hs : vmctx.Send a "" vmctx.Message.Value with
      | some e =>
        rw [CreateMiner_sendFails vmctx pledge publicKey pid st hlow a ha hc e hs]
        exact ⟨rfl, by simp⟩
      | none =>
        rcases hfail with h1 | h1
        · exact absurd hc h1
        · exact absurd hs h1

/-- Witness for `CreateMiner_effects`: a pledge of 9, a pledge of 10 in a VM
whose calls succeed, and a pledge of 10 in a VM whose `CreateNewActor` fails. -/
theorem CreateMiner_effects_witness :
    ((9 : Int) < 10 ∧
      CreateMinerEffects (okContext sampleClient 7 sampleMiner) 9 [1] "peer" InitializeState = []) ∧
    ((10 : Int) ≤ 10 ∧
      CreateMinerEffects (okContext sampleClient 7 sampleMiner) 10 [1] "peer" InitializeState =
        [.addressForNewActor,
          .createNewActor sampleMiner .MinerActorCodeCid ⟨sampleClient, [1], 10, "peer", 7⟩,
          .send sampleMiner "" 7,
          .setKeyValue sampleMiner.String] ∧
      (CreateMiner (okContext sampleClient 7 sampleMiner) 10 [1] "peer" InitializeState).2.Miners =
        ⟨actor.upsertEntry sampleMiner.String true InitializeState.Miners.entries⟩) ∧
    ((createFailsContext sampleClient 7 sampleMiner).CreateNewActor sampleMiner .MinerActorCodeCid
        (miner.NewState sampleClient [1] 10 "peer" 7) ≠ none ∧
      (CreateMiner (createFailsContext sampleClient 7 sampleMiner) 10 [1] "peer"
        InitializeState).2 = InitializeState ∧
      (CreateMiner (createFailsContext sampleClient 7 sampleMiner) 10 [1] "peer"
        InitializeState).1.err ≠ none) :=
  ⟨⟨by decide,
    (CreateMiner_effects (okContext sampleClient 7 sampleMiner) 9 [1] "peer"
      InitializeState).1 (by decide)⟩,
   ⟨by decide,
    (CreateMiner_effects (okContext sampleClient 7 sampleMiner) 10 [1] "peer"
      InitializeState).2.1 sampleMiner (by decide) rfl rfl rfl⟩,
   ⟨by decide,
    (CreateMiner_effects (createFailsContext sampleClient 7 sampleMiner) 10 [1] "peer"
      InitializeState).2.2 sampleMiner (by decide) rfl (Or.inl (by decide))⟩⟩

/-- Claim C20 (signing helpers, amended): `VerifyDealSignature` returns a
boolean, which is false whenever the serialisation of the deal fails and
otherwise is the result of verifying the signature over the serialised bytes
against the address; `SignDeal` on a deal whose serialisation fails returns a
nil signature together with that serialisation error, and otherwise returns
what the signer returns for the serialised bytes. -/
theorem signing_helpers (env : SigningContext) (deal : Deal) (sig : Signature) (addr : Address) :
    (∀ err, env.Marshal deal = .error err →
      VerifyDealSignature env deal sig addr = false ∧
      SignDeal env deal addr = (none, some err)) ∧
    (∀ dealBytes, env.Marshal deal = .ok dealBytes →
      VerifyDealSignature env deal sig addr = env.VerifySignature dealBytes addr sig ∧
      SignDeal env deal addr = env.SignBytes dealBytes addr) := by
  constructor
  · intro err h
    simp [VerifyDealSignature, SignDeal, h]
  · intro dealBytes h
    simp [VerifyDealSignature, SignDeal, h]

/-- Witness for `signing_helpers`: one context in which serialisation fails and
one in which it succeeds. -/
theorem signing_helpers_witness :
    (failingMarshal.Marshal ⟨0, 0, "data"⟩ = .error "cbor: cannot encode" ∧
      VerifyDealSignature failingMarshal ⟨0, 0, "data"⟩ [1] sampleClient = false ∧
      SignDeal failingMarshal ⟨0, 0, "data"⟩ sampleClient = (none, some "cbor: cannot encode")) ∧
    (plainSigning.Marshal ⟨0, 0, "data"⟩ = .ok [0, 0] ∧
      VerifyDealSignature plainSigning ⟨0, 0, "data"⟩ [1] sampleClient =
        plainSigning.VerifySignature [0, 0] sampleClient [1] ∧
      SignDeal plainSigning ⟨0, 0, "data"⟩ sampleClient =
        plainSigning.SignBytes [0, 0] sampleClient) :=
  ⟨⟨rfl, (signing_helpers failingMarshal ⟨0, 0, "data"⟩ [1] sampleClient).1 _ rfl⟩,
   ⟨rfl, (signing_helpers plainSigning ⟨0, 0, "data"⟩ [1] sampleClient).2 _ rfl⟩⟩

/-- Counterexample to claim C20 as stated: when the serialisation of the deal
fails, `SignDeal` returns an error to its caller. -/
theorem signing_helpers_counterexample :
    failingMarshal.Marshal ⟨0, 0, "data"⟩ = .error "cbor: cannot encode" ∧
      (SignDeal failingMarshal ⟨0, 0, "data"⟩ sampleClient).2 = some "cbor: cannot encode" ∧
      (SignDeal failingMarshal ⟨0, 0, "data"⟩ sampleClient).2 ≠ none := by
  decide

end storagemarket

/-! ## Total committed storage and frame conditions -/

namespace storagemarket

theorem run_append (xs ys : List Op) : ∀ st : State, run st (xs ++ ys) = run (run st xs) ys := by
  induction xs with
  | nil => intro st; rfl
  | cons x xs ih => intro st; exact ih (dispatch x st).2

theorem replies_append (xs ys : List Op) : ∀ st : State,
    replies st (xs ++ ys) = replies st xs ++ replies (run st xs) ys := by
  induction xs with
  | nil => intro st; rfl
  | cons x xs ih =>
    intro st
    show (x, (dispatch x st).1) :: replies (dispatch x st).2 (xs ++ ys) = _
    rw [ih (dispatch x st).2]
    rfl

/-- What one message does to the total committed storage: nothing, unless it
is a successful `UpdatePower`, which leaves the magnitude of the total plus
its delta. -/
theorem dispatch_total (op : Op) (st : State) :
    ((dispatch op st).2.TotalCommittedStorage = st.TotalCommittedStorage ∧
      powerDeltaOf (op, (dispatch op st).1) = none) ∨
    (∃ delta, op.call = .updatePower delta ∧
      (dispatch op st).2.TotalCommittedStorage =
        cbor.storedBigInt (st.TotalCommittedStorage + delta) ∧
      powerDeltaOf (op, (dispatch op st).1) = some delta) := by
  obtain ⟨vmctx, call⟩ := op
  cases call with
  | createMiner pledge publicKey pid =>
    simp only [dispatch]
    rcases CreateMiner_outcome vmctx pledge publicKey pid st with ⟨c, e, he⟩ | ⟨a, _, _, he⟩ <;>
      rw [he] <;> exact Or.inl ⟨rfl, rfl⟩
  | addAsk price size =>
    simp only [dispatch]
    rcases AddAsk_outcome vmctx price size st with he | he <;> rw [he] <;>
      exact Or.inl ⟨rfl, rfl⟩
  | addBid price size =>
    simp only [dispatch]
    rcases AddBid_outcome vmctx price size st with he | he <;> rw [he] <;>
      exact Or.inl ⟨rfl, rfl⟩
  | updatePower delta =>
    simp only [dispatch]
    rcases UpdatePower_outcome vmctx delta st with he | he
    · rw [he]; exact Or.inl ⟨rfl, rfl⟩
    · rw [he]; exact Or.inr ⟨delta, rfl, rfl, rfl⟩
  | getTotalStorage => exact Or.inl ⟨by simp only [dispatch, GetTotalStorage_eq], rfl⟩
  | getAsk askID => exact Or.inl ⟨by simp only [dispatch, GetAsk_state], rfl⟩
  | getBid bidID => exact Or.inl ⟨by simp only [dispatch, GetBid_state], rfl⟩
  | getAllAsks => exact Or.inl ⟨by simp only [dispatch, GetAllAsks_state], rfl⟩
  | getAllBids => exact Or.inl ⟨by simp only [dispatch, GetAllBids_state], rfl⟩

/-- The total committed storage after a run: starting from the total before
it, each successful `UpdatePower` call of the run, in order, replaces the total
by the magnitude of the total plus its delta. -/
theorem total_of_run (ops : List Op) : ∀ st : State,
    (run st ops).TotalCommittedStorage =
      (powerDeltas (replies st ops)).foldl
        (fun total delta => cbor.storedBigInt (total + delta)) st.TotalCommittedStorage := by
  induction ops with
  | nil => intro st; simp [run, replies, powerDeltas]
  | cons op ops ih =>
    intro st
    rw [run_cons, replies_cons, ih (dispatch op st).2]
    rcases dispatch_total op st with ⟨ht, hd⟩ | ⟨delta, _, ht, hd⟩
    · simp only [powerDeltas, List.filterMap_cons, hd, ht]
    · simp only [powerDeltas, List.filterMap_cons, hd, ht, List.foldl_cons]

/-- The total committed storage is never negative after a run that starts
from a total that is not negative. -/
theorem total_nonneg_of_run (ops : List Op) : ∀ st : State,
    0 ≤ st.TotalCommittedStorage → 0 ≤ (run st ops).TotalCommittedStorage := by
  induction ops with
  | nil => intro st h; exact h
  | cons op ops ih =>
    intro st h
    rw [run_cons]
    apply ih
    rcases dispatch_total op st with ⟨ht, _⟩ | ⟨delta, _, ht, _⟩
    · rw [ht]; exact h
    · rw [ht]; exact Int.natCast_nonneg _

/-- A run without `UpdatePower` calls leaves the total committed storage as it
was. -/
theorem total_without_update (ops : List Op) : ∀ st : State,
    (∀ op ∈ ops, ∀ delta, op.call ≠ .updatePower delta) →
      (run st ops).TotalCommittedStorage = st.TotalCommittedStorage := by
  induction ops with
  | nil => intro st _; rfl
  | cons op ops ih =>
    intro st h
    rw [run_cons, ih (dispatch op st).2 fun o ho => h o (List.mem_cons_of_mem op ho)]
    rcases dispatch_total op st with ⟨ht, _⟩ | ⟨delta, hc, _, _⟩
    · exact ht
    · exact absurd hc (h op (List.mem_cons_self op ops) delta)

/-- Claim C12 (non-negative total storage): in the state reached from the
initial state by any sequence of messages with any arguments, the total
committed storage is not negative, and `GetTotalStorage` succeeds and returns
that total, so never a negative value. The total is what the successful
`UpdatePower` calls of the sequence make of 0, each replacing the total by the
magnitude of the total plus its delta; the deltas are added unchecked, and a
negative sum is committed without its sign. So after the registered sample
miner reports the loss of one sector, the total is 1, and it is 2 after it
reports three sectors and then the loss of five. -/
theorem total_storage_nonnegative (ops : List Op) (vmctx : VMContext) :
    0 ≤ (run InitializeState ops).TotalCommittedStorage ∧
      (∃ n : Nat, GetTotalStorage vmctx (run InitializeState ops) =
        (⟨.bigInt (n : Int), 0, none⟩, run InitializeState ops)) ∧
      (GetTotalStorage vmctx (run InitializeState ops)).1.ret =
        .bigInt (run InitializeState ops).TotalCommittedStorage ∧
      (run InitializeState ops).TotalCommittedStorage =
        (powerDeltas (replies InitializeState ops)).foldl
          (fun total delta => ((total + delta).natAbs : Int)) 0 ∧
      (powerDeltas (replies InitializeState [sampleCreate, samplePowerDown]) = [-1] ∧
        (run InitializeState [sampleCreate, samplePowerDown]).TotalCommittedStorage = 1 ∧
        (GetTotalStorage vmctx (run InitializeState [sampleCreate, samplePowerDown])).1 =
          ⟨.bigInt 1, 0, none⟩) ∧
      (powerDeltas (replies InitializeState [sampleCreate, samplePowerUp, samplePowerLoss]) =
          [3, -5] ∧
        (run InitializeState [sampleCreate, samplePowerUp, samplePowerLoss]).TotalCommittedStorage
          = 2) := by
  have hnn : 0 ≤ (run InitializeState ops).TotalCommittedStorage :=
    total_nonneg_of_run ops InitializeState (le_refl _)
  refine ⟨hnn, ⟨(run InitializeState ops).TotalCommittedStorage.natAbs, ?_⟩, ?_,
    total_of_run ops InitializeState, ⟨by decide, by decide, ?_⟩, by decide, by decide⟩
  · rw [GetTotalStorage_eq, Int.natAbs_of_nonneg hnn]
  · rw [GetTotalStorage_eq]
  · rw [GetTotalStorage_eq]
    decide

/-- Claim C17 (read accessors are projections): in every state,
`GetTotalStorage` returns exactly the total committed storage of the state with
exit code 0, and `GetTotalStorage`, `GetAsk`, `GetBid`, `GetAllAsks` and
`GetAllBids` leave the committed state as it was, whether they succeed or
fail; hence `GetTotalStorage` before and after any sequence of messages that
holds no `UpdatePower` call returns the same value. -/
theorem reads_are_projections (vmctx : VMContext) (id : Int) (st : State) :
    GetTotalStorage vmctx st = (⟨.bigInt st.TotalCommittedStorage, 0, none⟩, st) ∧
      (GetAsk vmctx id st).2 = st ∧
      (GetBid vmctx id st).2 = st ∧
      (GetAllAsks vmctx st).2 = st ∧
      (GetAllBids vmctx st).2 = st ∧
      ∀ (ops : List Op) (later : VMContext),
        (∀ op ∈ ops, ∀ delta, op.call ≠ .updatePower delta) →
          (GetTotalStorage later (run st ops)).1 = (GetTotalStorage vmctx st).1 := by
  refine ⟨GetTotalStorage_eq vmctx st, GetAsk_state vmctx id st, GetBid_state vmctx id st,
    GetAllAsks_state vmctx st, GetAllBids_state vmctx st, ?_⟩
  intro ops later h
  rw [GetTotalStorage_eq, GetTotalStorage_eq, total_without_update ops st h]

/-- Witness for `reads_are_projections`: between the two reads the sample
miner posts an ask and the client a bid. -/
theorem reads_are_projections_witness :
    (∀ op ∈ [sampleAsk, sampleBid], ∀ delta, op.call ≠ .updatePower delta) ∧
      (GetTotalStorage (okContext sampleMiner 0 sampleMiner)
          (run sampleState [sampleAsk, sampleBid])).1 =
        (GetTotalStorage (okContext sampleClient 0 sampleMiner) sampleState).1 :=
  ⟨by
    intro op hop delta
    simp only [List.mem_cons, List.mem_singleton, List.not_mem_nil, or_false] at hop
    rcases hop with rfl | rfl <;> simp [sampleAsk, sampleBid],
   (reads_are_projections (okContext sampleClient 0 sampleMiner) 0 sampleState).2.2.2.2.2
      [sampleAsk, sampleBid] (okContext sampleMiner 0 sampleMiner) (by
        intro op hop delta
        simp only [List.mem_cons, List.mem_singleton, List.not_mem_nil, or_false] at hop
        rcases hop with rfl | rfl <;> simp [sampleAsk, sampleBid])⟩

end storagemarket

namespace storagemarket

/-- A registered miner posting the same ask `k` times leaves the miner set as
it was and advances the ask counter by `k` modulo `2 ^ 64`. -/
theorem run_replicate_asks (vmctx : VMContext) (price : AttoFIL) (size : BytesAmount) (k : Nat) :
    ∀ st : State, (∃ b, actor.findEntry vmctx.Message.From.String st.Miners.entries = some b) →
      st.Orderbook.NextSAskID < 2 ^ 64 →
      (run st (List.replicate k ⟨vmctx, .addAsk price size⟩)).Miners = st.Miners ∧
      (run st (List.replicate k ⟨vmctx, .addAsk price size⟩)).Orderbook.NextSAskID =
        (st.Orderbook.NextSAskID + k) % 2 ^ 64 := by
  induction k with
  | zero =>
    intro st _ hlt
    exact ⟨rfl, (Nat.mod_eq_of_lt hlt).symm⟩
  | succ k ih =>
    intro st hm hlt
    obtain ⟨b, hb⟩ := hm
    rw [List.replicate_succ, run_cons]
    have hd : dispatch ⟨vmctx, .addAsk price size⟩ st = AddAsk vmctx price size st := rfl
    rw [hd, AddAsk_known vmctx price size st b hb]
    obtain ⟨h1, h2⟩ := ih { st with Orderbook :=
      { st.Orderbook with
        NextSAskID := (st.Orderbook.NextSAskID + 1) % 2 ^ 64
        StorageAsks := ⟨actor.upsertEntry (keyFromID st.Orderbook.NextSAskID)
          ⟨st.Orderbook.NextSAskID, price, size, vmctx.Message.From⟩
          st.Orderbook.StorageAsks.entries⟩ } } ⟨b, hb⟩ (Nat.mod_lt _ (by norm_num))
    refine ⟨h1, ?_⟩
    rw [h2]
    show ((st.Orderbook.NextSAskID + 1) % 2 ^ 64 + k) % 2 ^ 64 =
      (st.Orderbook.NextSAskID + (k + 1)) % 2 ^ 64
    omega

/-- Claim C18 (frame conditions, amended): a successful `AddAsk` changes only
the index of asks and the ask counter, which becomes the old counter plus 1
modulo `2 ^ 64` (the old counter plus 1 unless it stood at `2 ^ 64 - 1`); a
successful `AddBid` changes only the index of bids and the bid counter, in the
same way; a successful `CreateMiner` changes only the miner set; each leaves
the total committed storage and every other field as it was, and no message
other than `UpdatePower` changes the total committed storage. -/
theorem frame_of_creation (vmctx : VMContext) (st : State) :
    (∀ price size, (AddAsk vmctx price size st).1.err = none →
      (AddAsk vmctx price size st).2.Miners = st.Miners ∧
      (AddAsk vmctx price size st).2.Orderbook.Bids = st.Orderbook.Bids ∧
      (AddAsk vmctx price size st).2.Orderbook.NextBidID = st.Orderbook.NextBidID ∧
      (AddAsk vmctx price size st).2.TotalCommittedStorage = st.TotalCommittedStorage ∧
      (AddAsk vmctx price size st).2.Orderbook.NextSAskID =
        (st.Orderbook.NextSAskID + 1) % 2 ^ 64 ∧
      (st.Orderbook.NextSAskID < 2 ^ 64 - 1 →
        (AddAsk vmctx price size st).2.Orderbook.NextSAskID = st.Orderbook.NextSAskID + 1)) ∧
    (∀ price size, (AddBid vmctx price size st).1.err = none →
      (AddBid vmctx price size st).2.Miners = st.Miners ∧
      (AddBid vmctx price size st).2.Orderbook.StorageAsks = st.Orderbook.StorageAsks ∧
      (AddBid vmctx price size st).2.Orderbook.NextSAskID = st.Orderbook.NextSAskID ∧
      (AddBid vmctx price size st).2.TotalCommittedStorage = st.TotalCommittedStorage ∧
      (AddBid vmctx price size st).2.Orderbook.NextBidID =
        (st.Orderbook.NextBidID + 1) % 2 ^ 64 ∧
      (st.Orderbook.NextBidID < 2 ^ 64 - 1 →
        (AddBid vmctx price size st).2.Orderbook.NextBidID = st.Orderbook.NextBidID + 1)) ∧
    (∀ pledge publicKey pid, (CreateMiner vmctx pledge publicKey pid st).1.err = none →
      (CreateMiner vmctx pledge publicKey pid st).2.Orderbook = st.Orderbook ∧
      (CreateMiner vmctx pledge publicKey pid st).2.TotalCommittedStorage =
        st.TotalCommittedStorage) ∧
    (∀ op : Op, (∀ delta, op.call ≠ .updatePower delta) →
      (dispatch op st).2.TotalCommittedStorage = st.TotalCommittedStorage) := by
  refine ⟨?_, ?_, ?_, ?_⟩
  · intro price size hok
    rcases AddAsk_outcome vmctx price size st with he | he
    · rw [he, Errors_UnknownMiner] at hok; cases hok
    · rw [he]
      refine ⟨rfl, rfl, rfl, rfl, rfl, ?_⟩
      intro hlt
      exact Nat.mod_eq_of_lt (by omega)
  · intro price size hok
    rcases AddBid_outcome vmctx price size st with he | he
    · rw [he, Errors_InsufficientBidFunds] at hok; cases hok
    · rw [he]
      refine ⟨rfl, rfl, rfl, rfl, rfl, ?_⟩
      intro hlt
      exact Nat.mod_eq_of_lt (by omega)
  · intro pledge publicKey pid hok
    rcases CreateMiner_outcome vmctx pledge publicKey pid st with ⟨c, e, he⟩ | ⟨a, _, _, he⟩
    · rw [he] at hok; cases hok
    · rw [he]; exact ⟨rfl, rfl⟩
  · intro op hop
    rcases dispatch_total op st with ⟨ht, _⟩ | ⟨delta, hc, _, _⟩
    · exact ht
    · exact absurd hc (hop delta)

/-- Witness for `frame_of_creation` on the state in which the sample miner is
registered: its ask, a funded bid and the creation of a miner all succeed. -/
theorem frame_of_creation_witness :
    ((AddAsk (okContext sampleMiner 500 sampleClient) 5 100 sampleState).1.err = none ∧
      sampleState.Orderbook.NextSAskID < 2 ^ 64 - 1 ∧
      (AddAsk (okContext sampleMiner 500 sampleClient) 5 100 sampleState).2.Orderbook.NextSAskID =
        sampleState.Orderbook.NextSAskID + 1) ∧
    ((AddBid (okContext sampleMiner 500 sampleClient) 5 100 sampleState).1.err = none ∧
      sampleState.Orderbook.NextBidID < 2 ^ 64 - 1 ∧
      (AddBid (okContext sampleMiner 500 sampleClient) 5 100 sampleState).2.Orderbook.NextBidID =
        sampleState.Orderbook.NextBidID + 1) ∧
    ((CreateMiner (okContext sampleMiner 500 sampleClient) 10 [] "peer" sampleState).1.err = none ∧
      (CreateMiner (okContext sampleMiner 500 sampleClient) 10 [] "peer" sampleState).2.Orderbook =
        sampleState.Orderbook) ∧
    ((∀ delta, sampleAsk.call ≠ .updatePower delta) ∧
      (dispatch sampleAsk sampleState).2.TotalCommittedStorage =
        sampleState.TotalCommittedStorage) :=
  ⟨⟨by decide, by decide,
    ((frame_of_creation (okContext sampleMiner 500 sampleClient) sampleState).1 5 100
      (by decide)).2.2.2.2.2 (by decide)⟩,
   ⟨by decide, by decide,
    ((frame_of_creation (okContext sampleMiner 500 sampleClient) sampleState).2.1 5 100
      (by decide)).2.2.2.2.2 (by decide)⟩,
   ⟨by decide,
    ((frame_of_creation (okContext sampleMiner 500 sampleClient) sampleState).2.2.1 10 [] "peer"
      (by decide)).1⟩,
   ⟨fun delta => by simp [sampleAsk],
    (frame_of_creation (okContext sampleMiner 500 sampleClient) sampleState).2.2.2 sampleAsk
      (fun delta => by simp [sampleAsk])⟩⟩

theorem run_fullRun :
    run InitializeState fullRun = run sampleState (List.replicate (2 ^ 64 - 1) sampleAsk) := by
  unfold fullRun
  rw [run_cons, sampleState_eq]

/-- A successful `AddAsk` on a state whose ask counter stands at `2 ^ 64 - 1`
leaves the counter at 0. -/
theorem AddAsk_wraps (vmctx : VMContext) (price : AttoFIL) (size : BytesAmount) (st : State)
    (b : Bool) (hreg : actor.findEntry vmctx.Message.From.String st.Miners.entries = some b)
    (hnext : st.Orderbook.NextSAskID = 2 ^ 64 - 1) :
    (AddAsk vmctx price size st).1.err = none ∧
      (AddAsk vmctx price size st).2.Orderbook.NextSAskID = 0 := by
  rw [AddAsk_known vmctx price size st b hreg]
  refine ⟨rfl, ?_⟩
  show (st.Orderbook.NextSAskID + 1) % 2 ^ 64 = 0
  rw [hnext]
  norm_num

theorem fullRun_state :
    (run InitializeState fullRun).Miners = sampleState.Miners ∧
      (run InitializeState fullRun).Orderbook.NextSAskID = 2 ^ 64 - 1 := by
  obtain ⟨hm, hn⟩ := run_replicate_asks (okContext sampleMiner 0 sampleMiner) 5 100 (2 ^ 64 - 1)
    sampleState sampleMiner_registered (by decide)
  have h0 : sampleState.Orderbook.NextSAskID = 0 := by decide
  rw [h0] at hn
  rw [run_fullRun]
  refine ⟨hm, ?_⟩
  rw [show sampleAsk = (⟨okContext sampleMiner 0 sampleMiner, .addAsk 5 100⟩ : Op) from rfl, hn]
  norm_num

/-- Counterexample to claim C18 as stated: the run `fullRun` creates the sample
miner and lets it post `2 ^ 64 - 1` asks, which leaves the ask counter at
`2 ^ 64 - 1`; the next `AddAsk` succeeds and the counter is then 0, so it did
not grow by 1. -/
theorem frame_of_creation_counterexample :
    (run InitializeState fullRun).Orderbook.NextSAskID = 2 ^ 64 - 1 ∧
      (AddAsk (okContext sampleMiner 0 sampleMiner) 5 100
        (run InitializeState fullRun)).1.err = none ∧
      (AddAsk (okContext sampleMiner 0 sampleMiner) 5 100
        (run InitializeState fullRun)).2.Orderbook.NextSAskID = 0 := by
  obtain ⟨hm, hn⟩ := fullRun_state
  have hreg : actor.findEntry (okContext sampleMiner 0 sampleMiner).Message.From.String
      (run InitializeState fullRun).Miners.entries = some true := by
    rw [hm]; decide
  exact ⟨hn, AddAsk_wraps (okContext sampleMiner 0 sampleMiner) 5 100
    (run InitializeState fullRun) true hreg hn⟩

end storagemarket

/-! ## Permanence of records -/

namespace storagemarket

/-- The entry stored under the key of id `i` survives a run in which no
successful `AddAsk` returns `i`. -/
theorem ask_entry_of_run (i : Nat) (hi : i < 2 ^ 64) (ops : List Op) : ∀ st : State,
    st.Orderbook.NextSAskID < 2 ^ 64 → (i : Int) ∉ askIDs (replies st ops) →
      actor.findEntry (keyFromID i) (run st ops).Orderbook.StorageAsks.entries =
        actor.findEntry (keyFromID i) st.Orderbook.StorageAsks.entries := by
  induction ops with
  | nil => intro st _ _; rfl
  | cons op ops ih =>
    intro st hst hnot
    rw [run_cons]
    rw [replies_cons] at hnot
    rcases dispatch_asks op st with ⟨hs, hn, hid, _⟩ | ⟨price, size, hs, hn, hid, _⟩
    · have e : askIDs ((op, (dispatch op st).1) :: replies (dispatch op st).2 ops) =
          askIDs (replies (dispatch op st).2 ops) := by
        simp only [askIDs, List.filterMap_cons, hid]
      rw [e] at hnot
      rw [ih (dispatch op st).2 (by rw [hn]; exact hst) hnot, hs]
    · have e : askIDs ((op, (dispatch op st).1) :: replies (dispatch op st).2 ops) =
          (st.Orderbook.NextSAskID : Int) :: askIDs (replies (dispatch op st).2 ops) := by
        simp only [askIDs, List.filterMap_cons, hid]
      rw [e] at hnot
      have hne : ¬ (i : Int) = (st.Orderbook.NextSAskID : Int) := fun h =>
        hnot (h ▸ List.mem_cons_self _ _)
      have hrest : (i : Int) ∉ askIDs (replies (dispatch op st).2 ops) := fun h =>
        hnot (List.mem_cons_of_mem _ h)
      have hkey : keyFromID st.Orderbook.NextSAskID ≠ keyFromID i := by
        intro hk
        have := keyFromID_injective _ _ hst hi hk
        exact hne (by rw [this])
      rw [ih (dispatch op st).2 (by rw [hn]; exact Nat.mod_lt _ (by norm_num)) hrest, hs]
      exact actor.findEntry_upsertEntry_other _ _ _ _ hkey

/-- In a run with fewer than `2 ^ 64` successful `AddAsk` calls that starts
with the ask counter at `(n + 1) mod 2 ^ 64`, no call returns `n`. -/
theorem askIDs_avoid (n : Nat) (ops : List Op) (st : State)
    (hst : st.Orderbook.NextSAskID = (n + 1) % 2 ^ 64)
    (hlen : (askIDs (replies st ops)).length < 2 ^ 64) :
    (n : Int) ∉ askIDs (replies st ops) := by
  have hlt : st.Orderbook.NextSAskID < 2 ^ 64 := by
    rw [hst]; exact Nat.mod_lt _ (by norm_num)
  rw [askIDs_of_run ops st hlt]
  intro hmem
  obtain ⟨k, hk, hkn⟩ := List.mem_map.mp hmem
  have hk2 := List.mem_range.mp hk
  have : (st.Orderbook.NextSAskID + k) % 2 ^ 64 = n := by exact_mod_cast hkn
  rw [hst] at this
  omega

/-- The entry stored under the key of id `i` survives a run in which no
successful `AddBid` returns `i`. -/
theorem bid_entry_of_run (i : Nat) (hi : i < 2 ^ 64) (ops : List Op) : ∀ st : State,
    st.Orderbook.NextBidID < 2 ^ 64 → (i : Int) ∉ bidIDs (replies st ops) →
      actor.findEntry (keyFromID i) (run st ops).Orderbook.Bids.entries =
        actor.findEntry (keyFromID i) st.Orderbook.Bids.entries := by
  induction ops with
  | nil => intro st _ _; rfl
  | cons op ops ih =>
    intro st hst hnot
    rw [run_cons]
    rw [replies_cons] at hnot
    rcases dispatch_bids op st with ⟨hs, hn, hid, _⟩ | ⟨price, size, hs, hn, hid, _⟩
    · have e : bidIDs ((op, (dispatch op st).1) :: replies (dispatch op st).2 ops) =
          bidIDs (replies (dispatch op st).2 ops) := by
        simp only [bidIDs, List.filterMap_cons, hid]
      rw [e] at hnot
      rw [ih (dispatch op st).2 (by rw [hn]; exact hst) hnot, hs]
    · have e : bidIDs ((op, (dispatch op st).1) :: replies (dispatch op st).2 ops) =
          (st.Orderbook.NextBidID : Int) :: bidIDs (replies (dispatch op st).2 ops) := by
        simp only [bidIDs, List.filterMap_cons, hid]
      rw [e] at hnot
      have hne : ¬ (i : Int) = (st.Orderbook.NextBidID : Int) := fun h =>
        hnot (h ▸ List.mem_cons_self _ _)
      have hrest : (i : Int) ∉ bidIDs (replies (dispatch op st).2 ops) := fun h =>
        hnot (List.mem_cons_of_mem _ h)
      have hkey : keyFromID st.Orderbook.NextBidID ≠ keyFromID i := by
        intro hk
        have := keyFromID_injective _ _ hst hi hk
        exact hne (by rw [this])
      rw [ih (dispatch op st).2 (by rw [hn]; exact Nat.mod_lt _ (by norm_num)) hrest, hs]
      exact actor.findEntry_upsertEntry_other _ _ _ _ hkey

/-- In a run with fewer than `2 ^ 64` successful `AddBid` calls that starts
with the ask counter at `(n + 1) mod 2 ^ 64`, no call returns `n`. -/
theorem bidIDs_avoid (n : Nat) (ops : List Op) (st : State)
    (hst : st.Orderbook.NextBidID = (n + 1) % 2 ^ 64)
    (hlen : (bidIDs (replies st ops)).length < 2 ^ 64) :
    (n : Int) ∉ bidIDs (replies st ops) := by
  have hlt : st.Orderbook.NextBidID < 2 ^ 64 := by
    rw [hst]; exact Nat.mod_lt _ (by norm_num)
  rw [bidIDs_of_run ops st hlt]
  intro hmem
  obtain ⟨k, hk, hkn⟩ := List.mem_map.mp hmem
  have hk2 := List.mem_range.mp hk
  have : (st.Orderbook.NextBidID + k) % 2 ^ 64 = n := by exact_mod_cast hkn
  rw [hst] at this
  omega

end storagemarket

namespace storagemarket

/-- Claim C16 (permanent records, amended): in every state whose counters hold
unsigned 64-bit values, once a successful `AddAsk` has returned id `i` for a
record, then after every further sequence of messages with fewer than `2 ^ 64`
successful `AddAsk` calls, `GetAsk i` still returns that record and no
successful `AddAsk` of the sequence returned `i`; likewise for bids. -/
theorem records_permanent (st : State) (hwf : st.wellFormed) (vmctx reader : VMContext)
    (price : AttoFIL) (size : BytesAmount) (ops : List Op) :
    ((AddAsk vmctx price size st).1.err = none →
      (askIDs (replies (AddAsk vmctx price size st).2 ops)).length < 2 ^ 64 →
      ∃ i : Nat, (AddAsk vmctx price size st).1 = ⟨.bigInt (i : Int), 0, none⟩ ∧
        GetAsk reader (i : Int) (run (AddAsk vmctx price size st).2 ops) =
          (⟨.bytes (.ask ⟨i, price, size, vmctx.Message.From⟩), 0, none⟩,
            run (AddAsk vmctx price size st).2 ops) ∧
        (i : Int) ∉ askIDs (replies (AddAsk vmctx price size st).2 ops)) ∧
    ((AddBid vmctx price size st).1.err = none →
      (bidIDs (replies (AddBid vmctx price size st).2 ops)).length < 2 ^ 64 →
      ∃ i : Nat, (AddBid vmctx price size st).1 = ⟨.bigInt (i : Int), 0, none⟩ ∧
        GetBid reader (i : Int) (run (AddBid vmctx price size st).2 ops) =
          (⟨.bytes (.bid ⟨i, price, size, vmctx.Message.From⟩), 0, none⟩,
            run (AddBid vmctx price size st).2 ops) ∧
        (i : Int) ∉ bidIDs (replies (AddBid vmctx price size st).2 ops)) := by
  obtain ⟨hwa, hwb⟩ := hwf
  constructor
  · intro hok hlen
    rcases AddAsk_outcome vmctx price size st with he | he
    · rw [he, Errors_UnknownMiner] at hok; cases hok
    · rw [he] at hlen ⊢
      have hnot := askIDs_avoid st.Orderbook.NextSAskID ops _ rfl hlen
      refine ⟨st.Orderbook.NextSAskID, rfl, ?_, hnot⟩
      apply GetAsk_present
      rw [Uint64_natCast _ hwa]
      show actor.findEntry (keyFromID st.Orderbook.NextSAskID) _ = _
      rw [ask_entry_of_run _ hwa ops _ (Nat.mod_lt _ (by norm_num)) hnot]
      exact actor.findEntry_upsertEntry_self _ _ _
  · intro hok hlen
    rcases AddBid_outcome vmctx price size st with he | he
    · rw [he, Errors_InsufficientBidFunds] at hok; cases hok
    · rw [he] at hlen ⊢
      have hnot := bidIDs_avoid st.Orderbook.NextBidID ops _ rfl hlen
      refine ⟨st.Orderbook.NextBidID, rfl, ?_, hnot⟩
      apply GetBid_present
      rw [Uint64_natCast _ hwb]
      show actor.findEntry (keyFromID st.Orderbook.NextBidID) _ = _
      rw [bid_entry_of_run _ hwb ops _ (Nat.mod_lt _ (by norm_num)) hnot]
      exact actor.findEntry_upsertEntry_self _ _ _

/-- Witness for `records_permanent`: on the state in which the sample miner is
registered, an ask and a funded bid are recorded, and one more ask and one
more bid follow. -/
theorem records_permanent_witness :
    sampleState.wellFormed ∧
    (AddAsk (okContext sampleMiner 500 sampleMiner) 5 100 sampleState).1.err = none ∧
    (askIDs (replies (AddAsk (okContext sampleMiner 500 sampleMiner) 5 100 sampleState).2
      [sampleAsk, sampleBid])).length < 2 ^ 64 ∧
    (AddBid (okContext sampleMiner 500 sampleMiner) 5 100 sampleState).1.err = none ∧
    (bidIDs (replies (AddBid (okContext sampleMiner 500 sampleMiner) 5 100 sampleState).2
      [sampleAsk, sampleBid])).length < 2 ^ 64 ∧
    (∃ i : Nat, (AddAsk (okContext sampleMiner 500 sampleMiner) 5 100 sampleState).1 =
        ⟨.bigInt (i : Int), 0, none⟩ ∧
      GetAsk (okContext sampleClient 0 sampleMiner) (i : Int)
          (run (AddAsk (okContext sampleMiner 500 sampleMiner) 5 100 sampleState).2
            [sampleAsk, sampleBid]) =
        (⟨.bytes (.ask ⟨i, 5, 100, (okContext sampleMiner 500 sampleMiner).Message.From⟩), 0, none⟩,
          run (AddAsk (okContext sampleMiner 500 sampleMiner) 5 100 sampleState).2
            [sampleAsk, sampleBid]) ∧
      (i : Int) ∉ askIDs (replies (AddAsk (okContext sampleMiner 500 sampleMiner) 5 100
        sampleState).2 [sampleAsk, sampleBid])) ∧
    (∃ i : Nat, (AddBid (okContext sampleMiner 500 sampleMiner) 5 100 sampleState).1 =
        ⟨.bigInt (i : Int), 0, none⟩ ∧
      GetBid (okContext sampleClient 0 sampleMiner) (i : Int)
          (run (AddBid (okContext sampleMiner 500 sampleMiner) 5 100 sampleState).2
            [sampleAsk, sampleBid]) =
        (⟨.bytes (.bid ⟨i, 5, 100, (okContext sampleMiner 500 sampleMiner).Message.From⟩), 0, none⟩,
          run (AddBid (okContext sampleMiner 500 sampleMiner) 5 100 sampleState).2
            [sampleAsk, sampleBid]) ∧
      (i : Int) ∉ bidIDs (replies (AddBid (okContext sampleMiner 500 sampleMiner) 5 100
        sampleState).2 [sampleAsk, sampleBid])) :=
  ⟨by decide, by decide, by decide, by decide, by decide,
    (records_permanent sampleState (by decide) (okContext sampleMiner 500 sampleMiner)
      (okContext sampleClient 0 sampleMiner) 5 100 [sampleAsk, sampleBid]).1
      (by decide) (by decide),
    (records_permanent sampleState (by decide) (okContext sampleMiner 500 sampleMiner)
      (okContext sampleClient 0 sampleMiner) 5 100 [sampleAsk, sampleBid]).2
      (by decide) (by decide)⟩

/-- A successful `AddAsk` on a state whose ask counter stands at 0 returns id
0 and stores its record under that id. -/
theorem AddAsk_at_zero (vmctx reader : VMContext) (price : AttoFIL) (size : BytesAmount)
    (st : State) (b : Bool)
    (hreg : actor.findEntry vmctx.Message.From.String st.Miners.entries = some b)
    (hnext : st.Orderbook.NextSAskID = 0) :
    (dispatch ⟨vmctx, .addAsk price size⟩ st).1 = ⟨.bigInt 0, 0, none⟩ ∧
      (GetAsk reader 0 (dispatch ⟨vmctx, .addAsk price size⟩ st).2).1 =
        ⟨.bytes (.ask ⟨0, price, size, vmctx.Message.From⟩), 0, none⟩ := by
  have hd : dispatch ⟨vmctx, .addAsk price size⟩ st = AddAsk vmctx price size st := rfl
  rw [hd, AddAsk_known vmctx price size st b hreg, hnext]
  refine ⟨rfl, ?_⟩
  rw [GetAsk_present reader 0 _ ⟨0, price, size, vmctx.Message.From⟩
    (actor.findEntry_upsertEntry_self _ _ _)]

theorem laterAsks_state :
    (run firstAskState (List.replicate (2 ^ 64 - 1) sampleAsk)).Miners = firstAskState.Miners ∧
      (run firstAskState (List.replicate (2 ^ 64 - 1) sampleAsk)).Orderbook.NextSAskID = 0 := by
  have hreg : ∃ b, actor.findEntry (okContext sampleMiner 0 sampleMiner).Message.From.String
      firstAskState.Miners.entries = some b := ⟨true, by decide⟩
  obtain ⟨hm, hn⟩ := run_replicate_asks (okContext sampleMiner 0 sampleMiner) 5 100 (2 ^ 64 - 1)
    firstAskState hreg (by decide)
  have h1 : firstAskState.Orderbook.NextSAskID = 1 := by decide
  rw [h1] at hn
  rw [show sampleAsk = (⟨okContext sampleMiner 0 sampleMiner, .addAsk 5 100⟩ : Op) from rfl]
  refine ⟨hm, ?_⟩
  rw [hn]
  norm_num

theorem run_nil (st : State) : run st [] = st := rfl

/-- Counterexample to claim C16 as stated: the sample miner's first ask, at
price 5, returns id 0 and is read back under id 0; after the further messages
`laterAsks`, which are `2 ^ 64 - 1` asks at price 5 and one ask at price 7, a
later successful `AddAsk` has returned id 0 again and `GetAsk 0` returns the
ask at price 7. -/
theorem records_permanent_counterexample :
    (dispatch sampleAsk sampleState).1 = ⟨.bigInt 0, 0, none⟩ ∧
      (GetAsk (okContext sampleClient 0 sampleMiner) 0 firstAskState).1 =
        ⟨.bytes (.ask ⟨0, 5, 100, sampleMiner⟩), 0, none⟩ ∧
      (0 : Int) ∈ askIDs (replies firstAskState laterAsks) ∧
      (GetAsk (okContext sampleClient 0 sampleMiner) 0 (run firstAskState laterAsks)).1 =
        ⟨.bytes (.ask ⟨0, 7, 100, sampleMiner⟩), 0, none⟩ := by
  obtain ⟨hm, hn⟩ := laterAsks_state
  have hreg : actor.findEntry (okContext sampleMiner 0 sampleMiner).Message.From.String
      (run firstAskState (List.replicate (2 ^ 64 - 1) sampleAsk)).Miners.entries = some true := by
    rw [hm]; decide
  obtain ⟨hret, hget⟩ := AddAsk_at_zero (okContext sampleMiner 0 sampleMiner)
    (okContext sampleClient 0 sampleMiner) 7 100 _ true hreg hn
  have hother : otherAsk = (⟨okContext sampleMiner 0 sampleMiner, .addAsk 7 100⟩ : Op) := rfl
  have hid : askIDOf ((⟨okContext sampleMiner 0 sampleMiner, .addAsk 7 100⟩ : Op),
      (⟨.bigInt 0, 0, none⟩ : Reply)) = some 0 := rfl
  have h1 : (dispatch sampleAsk sampleState).1 = ⟨.bigInt 0, 0, none⟩ := by decide
  have h2 : (GetAsk (okContext sampleClient 0 sampleMiner) 0 firstAskState).1 =
      ⟨.bytes (.ask ⟨0, 5, 100, sampleMiner⟩), 0, none⟩ := by decide
  refine ⟨h1, h2, ?_, ?_⟩
  · unfold laterAsks
    rw [replies_append, hother, replies_cons, hret]
    unfold askIDs
    rw [List.filterMap_append, List.filterMap_cons_some hid]
    exact List.mem_append_right _ (List.mem_cons_self _ _)
  · unfold laterAsks
    rw [run_append, hother, run_cons, run_nil]
    exact hget

end storagemarket

/-! ## The worked example -/

namespace storagemarket

theorem keyFromID_zero : keyFromID 0 = "0" := by decide

theorem idFromKey_zero : idFromKey "0" = .ok 0 := by decide

/-- Claim C14 (worked example): from the initial state, `CreateMiner` with a
pledge of 10, any public key and any peer id, in a VM that hands out address
`A` and whose collaborator calls succeed, returns `A`; `AddAsk` from `A` with
price 5 and size 100 then returns ask id 0; on the state so reached `AddBid`
from an address `B` with price 5, size 100 and attached value 500 returns bid
id 0, whereas with attached value 499 it fails with the insufficient-bid-funds
error, code 44; and after the successful bid `GetAllAsks` yields exactly the
collection that maps id 0 to the ask of price 5 and size 100 owned by `A`. -/
theorem worked_example (owner A B fresh : Address) (pk : List Nat) (peer : String)
    (collateral askValue : AttoFIL) :
    (CreateMiner (okContext owner collateral A) 10 pk peer InitializeState).1 =
        ⟨.addr A, 0, none⟩ ∧
      (AddAsk (okContext A askValue fresh) 5 100
        (run InitializeState [⟨okContext owner collateral A, .createMiner 10 pk peer⟩])).1 =
        ⟨.bigInt 0, 0, none⟩ ∧
      (AddBid (okContext B 500 fresh) 5 100
        (run InitializeState [⟨okContext owner collateral A, .createMiner 10 pk peer⟩,
          ⟨okContext A askValue fresh, .addAsk 5 100⟩])).1 = ⟨.bigInt 0, 0, none⟩ ∧
      (AddBid (okContext B 499 fresh) 5 100
        (run InitializeState [⟨okContext owner collateral A, .createMiner 10 pk peer⟩,
          ⟨okContext A askValue fresh, .addAsk 5 100⟩])).1 =
        ⟨.nil, 44, some (.revert 44 "must send price * size funds to create bid")⟩ ∧
      (GetAllAsks (okContext B 0 fresh)
        (run InitializeState [⟨okContext owner collateral A, .createMiner 10 pk peer⟩,
          ⟨okContext A askValue fresh, .addAsk 5 100⟩,
          ⟨okContext B 500 fresh, .addBid 5 100⟩])).1 =
        ⟨.bytes (.askSet [(0, ⟨0, 5, 100, A⟩)]), 0, none⟩ := by
  have hc : CreateMiner (okContext owner collateral A) 10 pk peer InitializeState =
      (⟨.addr A, 0, none⟩, ⟨⟨[(A.String, true)]⟩, ⟨⟨[]⟩, ⟨[]⟩, 0, 0⟩, 0⟩) :=
    CreateMiner_succeeds (okContext owner collateral A) 10 pk peer InitializeState (by decide) A
      rfl rfl rfl
  have ha : AddAsk (okContext A askValue fresh) 5 100
        ⟨⟨[(A.String, true)]⟩, ⟨⟨[]⟩, ⟨[]⟩, 0, 0⟩, 0⟩ =
      (⟨.bigInt 0, 0, none⟩,
        ⟨⟨[(A.String, true)]⟩, ⟨⟨[("0", ⟨0, 5, 100, A⟩)]⟩, ⟨[]⟩, 1, 0⟩, 0⟩) := by
    rw [AddAsk_known (okContext A askValue fresh) 5 100 _ true
      (by simp [actor.findEntry, okContext])]
    simp [keyFromID_zero, actor.upsertEntry, okContext]
  have hb : AddBid (okContext B 500 fresh) 5 100
        ⟨⟨[(A.String, true)]⟩, ⟨⟨[("0", ⟨0, 5, 100, A⟩)]⟩, ⟨[]⟩, 1, 0⟩, 0⟩ =
      (⟨.bigInt 0, 0, none⟩,
        ⟨⟨[(A.String, true)]⟩,
          ⟨⟨[("0", ⟨0, 5, 100, A⟩)]⟩, ⟨[("0", ⟨0, 5, 100, B⟩)]⟩, 1, 1⟩, 0⟩) := by
    rw [AddBid_sufficient (okContext B 500 fresh) 5 100 _ (by simp [okContext])]
    simp [keyFromID_zero, actor.upsertEntry, okContext]
  have hlow : AddBid (okContext B 499 fresh) 5 100
        ⟨⟨[(A.String, true)]⟩, ⟨⟨[("0", ⟨0, 5, 100, A⟩)]⟩, ⟨[]⟩, 1, 0⟩, 0⟩ =
      (⟨.nil, 44, some (.revert 44 "must send price * size funds to create bid")⟩,
        ⟨⟨[(A.String, true)]⟩, ⟨⟨[("0", ⟨0, 5, 100, A⟩)]⟩, ⟨[]⟩, 1, 0⟩, 0⟩) := by
    rw [AddBid_insufficient (okContext B 499 fresh) 5 100 _ (by simp [okContext]),
      Errors_InsufficientBidFunds]
  have hg : GetAllAsks (okContext B 0 fresh)
        ⟨⟨[(A.String, true)]⟩,
          ⟨⟨[("0", ⟨0, 5, 100, A⟩)]⟩, ⟨[("0", ⟨0, 5, 100, B⟩)]⟩, 1, 1⟩, 0⟩ =
      (⟨.bytes (.askSet [(0, ⟨0, 5, 100, A⟩)]), 0, none⟩,
        ⟨⟨[(A.String, true)]⟩,
          ⟨⟨[("0", ⟨0, 5, 100, A⟩)]⟩, ⟨[("0", ⟨0, 5, 100, B⟩)]⟩, 1, 1⟩, 0⟩) := by
    simp [GetAllAsks, WithState, GetAllAsksClosure, actor.LoadTypedLookup, actor.Lookup.Values,
      collectAsks, idFromKey_zero, mapSet, MarshalAskSet]
  simp only [run, dispatch, hc, ha, hb, hlow, hg, and_self]

end storagemarket

/-! ## Claims about test blocks and power updates -/

namespace chain

/-- Claim C22 (NewBlockForTest linkage, amended): for every nonce,
`NewBlockForTest` returns a block with that nonce and with empty lists of
messages and receipts; for a given parent the height of the block is the
height of the parent plus 1 modulo `2 ^ 64` (the height of the parent plus 1
unless the parent stands at `2 ^ 64 - 1`), its state root is the state root of
the parent and its parent set holds exactly the CID of the parent; without a
parent the height is 0, the state root is nil and the parent set is empty. -/
theorem NewBlockForTest_linkage (cidOf : Block → Cid) (parent : Block) (nonce : Nat) :
    ((NewBlockForTest cidOf (some parent) nonce).Nonce = nonce ∧
      (NewBlockForTest cidOf (some parent) nonce).Messages = [] ∧
      (NewBlockForTest cidOf (some parent) nonce).MessageReceipts = [] ∧
      (NewBlockForTest cidOf (some parent) nonce).Height = (parent.Height + 1) % 2 ^ 64 ∧
      (parent.Height < 2 ^ 64 - 1 →
        (NewBlockForTest cidOf (some parent) nonce).Height = parent.Height + 1) ∧
      (NewBlockForTest cidOf (some parent) nonce).StateRoot = parent.StateRoot ∧
      (NewBlockForTest cidOf (some parent) nonce).Parents.s = [cidOf parent]) ∧
    ((NewBlockForTest cidOf none nonce).Nonce = nonce ∧
      (NewBlockForTest cidOf none nonce).Messages = [] ∧
      (NewBlockForTest cidOf none nonce).MessageReceipts = [] ∧
      (NewBlockForTest cidOf none nonce).Height = 0 ∧
      (NewBlockForTest cidOf none nonce).StateRoot = none ∧
      (NewBlockForTest cidOf none nonce).Parents.s = []) := by
  refine ⟨⟨rfl, rfl, rfl, rfl, ?_, rfl, rfl⟩, rfl, rfl, rfl, rfl, rfl, rfl⟩
  intro h
  show (parent.Height + 1) % 2 ^ 64 = parent.Height + 1
  exact Nat.mod_eq_of_lt (by omega)

/-- Witness for `NewBlockForTest_linkage`: the child of a block of height 7
has height 8. -/
theorem NewBlockForTest_linkage_witness :
    sampleParent.Height < 2 ^ 64 - 1 ∧
      (NewBlockForTest sampleCid (some sampleParent) 3).Height = sampleParent.Height + 1 :=
  ⟨by decide, (NewBlockForTest_linkage sampleCid sampleParent 3).1.2.2.2.2.1 (by decide)⟩

/-- Counterexample to claim C22 as stated: the child of a block of height
`2 ^ 64 - 1` has height 0, not the height of its parent plus 1. -/
theorem NewBlockForTest_linkage_counterexample :
    highestParent.Height = 2 ^ 64 - 1 ∧
      (NewBlockForTest sampleCid (some highestParent) 3).Height = 0 ∧
      (NewBlockForTest sampleCid (some highestParent) 3).Height ≠ highestParent.Height + 1 := by
  decide

end chain

namespace storagemarket

theorem findEntry_of_Find {V : Type} (l : Lookup V) (k : String) (v : V)
    (h : l.Find k = .ok v) : actor.findEntry k l.entries = some v := by
  cases hf : actor.findEntry k l.entries with
  | none => simp [actor.Lookup.Find, hf] at h
  | some c =>
    simp only [actor.Lookup.Find, hf] at h
    injection h with h
    rw [h]

/-- Two successful `UpdatePower` calls in a row: the total is the magnitude of
the second delta plus the magnitude of the total plus the first delta. -/
theorem UpdatePower_twice (first second : VMContext) (st : State) (d1 d2 : Int)
    (b1 b2 : Bool)
    (h1 : st.Miners.Find first.Message.From.String = .ok b1)
    (h2 : st.Miners.Find second.Message.From.String = .ok b2) :
    (UpdatePower first d1 st).2 =
        { st with TotalCommittedStorage := ((st.TotalCommittedStorage + d1).natAbs : Int) } ∧
      (UpdatePower second d2 (UpdatePower first d1 st).2).2 =
        { st with TotalCommittedStorage :=
            ((((st.TotalCommittedStorage + d1).natAbs : Int) + d2).natAbs : Int) } := by
  have e1 := findEntry_of_Find _ _ _ h1
  have e2 := findEntry_of_Find _ _ _ h2
  have k1 : (UpdatePower first d1 st).2 =
      { st with TotalCommittedStorage := ((st.TotalCommittedStorage + d1).natAbs : Int) } := by
    rw [UpdatePower_known first d1 st b1 e1]
    rfl
  refine ⟨k1, ?_⟩
  rw [k1, UpdatePower_known second d2
    ⟨st.Miners, st.Orderbook, ((st.TotalCommittedStorage + d1).natAbs : Int)⟩ b2 e2]
  rfl

/-- Claim C24 (UpdatePower is additive, amended): in every state, for callers
found in the miner set and all integers `d1` and `d2`, `UpdatePower d1`
followed by `UpdatePower d2` leaves the miner set and the orderbook as they
were and as total the magnitude of `d2` plus the magnitude of the total plus
`d1`; this is the state after the single `UpdatePower (d1 + d2)` if and only if
the total plus `d1` is not negative or `d2` is 0. When the total of the state
is not negative, as every committed total is, `UpdatePower d1` followed by
`UpdatePower (-d1)` restores the state if and only if the total plus `d1` is
not negative, and `UpdatePower 0` leaves the state as it is. The order of two
updates does not matter when neither the total plus `d1` nor the total plus
`d2` is negative. -/
theorem UpdatePower_additive (first second : VMContext) (st : State) (d1 d2 : Int)
    (b1 b2 : Bool)
    (h1 : st.Miners.Find first.Message.From.String = .ok b1)
    (h2 : st.Miners.Find second.Message.From.String = .ok b2) :
    (UpdatePower second d2 (UpdatePower first d1 st).2).2 =
        { st with TotalCommittedStorage :=
            ((((st.TotalCommittedStorage + d1).natAbs : Int) + d2).natAbs : Int) } ∧
      ((UpdatePower second d2 (UpdatePower first d1 st).2).2 =
          (UpdatePower first (d1 + d2) st).2 ↔
        (0 ≤ st.TotalCommittedStorage + d1 ∨ d2 = 0)) ∧
      (0 ≤ st.TotalCommittedStorage →
        ((UpdatePower second (-d1) (UpdatePower first d1 st).2).2 = st ↔
          0 ≤ st.TotalCommittedStorage + d1)) ∧
      (0 ≤ st.TotalCommittedStorage → (UpdatePower first 0 st).2 = st) ∧
      (0 ≤ st.TotalCommittedStorage + d1 → 0 ≤ st.TotalCommittedStorage + d2 →
        (UpdatePower second d2 (UpdatePower first d1 st).2).2 =
          (UpdatePower first d1 (UpdatePower second d2 st).2).2) := by
  obtain ⟨_, t12⟩ := UpdatePower_twice first second st d1 d2 b1 b2 h1 h2
  obtain ⟨_, t21⟩ := UpdatePower_twice second first st d2 d1 b2 b1 h2 h1
  obtain ⟨s12, _⟩ := UpdatePower_twice first second st (d1 + d2) 0 b1 b2 h1 h2
  obtain ⟨s0, _⟩ := UpdatePower_twice first second st 0 0 b1 b2 h1 h2
  obtain ⟨_, tneg⟩ := UpdatePower_twice first second st d1 (-d1) b1 b2 h1 h2
  rw [t12, t21, s12, s0, tneg]
  obtain ⟨miners, book, total⟩ := st
  refine ⟨rfl, ?_, ?_, ?_, ?_⟩
  · simp only [State.mk.injEq, true_and]; omega
  · intro h; simp only at h; simp only [State.mk.injEq, true_and]; omega
  · intro h; simp only at h; simp only [State.mk.injEq, true_and]; omega
  · intro h h2; simp only at h h2; simp only [State.mk.injEq, true_and]; omega

/-- Witness for `UpdatePower_additive`: the sample miner, registered and with
three sectors reported, reports five more and then the loss of three, and the
other way round. -/
theorem UpdatePower_additive_witness :
    poweredState.Miners.Find (okContext sampleMiner 0 sampleMiner).Message.From.String =
        .ok true ∧
      poweredState.TotalCommittedStorage = 3 ∧
      (UpdatePower (okContext sampleMiner 0 sampleMiner) (-3)
        (UpdatePower (okContext sampleMiner 0 sampleMiner) 5 poweredState).2).2 =
        (UpdatePower (okContext sampleMiner 0 sampleMiner) (5 + -3) poweredState).2 ∧
      (UpdatePower (okContext sampleMiner 0 sampleMiner) (-5)
        (UpdatePower (okContext sampleMiner 0 sampleMiner) 5 poweredState).2).2 = poweredState ∧
      (UpdatePower (okContext sampleMiner 0 sampleMiner) 0 poweredState).2 = poweredState ∧
      (UpdatePower (okContext sampleMiner 0 sampleMiner) (-3)
        (UpdatePower (okContext sampleMiner 0 sampleMiner) 5 poweredState).2).2 =
        (UpdatePower (okContext sampleMiner 0 sampleMiner) 5
          (UpdatePower (okContext sampleMiner 0 sampleMiner) (-3) poweredState).2).2 ∧
      (UpdatePower (okContext sampleMiner 0 sampleMiner) (5 + -3)
        poweredState).2.TotalCommittedStorage = 5 :=
  have add := UpdatePower_additive (okContext sampleMiner 0 sampleMiner)
    (okContext sampleMiner 0 sampleMiner) poweredState 5 (-3) true true (by decide) (by decide)
  ⟨by decide, by decide, add.2.1.mpr (Or.inl (by decide)),
    (add.2.2.1 (by decide)).mpr (by decide), add.2.2.2.1 (by decide),
    add.2.2.2.2 (by decide) (by decide), by decide⟩

/-- Counterexample to claim C24 as stated: the sample miner is registered and
the total is 0. `UpdatePower (-3)` followed by `UpdatePower 5` leaves a total
of 8, the single `UpdatePower (-3 + 5)` a total of 2, and `UpdatePower 5`
followed by `UpdatePower (-3)` a total of 2; `UpdatePower (-3)` followed by
`UpdatePower 3` leaves a total of 6 and not the state it started from. -/
theorem UpdatePower_additive_counterexample :
    sampleState.Miners.Find (okContext sampleMiner 0 sampleMiner).Message.From.String = .ok true ∧
      sampleState.TotalCommittedStorage = 0 ∧
      (UpdatePower (okContext sampleMiner 0 sampleMiner) 5
        (UpdatePower (okContext sampleMiner 0 sampleMiner) (-3)
          sampleState).2).2.TotalCommittedStorage = 8 ∧
      (UpdatePower (okContext sampleMiner 0 sampleMiner) (-3 + 5)
        sampleState).2.TotalCommittedStorage = 2 ∧
      (UpdatePower (okContext sampleMiner 0 sampleMiner) (-3)
        (UpdatePower (okContext sampleMiner 0 sampleMiner) 5
          sampleState).2).2.TotalCommittedStorage = 2 ∧
      (UpdatePower (okContext sampleMiner 0 sampleMiner) 3
        (UpdatePower (okContext sampleMiner 0 sampleMiner) (-3)
          sampleState).2).2.TotalCommittedStorage = 6 ∧
      ¬ (UpdatePower (okContext sampleMiner 0 sampleMiner) 5
          (UpdatePower (okContext sampleMiner 0 sampleMiner) (-3) sampleState).2).2 =
        (UpdatePower (okContext sampleMiner 0 sampleMiner) (-3 + 5) sampleState).2 ∧
      ¬ (UpdatePower (okContext sampleMiner 0 sampleMiner) 3
          (UpdatePower (okContext sampleMiner 0 sampleMiner) (-3) sampleState).2).2 =
        sampleState ∧
      ¬ (UpdatePower (okContext sampleMiner 0 sampleMiner) 5
          (UpdatePower (okContext sampleMiner 0 sampleMiner) (-3) sampleState).2).2 =
        (UpdatePower (okContext sampleMiner 0 sampleMiner) (-3)
          (UpdatePower (okContext sampleMiner 0 sampleMiner) 5 sampleState).2).2 := by
  decide

end storagemarket

/-! ## The key invariant of the orderbook -/

namespace storagemarket

/-- Looking a record up by the key of its id in the index is looking it up by
its id, as long as all ids are unsigned 64-bit values. -/
theorem findEntry_key_eq_mapGet {V : Type} (idOf : V → Nat) (i : Nat) (hi : i < 2 ^ 64)
    (L : List V) (hL : ∀ a ∈ L, idOf a < 2 ^ 64) :
    actor.findEntry (keyFromID i) (L.map fun a => (keyFromID (idOf a), a)) =
      mapGet i (L.map fun a => (idOf a, a)) := by
  induction L with
  | nil => rfl
  | cons a L ih =>
    have ha : idOf a < 2 ^ 64 := hL a (List.mem_cons_self a L)
    have ihL := ih fun x hx => hL x (List.mem_cons_of_mem a hx)
    simp only [List.map_cons, actor.findEntry, mapGet]
    by_cases h : idOf a = i
    · rw [if_pos h, if_pos (by rw [h])]
    · have hk : ¬ keyFromID (idOf a) = keyFromID i := fun hk =>
        h (keyFromID_injective _ _ ha hi hk)
      rw [if_neg h, if_neg hk]
      exact ihL

/-- The shape of the index of asks after a run from the initial state with
fewer than `2 ^ 64` successful `AddAsk` calls. -/
theorem asks_shape (ops : List Op)
    (h : (insertedAsks (replies InitializeState ops)).length < 2 ^ 64) :
    (run InitializeState ops).Orderbook.StorageAsks.entries =
        ((insertedAsks (replies InitializeState ops)).map fun a => (keyFromID a.ID, a)) ∧
      ((insertedAsks (replies InitializeState ops)).map fun a => a.ID) =
        List.range (insertedAsks (replies InitializeState ops)).length ∧
      (run InitializeState ops).Orderbook.NextSAskID =
        (insertedAsks (replies InitializeState ops)).length := by
  have hinv := asks_of_run ops InitializeState [] rfl rfl rfl
    (by rw [List.length_nil, Nat.zero_add]; omega)
  rw [List.nil_append] at hinv
  obtain ⟨hent, hid, hnext⟩ := hinv
  exact ⟨hent, hid, by rw [hnext]; exact Nat.mod_eq_of_lt h⟩

/-- What the shape of the index of asks gives: its keys, its records, the
absence of the next key, and keys that all parse. -/
theorem asks_index_facts (st : State) (L : List Ask)
    (hent : st.Orderbook.StorageAsks.entries = (L.map fun a => (keyFromID a.ID, a)))
    (hid : (L.map fun a => a.ID) = List.range L.length)
    (hnext : st.Orderbook.NextSAskID = L.length) (hlen : L.length < 2 ^ 64) :
    st.Orderbook.StorageAsks.entries.map Prod.fst =
        (List.range st.Orderbook.NextSAskID).map keyFromID ∧
      (∀ i, i < st.Orderbook.NextSAskID →
        ∃ a, st.Orderbook.StorageAsks.Find (keyFromID i) = .ok a ∧ a.ID = i) ∧
      st.Orderbook.StorageAsks.Find (keyFromID st.Orderbook.NextSAskID) = .error .ErrNotFound ∧
      (∀ kv ∈ st.Orderbook.StorageAsks.entries, ∃ id, idFromKey kv.1 = .ok id) := by
  have hmem : ∀ a ∈ L, a.ID < L.length := by
    intro a ha
    have : a.ID ∈ L.map fun a => a.ID := List.mem_map_of_mem _ ha
    rw [hid] at this
    exact List.mem_range.mp this
  have hlt : ∀ a ∈ L, a.ID < 2 ^ 64 := fun a ha => Nat.lt_trans (hmem a ha) hlen
  refine ⟨?_, ?_, ?_, ?_⟩
  · rw [hent, hnext, ← hid, List.map_map, List.map_map]
    rfl
  · intro i hi
    rw [hnext] at hi
    have hget : L[i]? = some L[i] := List.getElem?_eq_getElem hi
    have hidi : (L.map fun a => a.ID)[i]? = some (L[i]).ID := by
      rw [List.getElem?_map, hget]; rfl
    rw [hid, List.getElem?_range hi] at hidi
    injection hidi with hidi
    refine ⟨L[i], ?_, hidi.symm⟩
    have hfind : actor.findEntry (keyFromID i) st.Orderbook.StorageAsks.entries = some L[i] := by
      rw [hent, findEntry_key_eq_mapGet (fun a : Ask => a.ID) i (by omega) L hlt,
        mapGet_of_range (fun a : Ask => a.ID) L 0 (by rw [hid, List.range_eq_range']) i,
        if_neg (Nat.not_lt_zero i), Nat.sub_zero, hget]
    simp only [actor.Lookup.Find, hfind]
  · have habs : actor.findEntry (keyFromID st.Orderbook.NextSAskID)
        st.Orderbook.StorageAsks.entries = none := by
      rw [hent]
      apply findEntry_none_of_keys (fun a : Ask => keyFromID a.ID)
      intro a ha hkey
      have h1 := hmem a ha
      have := keyFromID_injective a.ID st.Orderbook.NextSAskID (by omega) (by omega) hkey
      omega
    simp only [actor.Lookup.Find, habs]
  · intro kv hkv
    rw [hent] at hkv
    obtain ⟨a, ha, hak⟩ := List.mem_map.mp hkv
    refine ⟨a.ID, ?_⟩
    rw [← hak]
    exact idFromKey_keyFromID a.ID (hlt a ha)

/-- A part of a run has no more successful `AddAsk` calls than the run. -/
theorem insertedAsks_append_le (pre suf : List Op) (st : State) :
    (insertedAsks (replies st pre)).length ≤ (insertedAsks (replies st (pre ++ suf))).length := by
  rw [replies_append]
  unfold insertedAsks
  rw [List.filterMap_append, List.length_append]
  omega

/-- A successful `AddAsk` returns the counter and commits the index with the
new ask under the key of the counter, and the counter advanced. -/
theorem AddAsk_success (vmctx : VMContext) (price : AttoFIL) (size : BytesAmount) (st : State)
    (hok : (AddAsk vmctx price size st).1.err = none) :
    AddAsk vmctx price size st =
      (⟨.bigInt (st.Orderbook.NextSAskID : Int), 0, none⟩,
        { st with Orderbook :=
          { st.Orderbook with
            NextSAskID := (st.Orderbook.NextSAskID + 1) % 2 ^ 64
            StorageAsks := ⟨actor.upsertEntry (keyFromID st.Orderbook.NextSAskID)
              ⟨st.Orderbook.NextSAskID, price, size, vmctx.Message.From⟩
              st.Orderbook.StorageAsks.entries⟩ } }) := by
  rcases AddAsk_outcome vmctx price size st with he | he
  · rw [he, Errors_UnknownMiner] at hok; cases hok
  · exact he

/-- A run that goes on with a successful `AddAsk` has one more successful
`AddAsk` call than the part before it. -/
theorem insertedAsks_succ_le (pre suf : List Op) (vmctx : VMContext) (price : AttoFIL)
    (size : BytesAmount) (st : State)
    (hok : (AddAsk vmctx price size (run st pre)).1.err = none) :
    (insertedAsks (replies st pre)).length + 1 ≤
      (insertedAsks (replies st (pre ++ ⟨vmctx, .addAsk price size⟩ :: suf))).length := by
  have hd : dispatch ⟨vmctx, .addAsk price size⟩ (run st pre) =
      AddAsk vmctx price size (run st pre) := rfl
  rw [replies_append, replies_cons, hd, AddAsk_success vmctx price size (run st pre) hok]
  unfold insertedAsks
  rw [List.filterMap_append, List.length_append]
  simp only [List.filterMap_cons, askOf, List.length_cons]
  omega

/-- A successful `AddAsk` on an index in which the key of the counter is absent,
the counter not being the last `uint64` value: the call returns the counter, the
index gains one entry, the new ask under the key of the counter, and the
counter grows by one. -/
theorem AddAsk_fresh (vmctx : VMContext) (price : AttoFIL) (size : BytesAmount) (st : State)
    (habs : st.Orderbook.StorageAsks.Find (keyFromID st.Orderbook.NextSAskID) =
      .error .ErrNotFound)
    (hnext : st.Orderbook.NextSAskID + 1 < 2 ^ 64)
    (hok : (AddAsk vmctx price size st).1.err = none) :
    (AddAsk vmctx price size st).1 = ⟨.bigInt (st.Orderbook.NextSAskID : Int), 0, none⟩ ∧
      (AddAsk vmctx price size st).2.Orderbook.StorageAsks.Find
          (keyFromID st.Orderbook.NextSAskID) =
        .ok ⟨st.Orderbook.NextSAskID, price, size, vmctx.Message.From⟩ ∧
      (AddAsk vmctx price size st).2.Orderbook.StorageAsks.entries =
        st.Orderbook.StorageAsks.entries ++
          [(keyFromID st.Orderbook.NextSAskID,
            ⟨st.Orderbook.NextSAskID, price, size, vmctx.Message.From⟩)] ∧
      (AddAsk vmctx price size st).2.Orderbook.NextSAskID = st.Orderbook.NextSAskID + 1 := by
  have hnone : actor.findEntry (keyFromID st.Orderbook.NextSAskID)
      st.Orderbook.StorageAsks.entries = none := by
    cases hf : actor.findEntry (keyFromID st.Orderbook.NextSAskID)
        st.Orderbook.StorageAsks.entries with
    | none => rfl
    | some a => simp [actor.Lookup.Find, hf] at habs
  rw [AddAsk_success vmctx price size st hok]
  refine ⟨rfl, ?_, ?_, ?_⟩
  · simp only [actor.Lookup.Find, actor.findEntry_upsertEntry_self]
  · exact actor.upsertEntry_absent _ _ _ hnone
  · exact Nat.mod_eq_of_lt hnext

/-- The shape of the index of bids after a run from the initial state with
fewer than `2 ^ 64` successful `AddBid` calls. -/
theorem bids_shape (ops : List Op)
    (h : (insertedBids (replies InitializeState ops)).length < 2 ^ 64) :
    (run InitializeState ops).Orderbook.Bids.entries =
        ((insertedBids (replies InitializeState ops)).map fun a => (keyFromID a.ID, a)) ∧
      ((insertedBids (replies InitializeState ops)).map fun a => a.ID) =
        List.range (insertedBids (replies InitializeState ops)).length ∧
      (run InitializeState ops).Orderbook.NextBidID =
        (insertedBids (replies InitializeState ops)).length := by
  have hinv := bids_of_run ops InitializeState [] rfl rfl rfl
    (by rw [List.length_nil, Nat.zero_add]; omega)
  rw [List.nil_append] at hinv
  obtain ⟨hent, hid, hnext⟩ := hinv
  exact ⟨hent, hid, by rw [hnext]; exact Nat.mod_eq_of_lt h⟩

/-- What the shape of the index of bids gives: its keys, its records, the
absence of the next key, and keys that all parse. -/
theorem bids_index_facts (st : State) (L : List Bid)
    (hent : st.Orderbook.Bids.entries = (L.map fun a => (keyFromID a.ID, a)))
    (hid : (L.map fun a => a.ID) = List.range L.length)
    (hnext : st.Orderbook.NextBidID = L.length) (hlen : L.length < 2 ^ 64) :
    st.Orderbook.Bids.entries.map Prod.fst =
        (List.range st.Orderbook.NextBidID).map keyFromID ∧
      (∀ i, i < st.Orderbook.NextBidID →
        ∃ a, st.Orderbook.Bids.Find (keyFromID i) = .ok a ∧ a.ID = i) ∧
      st.Orderbook.Bids.Find (keyFromID st.Orderbook.NextBidID) = .error .ErrNotFound ∧
      (∀ kv ∈ st.Orderbook.Bids.entries, ∃ id, idFromKey kv.1 = .ok id) := by
  have hmem : ∀ a ∈ L, a.ID < L.length := by
    intro a ha
    have : a.ID ∈ L.map fun a => a.ID := List.mem_map_of_mem _ ha
    rw [hid] at this
    exact List.mem_range.mp this
  have hlt : ∀ a ∈ L, a.ID < 2 ^ 64 := fun a ha => Nat.lt_trans (hmem a ha) hlen
  refine ⟨?_, ?_, ?_, ?_⟩
  · rw [hent, hnext, ← hid, List.map_map, List.map_map]
    rfl
  · intro i hi
    rw [hnext] at hi
    have hget : L[i]? = some L[i] := List.getElem?_eq_getElem hi
    have hidi : (L.map fun a => a.ID)[i]? = some (L[i]).ID := by
      rw [List.getElem?_map, hget]; rfl
    rw [hid, List.getElem?_range hi] at hidi
    injection hidi with hidi
    refine ⟨L[i], ?_, hidi.symm⟩
    have hfind : actor.findEntry (keyFromID i) st.Orderbook.Bids.entries = some L[i] := by
      rw [hent, findEntry_key_eq_mapGet (fun a : Bid => a.ID) i (by omega) L hlt,
        mapGet_of_range (fun a : Bid => a.ID) L 0 (by rw [hid, List.range_eq_range']) i,
        if_neg (Nat.not_lt_zero i), Nat.sub_zero, hget]
    simp only [actor.Lookup.Find, hfind]
  · have habs : actor.findEntry (keyFromID st.Orderbook.NextBidID)
        st.Orderbook.Bids.entries = none := by
      rw [hent]
      apply findEntry_none_of_keys (fun a : Bid => keyFromID a.ID)
      intro a ha hkey
      have h1 := hmem a ha
      have := keyFromID_injective a.ID st.Orderbook.NextBidID (by omega) (by omega) hkey
      omega
    simp only [actor.Lookup.Find, habs]
  · intro kv hkv
    rw [hent] at hkv
    obtain ⟨a, ha, hak⟩ := List.mem_map.mp hkv
    refine ⟨a.ID, ?_⟩
    rw [← hak]
    exact idFromKey_keyFromID a.ID (hlt a ha)

/-- A part of a run has no more successful `AddBid` calls than the run. -/
theorem insertedBids_append_le (pre suf : List Op) (st : State) :
    (insertedBids (replies st pre)).length ≤ (insertedBids (replies st (pre ++ suf))).length := by
  rw [replies_append]
  unfold insertedBids
  rw [List.filterMap_append, List.length_append]
  omega

/-- A successful `AddBid` returns the counter and commits the index with the
new bid under the key of the counter, and the counter advanced. -/
theorem AddBid_success (vmctx : VMContext) (price : AttoFIL) (size : BytesAmount) (st : State)
    (hok : (AddBid vmctx price size st).1.err = none) :
    AddBid vmctx price size st =
      (⟨.bigInt (st.Orderbook.NextBidID : Int), 0, none⟩,
        { st with Orderbook :=
          { st.Orderbook with
            NextBidID := (st.Orderbook.NextBidID + 1) % 2 ^ 64
            Bids := ⟨actor.upsertEntry (keyFromID st.Orderbook.NextBidID)
              ⟨st.Orderbook.NextBidID, price, size, vmctx.Message.From⟩
              st.Orderbook.Bids.entries⟩ } }) := by
  rcases AddBid_outcome vmctx price size st with he | he
  · rw [he, Errors_InsufficientBidFunds] at hok; cases hok
  · exact he

/-- A run that goes on with a successful `AddBid` has one more successful
`AddBid` call than the part before it. -/
theorem insertedBids_succ_le (pre suf : List Op) (vmctx : VMContext) (price : AttoFIL)
    (size : BytesAmount) (st : State)
    (hok : (AddBid vmctx price size (run st pre)).1.err = none) :
    (insertedBids (replies st pre)).length + 1 ≤
      (insertedBids (replies st (pre ++ ⟨vmctx, .addBid price size⟩ :: suf))).length := by
  have hd : dispatch ⟨vmctx, .addBid price size⟩ (run st pre) =
      AddBid vmctx price size (run st pre) := rfl
  rw [replies_append, replies_cons, hd, AddBid_success vmctx price size (run st pre) hok]
  unfold insertedBids
  rw [List.filterMap_append, List.length_append]
  simp only [List.filterMap_cons, bidOf, List.length_cons]
  omega

/-- A successful `AddBid` on an index in which the key of the counter is absent,
the counter not being the last `uint64` value: the call returns the counter, the
index gains one entry, the new bid under the key of the counter, and the
counter grows by one. -/
theorem AddBid_fresh (vmctx : VMContext) (price : AttoFIL) (size : BytesAmount) (st : State)
    (habs : st.Orderbook.Bids.Find (keyFromID st.Orderbook.NextBidID) =
      .error .ErrNotFound)
    (hnext : st.Orderbook.NextBidID + 1 < 2 ^ 64)
    (hok : (AddBid vmctx price size st).1.err = none) :
    (AddBid vmctx price size st).1 = ⟨.bigInt (st.Orderbook.NextBidID : Int), 0, none⟩ ∧
      (AddBid vmctx price size st).2.Orderbook.Bids.Find
          (keyFromID st.Orderbook.NextBidID) =
        .ok ⟨st.Orderbook.NextBidID, price, size, vmctx.Message.From⟩ ∧
      (AddBid vmctx price size st).2.Orderbook.Bids.entries =
        st.Orderbook.Bids.entries ++
          [(keyFromID st.Orderbook.NextBidID,
            ⟨st.Orderbook.NextBidID, price, size, vmctx.Message.From⟩)] ∧
      (AddBid vmctx price size st).2.Orderbook.NextBidID = st.Orderbook.NextBidID + 1 := by
  have hnone : actor.findEntry (keyFromID st.Orderbook.NextBidID)
      st.Orderbook.Bids.entries = none := by
    cases hf : actor.findEntry (keyFromID st.Orderbook.NextBidID)
        st.Orderbook.Bids.entries with
    | none => rfl
    | some a => simp [actor.Lookup.Find, hf] at habs
  rw [AddBid_success vmctx price size st hok]
  refine ⟨rfl, ?_, ?_, ?_⟩
  · simp only [actor.Lookup.Find, actor.findEntry_upsertEntry_self]
  · exact actor.upsertEntry_absent _ _ _ hnone
  · exact Nat.mod_eq_of_lt hnext

/-- Claim C23 (orderbook key invariant): in the state reached from the initial
state by a sequence of messages with fewer than `2 ^ 64` successful `AddAsk`
calls, the keys of the index of asks are exactly `keyFromID i` for `i` below
`NextSAskID`, and the record stored under `keyFromID i` has id `i`. At every
point of the sequence the key of the next id is absent from the index, and each
successful `AddAsk` of the sequence inserts under a key that was absent before
the call: it returns the counter, the index after the call is the index before
it with one entry added, the ask with that id, the price and size of the call
and the sender as owner under the key of the counter, and the counter has
grown by one. So every key of the index parses back to an id, and `GetAllAsks`
returns no error. The same holds for bids, `NextBidID`, `AddBid` and
`GetAllBids`. -/
theorem orderbook_key_invariant (ops : List Op) (vmctx : VMContext) :
    ((insertedAsks (replies InitializeState ops)).length < 2 ^ 64 →
      (run InitializeState ops).Orderbook.StorageAsks.entries.map Prod.fst =
          (List.range (run InitializeState ops).Orderbook.NextSAskID).map keyFromID ∧
        (∀ i, i < (run InitializeState ops).Orderbook.NextSAskID →
          ∃ a, (run InitializeState ops).Orderbook.StorageAsks.Find (keyFromID i) = .ok a ∧
            a.ID = i) ∧
        (∀ pre suf, ops = pre ++ suf →
          (run InitializeState pre).Orderbook.StorageAsks.Find
            (keyFromID (run InitializeState pre).Orderbook.NextSAskID) = .error .ErrNotFound) ∧
        (∀ (pre suf : List Op) (sender : VMContext) (price : AttoFIL) (size : BytesAmount),
          ops = pre ++ ⟨sender, .addAsk price size⟩ :: suf →
          (AddAsk sender price size (run InitializeState pre)).1.err = none →
            (run InitializeState pre).Orderbook.StorageAsks.Find
                (keyFromID (run InitializeState pre).Orderbook.NextSAskID) =
              .error .ErrNotFound ∧
            (AddAsk sender price size (run InitializeState pre)).1 =
              ⟨.bigInt ((run InitializeState pre).Orderbook.NextSAskID : Int), 0, none⟩ ∧
            (AddAsk sender price size (run InitializeState pre)).2.Orderbook.StorageAsks.Find
                (keyFromID (run InitializeState pre).Orderbook.NextSAskID) =
              .ok ⟨(run InitializeState pre).Orderbook.NextSAskID, price, size,
                sender.Message.From⟩ ∧
            (AddAsk sender price size (run InitializeState pre)).2.Orderbook.StorageAsks.entries =
              (run InitializeState pre).Orderbook.StorageAsks.entries ++
                [(keyFromID (run InitializeState pre).Orderbook.NextSAskID,
                  ⟨(run InitializeState pre).Orderbook.NextSAskID, price, size,
                    sender.Message.From⟩)] ∧
            (AddAsk sender price size (run InitializeState pre)).2.Orderbook.NextSAskID =
              (run InitializeState pre).Orderbook.NextSAskID + 1) ∧
        (∀ kv ∈ (run InitializeState ops).Orderbook.StorageAsks.entries,
          ∃ id, idFromKey kv.1 = .ok id) ∧
        (GetAllAsks vmctx (run InitializeState ops)).1.err = none) ∧
    ((insertedBids (replies InitializeState ops)).length < 2 ^ 64 →
      (run InitializeState ops).Orderbook.Bids.entries.map Prod.fst =
          (List.range (run InitializeState ops).Orderbook.NextBidID).map keyFromID ∧
        (∀ i, i < (run InitializeState ops).Orderbook.NextBidID →
          ∃ a, (run InitializeState ops).Orderbook.Bids.Find (keyFromID i) = .ok a ∧
            a.ID = i) ∧
        (∀ pre suf, ops = pre ++ suf →
          (run InitializeState pre).Orderbook.Bids.Find
            (keyFromID (run InitializeState pre).Orderbook.NextBidID) = .error .ErrNotFound) ∧
        (∀ (pre suf : List Op) (sender : VMContext) (price : AttoFIL) (size : BytesAmount),
          ops = pre ++ ⟨sender, .addBid price size⟩ :: suf →
          (AddBid sender price size (run InitializeState pre)).1.err = none →
            (run InitializeState pre).Orderbook.Bids.Find
                (keyFromID (run InitializeState pre).Orderbook.NextBidID) =
              .error .ErrNotFound ∧
            (AddBid sender price size (run InitializeState pre)).1 =
              ⟨.bigInt ((run InitializeState pre).Orderbook.NextBidID : Int), 0, none⟩ ∧
            (AddBid sender price size (run InitializeState pre)).2.Orderbook.Bids.Find
                (keyFromID (run InitializeState pre).Orderbook.NextBidID) =
              .ok ⟨(run InitializeState pre).Orderbook.NextBidID, price, size,
                sender.Message.From⟩ ∧
            (AddBid sender price size (run InitializeState pre)).2.Orderbook.Bids.entries =
              (run InitializeState pre).Orderbook.Bids.entries ++
                [(keyFromID (run InitializeState pre).Orderbook.NextBidID,
                  ⟨(run InitializeState pre).Orderbook.NextBidID, price, size,
                    sender.Message.From⟩)] ∧
            (AddBid sender price size (run InitializeState pre)).2.Orderbook.NextBidID =
              (run InitializeState pre).Orderbook.NextBidID + 1) ∧
        (∀ kv ∈ (run InitializeState ops).Orderbook.Bids.entries,
          ∃ id, idFromKey kv.1 = .ok id) ∧
        (GetAllBids vmctx (run InitializeState ops)).1.err = none) := by
  constructor
  · intro h
    obtain ⟨hent, hid, hnext⟩ := asks_shape ops h
    obtain ⟨f1, f2, _, f4⟩ := asks_index_facts _ _ hent hid hnext h
    refine ⟨f1, f2, ?_, ?_, f4, ?_⟩
    · intro pre suf hops
      have hpre : (insertedAsks (replies InitializeState pre)).length < 2 ^ 64 := by
        have := insertedAsks_append_le pre suf InitializeState
        rw [← hops] at this
        omega
      obtain ⟨pent, pid, pnext⟩ := asks_shape pre hpre
      exact (asks_index_facts _ _ pent pid pnext hpre).2.2.1
    · intro pre suf sender price size hops hok
      have hsucc := insertedAsks_succ_le pre suf sender price size InitializeState hok
      rw [← hops] at hsucc
      have hpre : (insertedAsks (replies InitializeState pre)).length < 2 ^ 64 := by omega
      obtain ⟨pent, pid, pnext⟩ := asks_shape pre hpre
      have habs := (asks_index_facts _ _ pent pid pnext hpre).2.2.1
      exact ⟨habs, AddAsk_fresh sender price size _ habs (by rw [pnext]; omega) hok⟩
    · rw [GetAllAsks_of_keys vmctx _ _ hent hid (Nat.le_of_lt h)]
  · intro h
    obtain ⟨hent, hid, hnext⟩ := bids_shape ops h
    obtain ⟨f1, f2, _, f4⟩ := bids_index_facts _ _ hent hid hnext h
    refine ⟨f1, f2, ?_, ?_, f4, ?_⟩
    · intro pre suf hops
      have hpre : (insertedBids (replies InitializeState pre)).length < 2 ^ 64 := by
        have := insertedBids_append_le pre suf InitializeState
        rw [← hops] at this
        omega
      obtain ⟨pent, pid, pnext⟩ := bids_shape pre hpre
      exact (bids_index_facts _ _ pent pid pnext hpre).2.2.1
    · intro pre suf sender price size hops hok
      have hsucc := insertedBids_succ_le pre suf sender price size InitializeState hok
      rw [← hops] at hsucc
      have hpre : (insertedBids (replies InitializeState pre)).length < 2 ^ 64 := by omega
      obtain ⟨pent, pid, pnext⟩ := bids_shape pre hpre
      have habs := (bids_index_facts _ _ pent pid pnext hpre).2.2.1
      exact ⟨habs, AddBid_fresh sender price size _ habs (by rw [pnext]; omega) hok⟩
    · rw [GetAllBids_of_keys vmctx _ _ hent hid (Nat.le_of_lt h)]

/-- Witness for `orderbook_key_invariant`: the sample miner is created and
posts an ask, the client posts a funded bid, the miner posts a second ask and
the client a second bid. The second ask goes under the key "1", absent before,
next to the first one under "0", and so does the second bid. -/
theorem orderbook_key_invariant_witness :
    (insertedAsks (replies InitializeState [sampleCreate, sampleAsk, sampleBid, otherAsk, sampleBid])).length < 2 ^ 64 ∧
    (insertedBids (replies InitializeState [sampleCreate, sampleAsk, sampleBid, otherAsk, sampleBid])).length < 2 ^ 64 ∧
    (run InitializeState [sampleCreate, sampleAsk, sampleBid, otherAsk, sampleBid]).Orderbook.StorageAsks.entries.map Prod.fst =
      (List.range (run InitializeState [sampleCreate, sampleAsk, sampleBid, otherAsk, sampleBid]).Orderbook.NextSAskID).map keyFromID ∧
    (run InitializeState [sampleCreate, sampleAsk, sampleBid, otherAsk, sampleBid]).Orderbook.Bids.entries.map Prod.fst =
      (List.range (run InitializeState [sampleCreate, sampleAsk, sampleBid, otherAsk, sampleBid]).Orderbook.NextBidID).map keyFromID ∧
    (run InitializeState [sampleCreate, sampleAsk, sampleBid, otherAsk, sampleBid]).Orderbook.StorageAsks.entries.map Prod.fst = ["0", "1"] ∧
    (run InitializeState [sampleCreate, sampleAsk, sampleBid, otherAsk, sampleBid]).Orderbook.Bids.entries.map Prod.fst = ["0", "1"] ∧
    ([sampleCreate, sampleAsk, sampleBid, otherAsk, sampleBid] = [sampleCreate, sampleAsk, sampleBid] ++
        ⟨okContext sampleMiner 0 sampleMiner, .addAsk 7 100⟩ :: [sampleBid] ∧
      (AddAsk (okContext sampleMiner 0 sampleMiner) 7 100
        (run InitializeState [sampleCreate, sampleAsk, sampleBid])).1.err = none ∧
      (run InitializeState [sampleCreate, sampleAsk, sampleBid]).Orderbook.NextSAskID = 1 ∧
      (run InitializeState [sampleCreate, sampleAsk, sampleBid]).Orderbook.StorageAsks.Find
          (keyFromID 1) = .error .ErrNotFound ∧
      (AddAsk (okContext sampleMiner 0 sampleMiner) 7 100
        (run InitializeState [sampleCreate, sampleAsk, sampleBid])).1 =
          ⟨.bigInt 1, 0, none⟩ ∧
      (AddAsk (okContext sampleMiner 0 sampleMiner) 7 100
        (run InitializeState [sampleCreate, sampleAsk, sampleBid])).2.Orderbook.StorageAsks.Find
          (keyFromID 1) = .ok ⟨1, 7, 100, sampleMiner⟩ ∧
      (AddAsk (okContext sampleMiner 0 sampleMiner) 7 100
        (run InitializeState [sampleCreate, sampleAsk, sampleBid])).2.Orderbook.NextSAskID =
          2) ∧
    ([sampleCreate, sampleAsk, sampleBid, otherAsk, sampleBid] = [sampleCreate, sampleAsk, sampleBid, otherAsk] ++
        ⟨okContext sampleClient 500 sampleMiner, .addBid 5 100⟩ :: [] ∧
      (AddBid (okContext sampleClient 500 sampleMiner) 5 100
        (run InitializeState [sampleCreate, sampleAsk, sampleBid, otherAsk])).1.err = none ∧
      (run InitializeState [sampleCreate, sampleAsk, sampleBid, otherAsk]).Orderbook.NextBidID
        = 1 ∧
      (run InitializeState [sampleCreate, sampleAsk, sampleBid, otherAsk]).Orderbook.Bids.Find
          (keyFromID 1) = .error .ErrNotFound ∧
      (AddBid (okContext sampleClient 500 sampleMiner) 5 100
        (run InitializeState [sampleCreate, sampleAsk, sampleBid, otherAsk])).1 =
          ⟨.bigInt 1, 0, none⟩ ∧
      (AddBid (okContext sampleClient 500 sampleMiner) 5 100
        (run InitializeState [sampleCreate, sampleAsk, sampleBid,
          otherAsk])).2.Orderbook.Bids.Find (keyFromID 1) = .ok ⟨1, 5, 100, sampleClient⟩ ∧
      (AddBid (okContext sampleClient 500 sampleMiner) 5 100
        (run InitializeState [sampleCreate, sampleAsk, sampleBid,
          otherAsk])).2.Orderbook.NextBidID = 2) ∧
    (GetAllAsks (okContext sampleClient 0 sampleMiner) (run InitializeState [sampleCreate, sampleAsk, sampleBid, otherAsk, sampleBid])).1.err = none ∧
    (GetAllBids (okContext sampleClient 0 sampleMiner) (run InitializeState [sampleCreate, sampleAsk, sampleBid, otherAsk, sampleBid])).1.err = none :=
  have asks := (orderbook_key_invariant [sampleCreate, sampleAsk, sampleBid, otherAsk, sampleBid] (okContext sampleClient 0 sampleMiner)).1 (by decide)
  have bids := (orderbook_key_invariant [sampleCreate, sampleAsk, sampleBid, otherAsk, sampleBid] (okContext sampleClient 0 sampleMiner)).2 (by decide)
  have ask2 := asks.2.2.2.1 [sampleCreate, sampleAsk, sampleBid] [sampleBid]
    (okContext sampleMiner 0 sampleMiner) 7 100 rfl (by decide)
  have bid2 := bids.2.2.2.1 [sampleCreate, sampleAsk, sampleBid, otherAsk] []
    (okContext sampleClient 500 sampleMiner) 5 100 rfl (by decide)
  ⟨by decide, by decide, asks.1, bids.1, by decide, by decide,
    ⟨rfl, by decide, by decide, ask2.1, ask2.2.1, ask2.2.2.1, ask2.2.2.2.2⟩,
    ⟨rfl, by decide, by decide, bid2.1, bid2.2.1, bid2.2.2.1, bid2.2.2.2.2⟩,
    asks.2.2.2.2.2, bids.2.2.2.2.2⟩

end storagemarket
